import Mathlib

/-! # siphondns: the tunnelling layer

A shallow embedding of `internal/codec` (`codec.go`, `ecs.go`, `qtype.go`,
`cookie.go`, `dau.go`) and of the handlers, `FetchData` and `FetchCmd` of
`internal/protocol`.

Conventions of the embedding

* a Go `byte` is a `Nat` below 256, a `uint16` a `Nat` below 65536; arithmetic
  that can wrap carries an explicit `% 65536`;
* a Go `[]byte` and a Go `string` are `List Nat` (the bytes);
* a Go function returning `(value, error)` returns `Except Fault value`, where
  `Fault.error` is a returned `error` value and `Fault.panic` a run-time panic;
  the text of a formatted error is its format string;
* `compress/zlib` is not part of the repository: `Compress` and `Decompress`
  are parameters of the codecs;
* `encoding/hex`, `encoding/base64` and the few functions of `net` the codecs
  call are modelled after the Go standard library; `net.IP.String` is a
  parameter of the ECS handler;
* a server is its struct; a handler maps a server and a request to the new
  server and the answer section; a channel is the list of the values sent on
  it and not yet received;
* the DNS exchange that carries an answer section to the client is a
  parameter, in which a reply with a label of more than 63 octets is lost.
-/

namespace Siphon

/-- Ways in which a Go call can fail: it returns a non-nil `error`, or it panics. -/
inductive Fault where
  | error (text : String)
  | panic (text : String)
  deriving DecidableEq, Repr

instance {ε α : Type} [DecidableEq ε] [DecidableEq α] : DecidableEq (Except ε α)
  | .ok a, .ok b => if h : a = b then isTrue (by rw [h]) else isFalse (by intro e; cases e; exact h rfl)
  | .error a, .error b =>
    if h : a = b then isTrue (by rw [h]) else isFalse (by intro e; cases e; exact h rfl)
  | .ok _, .error _ => isFalse (by intro e; cases e)
  | .error _, .ok _ => isFalse (by intro e; cases e)

/-- Every element of the list is a byte value. -/
def IsBytes (l : List Nat) : Prop := ∀ b ∈ l, b < 256

instance (l : List Nat) : Decidable (IsBytes l) := by
  unfold IsBytes; infer_instance

/-- The bytes of an ASCII string literal. -/
def bytesOf (s : String) : List Nat := s.toList.map Char.toNat

/-! ## encoding/hex -/

/-- The table `hextable = "0123456789abcdef"` of `encoding/hex`. -/
def hextable : List Nat :=
  [48, 49, 50, 51, 52, 53, 54, 55, 56, 57, 97, 98, 99, 100, 101, 102]

/-- Indexing `hextable[i]`. -/
def hexChar (i : Nat) : Nat := hextable.getD i 0

/-- `hex.EncodeToString`: two characters `hextable[v>>4]`, `hextable[v&0x0f]` per byte. -/
def hexEncodeToString : List Nat → List Nat
  | [] => []
  | v :: rest => hexChar (v / 16) :: hexChar (v % 16) :: hexEncodeToString rest

/-- The table `reverseHexTable` of `encoding/hex`: the value of a hex digit
(both cases are accepted), `0xff` for any other byte. -/
def reverseHexTable (c : Nat) : Nat :=
  if 48 ≤ c ∧ c ≤ 57 then c - 48
  else if 97 ≤ c ∧ c ≤ 102 then c - 97 + 10
  else if 65 ≤ c ∧ c ≤ 70 then c - 65 + 10
  else 255

/-- `hex.Decode` followed by the truncation `src[:n]` of `hex.DecodeString`:
the bytes decoded before the first fault and the error, if any
(`InvalidByteError` for a non-digit, `ErrLength` for an odd length). -/
def hexDecodeString : List Nat → List Nat × Option String
  | [] => ([], none)
  | [p] =>
    if reverseHexTable p > 15 then ([], some "encoding/hex: invalid byte")
    else ([], some "encoding/hex: odd length hex string")
  | p :: q :: rest =>
    if reverseHexTable p > 15 then ([], some "encoding/hex: invalid byte")
    else if reverseHexTable q > 15 then ([], some "encoding/hex: invalid byte")
    else
      let r := hexDecodeString rest
      ((reverseHexTable p * 16 + reverseHexTable q) % 256 :: r.1, r.2)

/-! ## encoding/base64, `StdEncoding` -/

/-- The alphabet `encodeStd` of `encoding/base64`:
`A`-`Z`, `a`-`z`, `0`-`9`, `+`, `/`. -/
def encodeStd : List Nat :=
  [65, 66, 67, 68, 69, 70, 71, 72, 73, 74, 75, 76, 77, 78, 79, 80, 81, 82, 83, 84, 85, 86, 87,
   88, 89, 90,
   97, 98, 99, 100, 101, 102, 103, 104, 105, 106, 107, 108, 109, 110, 111, 112, 113, 114, 115,
   116, 117, 118, 119, 120, 121, 122,
   48, 49, 50, 51, 52, 53, 54, 55, 56, 57, 43, 47]

/-- The padding character `=` of `StdEncoding`. -/
def padChar : Nat := 61

/-- Indexing `enc.encode[i]`. -/
def b64Char (i : Nat) : Nat := encodeStd.getD i 0

/-- The table `enc.decodeMap`: the index of an alphabet byte, `0xff` for any other byte. -/
def decodeMap (c : Nat) : Nat :=
  if encodeStd.indexOf c < 64 then encodeStd.indexOf c else 255

/-- `base64.StdEncoding.EncodedLen`. -/
def b64EncodedLen (n : Nat) : Nat := (n + 2) / 3 * 4

/-- `base64.StdEncoding.DecodedLen` (padded encoding). -/
def b64DecodedLen (n : Nat) : Nat := n / 4 * 3

/-- `base64.StdEncoding.Encode`: whole groups of three bytes give four
characters; a remainder of one or two bytes gives two or three characters
followed by padding. -/
def b64Encode : List Nat → List Nat
  | [] => []
  | [a] =>
    let val := a * 65536
    [b64Char (val / 262144 % 64), b64Char (val / 4096 % 64), padChar, padChar]
  | [a, b] =>
    let val := a * 65536 + b * 256
    [b64Char (val / 262144 % 64), b64Char (val / 4096 % 64), b64Char (val / 64 % 64), padChar]
  | a :: b :: c :: rest =>
    let val := a * 65536 + b * 256 + c
    b64Char (val / 262144 % 64) :: b64Char (val / 4096 % 64) :: b64Char (val / 64 % 64) ::
      b64Char (val % 64) :: b64Encode rest

/-- The error of `base64` for any malformed input. -/
def corruptInput : Fault := Fault.error "illegal base64 data"

/-- The quanta of `base64.StdEncoding.Decode` on an input from which the
ignored `\r` and `\n` have been removed: four alphabet characters give three
bytes; padding is accepted only in the last quantum, in the third and fourth
or in the fourth position, and must end the input; an incomplete quantum is
corrupt. The bytes are those of `val = d0<<18 | d1<<12 | d2<<6 | d3`. -/
def b64DecodeQuanta : List Nat → Except Fault (List Nat)
  | [] => .ok []
  | c0 :: c1 :: c2 :: c3 :: rest =>
    if decodeMap c0 = 255 ∨ decodeMap c1 = 255 then .error corruptInput
    else if decodeMap c2 = 255 then
      if c2 = padChar ∧ c3 = padChar ∧ rest = [] then
        let val := decodeMap c0 * 262144 + decodeMap c1 * 4096
        .ok [val / 65536 % 256]
      else .error corruptInput
    else if decodeMap c3 = 255 then
      if c3 = padChar ∧ rest = [] then
        let val := decodeMap c0 * 262144 + decodeMap c1 * 4096 + decodeMap c2 * 64
        .ok [val / 65536 % 256, val / 256 % 256]
      else .error corruptInput
    else
      let val := decodeMap c0 * 262144 + decodeMap c1 * 4096 + decodeMap c2 * 64 + decodeMap c3
      match b64DecodeQuanta rest with
      | .ok out => .ok (val / 65536 % 256 :: val / 256 % 256 :: val % 256 :: out)
      | .error e => .error e
  | _ => .error corruptInput

/-- `base64.StdEncoding.Decode`: the bytes written to `dst` (the returned
count is their number); `\r` and `\n` are skipped. -/
def b64Decode (src : List Nat) : Except Fault (List Nat) :=
  b64DecodeQuanta (src.filter (fun c => c ≠ 10 ∧ c ≠ 13))

/-- The pattern `msg := make([]byte, DecodedLen(len(src))); _, err := Decode(msg, src)`
used by the ECS and DAU codecs: the buffer is not cut to the decoded count, so
the bytes after it keep their initial zero. -/
def b64DecodeBuffer (src : List Nat) : Except Fault (List Nat) :=
  match b64Decode src with
  | .ok out => .ok (out ++ List.replicate (b64DecodedLen src.length - out.length) 0)
  | .error e => .error e

/-! ## compress/zlib -/

/-- The two functions of `compress/zlib` the codecs call. `Compress` returns the
bytes of `buf.Bytes()` (its error is always nil and is dropped by every `Encode`);
`Decompress` returns the inflated bytes or the text of the error of the reader. -/
structure Zlib where
  Compress : List Nat → List Nat
  Decompress : List Nat → Except String (List Nat)

/-- The return `codec.Decompress(msg)` that ends every `Decode`. -/
def Zlib.run (z : Zlib) (msg : List Nat) : Except Fault (List Nat) :=
  match z.Decompress msg with
  | .ok out => .ok out
  | .error err => .error (.error err)

/-- The reader inverts the writer and does not read past the end of the
stream: bytes that follow the stream are ignored. -/
def Zlib.Lawful (z : Zlib) : Prop :=
  ∀ p : List Nat, IsBytes p → ∀ t : List Nat, z.Decompress (z.Compress p ++ t) = .ok p

/-- The writer produces bytes. -/
def Zlib.BytesOut (z : Zlib) : Prop :=
  ∀ p : List Nat, IsBytes p → IsBytes (z.Compress p)

/-- The stream of a payload is never empty (a zlib stream has a header and a checksum). -/
def Zlib.NonEmpty (z : Zlib) : Prop :=
  ∀ p : List Nat, z.Compress p ≠ []

/-! ## net -/

/-- `net.IP`: a byte slice, four bytes or sixteen bytes long for an address. -/
abbrev IP := List Nat

/-- The prefix `v4InV6Prefix` of an IPv4 address in its 16-byte form. -/
def v4InV6Prefix : List Nat := [0, 0, 0, 0, 0, 0, 0, 0, 0, 0, 255, 255]

/-- `net.IPv4(a, b, c, d)`: the 16-byte form of the address. -/
def IPv4 (a b c d : Nat) : IP := v4InV6Prefix ++ [a, b, c, d]

/-- `IP.To4`: the 4-byte form of an IPv4 address, `none` (Go: nil) otherwise. -/
def IP.To4 (ip : IP) : Option IP :=
  if ip.length = 4 then some ip
  else if ip.length = 16 ∧ ip.take 10 = List.replicate 10 0 ∧ ip.getD 10 0 = 255 ∧
      ip.getD 11 0 = 255 then some (ip.drop 12)
  else none

/-- `IP.Equal`: equal byte slices, or the same IPv4 address in its two forms. -/
def IP.Equal (ip x : IP) : Bool :=
  if ip.length = x.length then ip == x
  else if ip.length = 4 ∧ x.length = 16 then x.take 12 == v4InV6Prefix && ip == x.drop 12
  else if ip.length = 16 ∧ x.length = 4 then ip.take 12 == v4InV6Prefix && ip.drop 12 == x
  else false

/-- `net.IPNet` of an IPv4 network: network number and mask, four bytes each. -/
structure IPNet where
  IP : List Nat
  Mask : List Nat
  deriving DecidableEq, Repr

/-- `net.CIDRMask(ones, 32)`: `ones` leading one bits. -/
def CIDRMask (ones : Nat) : List Nat :=
  (List.range 4).map (fun i => 256 - 2 ^ (8 - min 8 (ones - 8 * i)))

/-- `net.ParseCIDR` of the text `a.b.c.d/ones`: the address masked, and the mask. -/
def ParseCIDR (addr : Nat × Nat × Nat × Nat × Nat) : IPNet :=
  let m := CIDRMask addr.2.2.2.2
  { IP := List.zipWith (fun x y => x &&& y) [addr.1, addr.2.1, addr.2.2.1, addr.2.2.2.1] m
    Mask := m }

/-- The loop of `IPNet.Contains`: false at the first byte on which the masked
address and the masked network number differ. -/
def maskedEq : List Nat → List Nat → List Nat → Bool
  | n :: nn, m :: ms, x :: xs => if n &&& m ≠ x &&& m then false else maskedEq nn ms xs
  | _, _, _ => true

/-- `IPNet.Contains`: the address takes its 4-byte form when it has one, must
have the length of the network number, and must agree with it under the mask. -/
def IPNet.Contains (n : IPNet) (ip : List Nat) : Bool :=
  let ip4 := match IP.To4 ip with
    | some x => x
    | none => ip
  if ip4.length ≠ n.IP.length then false else maskedEq n.IP n.Mask ip4

/-! ## codec.go -/

/-- The slice `data[1 : len(data)-1]` every `Decode` ranges over. -/
def innerAtoms {α : Type} (data : List α) : List α := (data.take (data.length - 1)).drop 1

/-- `HexCmdEncoder.EncodeCmd`: `fmt.Sprintf("%s.", hex.EncodeToString([]byte(data)))`. -/
def EncodeCmd (data : List Nat) : List Nat := hexEncodeToString data ++ [46]

/-- `HexCmdEncoder.DecodeCmd`: `hex.DecodeString(data[:len(data)-1])`; the slice
expression panics on the empty string; otherwise the decoded text and the
error of `hex.DecodeString` are returned together. -/
def DecodeCmd (data : List Nat) : Except Fault (List Nat × Option String) :=
  if data.length = 0 then .error (.panic "slice bounds out of range [:-1]")
  else .ok (hexDecodeString (data.take (data.length - 1)))

/-! ## ecs.go -/

/-- The `EcsCodec` struct; `RESERVED` holds each CIDR text `a.b.c.d/n` as
`(a, b, c, d, n)`. -/
structure EcsCodec where
  PROLOGUE : IP
  EPILOGUE : IP
  RESERVED : List (Nat × Nat × Nat × Nat × Nat)

/-- `NewEcsCodec`. `net.ParseIP` returns an IPv4 address in its 16-byte form. -/
def NewEcsCodec : EcsCodec :=
  { PROLOGUE := IPv4 13 3 7 0
    EPILOGUE := IPv4 7 3 13 0
    RESERVED := [
      (0, 0, 0, 0, 8),
      (10, 0, 0, 0, 8),
      (100, 64, 0, 0, 10),
      (127, 0, 0, 0, 8),
      (169, 254, 0, 0, 16),
      (172, 16, 0, 0, 12),
      (192, 0, 0, 0, 24),
      (192, 0, 2, 0, 24),
      (192, 88, 99, 0, 24),
      (192, 168, 0, 0, 16),
      (198, 18, 0, 0, 15),
      (198, 51, 100, 0, 24),
      (203, 0, 113, 0, 24),
      (224, 0, 0, 0, 4),
      (233, 252, 0, 0, 24),
      (240, 0, 0, 0, 4),
      (255, 255, 255, 255, 32)] }

/-- `EcsCodec.GetPrologue`. -/
def EcsCodec.GetPrologue (codec : EcsCodec) : IP := codec.PROLOGUE

/-- `EcsCodec.GetEpilogue`. -/
def EcsCodec.GetEpilogue (codec : EcsCodec) : IP := codec.EPILOGUE

/-- `EcsCodec.isReserved`: true at the first block of `RESERVED` that contains `ip`. -/
def EcsCodec.isReserved (codec : EcsCodec) (ip : IP) : Bool :=
  codec.RESERVED.any (fun addr => (ParseCIDR addr).Contains ip)

/-- One iteration of the first loop of `EcsCodec.Encode` over the base64
bytes; the state is `(currentPart, result)`. -/
def EcsCodec.encodeStep (codec : EcsCodec) (st : List Nat × List IP) (char : Nat) :
    List Nat × List IP :=
  let currentPart := st.1 ++ [char]
  if currentPart.length = 3 then
    let encodedPart := IPv4 (currentPart.getD 0 0) (currentPart.getD 1 0) (currentPart.getD 2 0) 0
    if codec.isReserved encodedPart then
      ([], st.2 ++ [IPv4 1 (currentPart.getD 0 0) (currentPart.getD 1 0) 0,
                    IPv4 1 (currentPart.getD 2 0) 0 0])
    else
      ([], st.2 ++ [encodedPart])
  else (currentPart, st.2)

/-- The atoms `EcsCodec.Encode` emits for the base64 stream `msg`, prologue
included: the first loop, then one atom `1.x.0.0` for each byte left in
`currentPart`. -/
def EcsCodec.expand (codec : EcsCodec) (msg : List Nat) : List IP :=
  let st := msg.foldl codec.encodeStep ([], [codec.PROLOGUE])
  st.2 ++ st.1.map (fun part => IPv4 1 part 0 0)

/-- `EcsCodec.Encode`. -/
def EcsCodec.Encode (z : Zlib) (codec : EcsCodec) (data : List Nat) : List IP :=
  codec.expand (b64Encode (z.Compress data)) ++ [codec.EPILOGUE]

/-- The bytes one inner atom contributes in `EcsCodec.Decode`: those of
`part.To4()` that are neither 0 nor 1. -/
def ecsAtomBytes (part : IP) : List Nat :=
  match IP.To4 part with
  | some b => b.filter (fun char => char ≠ 0 ∧ char ≠ 1)
  | none => []

/-- The part of `EcsCodec.Decode` before `codec.Decompress(msg)`: the result is `msg`.
The epilogue branch formats `data[len(data)]`, an index out of range. -/
def EcsCodec.decodeMsg (codec : EcsCodec) (data : List IP) : Except Fault (List Nat) :=
  if data.length < 3 then .error (.error "Message too short")
  else if !(IP.Equal (data.getD 0 []) codec.PROLOGUE) then
    .error (.error "Unexpected prologue: %v")
  else if !(IP.Equal (data.getD (data.length - 1) []) codec.EPILOGUE) then
    .error (.panic "index out of range")
  else
    b64DecodeBuffer ((innerAtoms data).flatMap ecsAtomBytes)

/-- `EcsCodec.Decode`. -/
def EcsCodec.Decode (z : Zlib) (codec : EcsCodec) (data : List IP) : Except Fault (List Nat) :=
  match codec.decodeMsg data with
  | .ok msg => z.run msg
  | .error e => .error e

/-! ## qtype.go -/

/-- The `QtypeCodec` struct. -/
structure QtypeCodec where
  PROLOGUE : Nat
  EPILOGUE : Nat
  OFFSET : Nat

/-- `NewQtypeCodec`. -/
def NewQtypeCodec : QtypeCodec := { PROLOGUE := 12345, EPILOGUE := 56789, OFFSET := 512 }

/-- `QtypeCodec.GetPrologue`. -/
def QtypeCodec.GetPrologue (codec : QtypeCodec) : Nat := codec.PROLOGUE

/-- `QtypeCodec.GetEpilogue`. -/
def QtypeCodec.GetEpilogue (codec : QtypeCodec) : Nat := codec.EPILOGUE

/-- The loop of `QtypeCodec.Encode` over `compressed`, two bytes per
iteration: `binary.LittleEndian.Uint16` of a pair, `uint16` of a last single
byte, and the `uint16` sum `val + codec.OFFSET`. -/
def QtypeCodec.pack (codec : QtypeCodec) : List Nat → List Nat
  | [] => []
  | [b] => [(b % 65536 + codec.OFFSET) % 65536]
  | lo :: hi :: rest =>
    ((lo + hi * 256) % 65536 + codec.OFFSET) % 65536 :: QtypeCodec.pack codec rest

/-- `QtypeCodec.Encode`. -/
def QtypeCodec.Encode (z : Zlib) (codec : QtypeCodec) (data : List Nat) : List Nat :=
  [codec.PROLOGUE] ++ codec.pack (z.Compress data) ++ [codec.EPILOGUE]

/-- The two bytes `binary.LittleEndian.PutUint16` writes for the `uint16`
difference `val - codec.OFFSET`. -/
def QtypeCodec.unpack (codec : QtypeCodec) (val : Nat) : List Nat :=
  let v := (val % 65536 + 65536 - codec.OFFSET % 65536) % 65536
  [v % 256, v / 256 % 256]

/-- The part of `QtypeCodec.Decode` before `codec.Decompress(msg)`: the result is `msg`.
The epilogue branch formats `data[len(data)]`, an index out of range. -/
def QtypeCodec.decodeMsg (codec : QtypeCodec) (data : List Nat) : Except Fault (List Nat) :=
  if data.length < 3 then .error (.error "Message too short")
  else if !(data.getD 0 0 == codec.PROLOGUE) then .error (.error "Unexpected prologue: %v")
  else if !(data.getD (data.length - 1) 0 == codec.EPILOGUE) then
    .error (.panic "index out of range")
  else
    .ok ((innerAtoms data).flatMap codec.unpack)

/-- `QtypeCodec.Decode`. -/
def QtypeCodec.Decode (z : Zlib) (codec : QtypeCodec) (data : List Nat) :
    Except Fault (List Nat) :=
  match codec.decodeMsg data with
  | .ok msg => z.run msg
  | .error e => .error e

/-! ## cookie.go and dau.go -/

/-- The loop `for i := 0; i < len(s); i += chunkSize` of both `chunkify`
methods, appending `s[i:end]` with `end = min(i+chunkSize, len(s))`. The first
argument bounds the number of iterations; `len(s)` iterations are enough when
`chunkSize` is positive. -/
def chunkLoop (s : List Nat) (chunkSize : Nat) : Nat → Nat → List (List Nat) → List (List Nat)
  | 0, _, chunks => chunks
  | fuel + 1, i, chunks =>
    if i < s.length then
      let e := if i + chunkSize > s.length then s.length else i + chunkSize
      chunkLoop s chunkSize fuel (i + chunkSize) (chunks ++ [(s.take e).drop i])
    else chunks

/-- The `CookieCodec` struct. -/
structure CookieCodec where
  PROLOGUE : List Nat
  EPILOGUE : List Nat

/-- `NewCookieCodec`. -/
def NewCookieCodec : CookieCodec :=
  { PROLOGUE := bytesOf "13371337133713371337133713371337"
    EPILOGUE := bytesOf "73317331733173317331733173317331" }

/-- `CookieCodec.GetPrologue`. -/
def CookieCodec.GetPrologue (codec : CookieCodec) : List Nat := codec.PROLOGUE

/-- `CookieCodec.GetEpilogue`. -/
def CookieCodec.GetEpilogue (codec : CookieCodec) : List Nat := codec.EPILOGUE

/-- `CookieCodec.chunkify`, called with the positive `len(codec.PROLOGUE)`. -/
def CookieCodec.chunkify (s : List Nat) (chunkSize : Nat) : List (List Nat) :=
  chunkLoop s chunkSize s.length 0 []

/-- `CookieCodec.Encode`. -/
def CookieCodec.Encode (z : Zlib) (codec : CookieCodec) (data : List Nat) : List (List Nat) :=
  [codec.PROLOGUE] ++
    CookieCodec.chunkify (hexEncodeToString (z.Compress data)) codec.PROLOGUE.length ++
    [codec.EPILOGUE]

/-- The part of `CookieCodec.Decode` before `codec.Decompress(msg)`: the result is `msg`.
The epilogue branch formats `data[len(data)]`, an index out of range. -/
def CookieCodec.decodeMsg (codec : CookieCodec) (data : List (List Nat)) :
    Except Fault (List Nat) :=
  if data.length < 3 then .error (.error "Message too short")
  else if !(data.getD 0 [] == codec.PROLOGUE) then .error (.error "Unexpected prologue: %v")
  else if !(data.getD (data.length - 1) [] == codec.EPILOGUE) then
    .error (.panic "index out of range")
  else
    match hexDecodeString (innerAtoms data).flatten with
    | (msg, none) => .ok msg
    | (_, some err) => .error (.error err)

/-- `CookieCodec.Decode`. -/
def CookieCodec.Decode (z : Zlib) (codec : CookieCodec) (data : List (List Nat)) :
    Except Fault (List Nat) :=
  match codec.decodeMsg data with
  | .ok msg => z.run msg
  | .error e => .error e

/-- The `DauCodec` struct. -/
structure DauCodec where
  PROLOGUE : List Nat
  EPILOGUE : List Nat

/-- `NewDauCodec`. -/
def NewDauCodec : DauCodec :=
  { PROLOGUE := [1, 3, 3, 7, 1, 3, 3, 7]
    EPILOGUE := [7, 3, 3, 1, 7, 3, 3, 1] }

/-- `DauCodec.GetPrologue`. -/
def DauCodec.GetPrologue (codec : DauCodec) : List Nat := codec.PROLOGUE

/-- `DauCodec.GetEpilogue`. -/
def DauCodec.GetEpilogue (codec : DauCodec) : List Nat := codec.EPILOGUE

/-- `DauCodec.chunkify`: nil when `chunkSize <= 0`. -/
def DauCodec.chunkify (s : List Nat) (chunkSize : Nat) : List (List Nat) :=
  if chunkSize = 0 then [] else chunkLoop s chunkSize s.length 0 []

/-- `DauCodec.Encode`. -/
def DauCodec.Encode (z : Zlib) (codec : DauCodec) (data : List Nat) : List (List Nat) :=
  [codec.PROLOGUE] ++ DauCodec.chunkify (b64Encode (z.Compress data)) 64 ++ [codec.EPILOGUE]

/-- The part of `DauCodec.Decode` before `codec.Decompress(msg)`: the result is `msg`.
The epilogue branch formats `data[len(data)]`, an index out of range. -/
def DauCodec.decodeMsg (codec : DauCodec) (data : List (List Nat)) : Except Fault (List Nat) :=
  if data.length < 3 then .error (.error "Message too short")
  else if !(data.getD 0 [] == codec.PROLOGUE) then .error (.error "Unexpected prologue: %v")
  else if !(data.getD (data.length - 1) [] == codec.EPILOGUE) then
    .error (.panic "index out of range")
  else
    b64DecodeBuffer (innerAtoms data).flatten

/-- `DauCodec.Decode`. -/
def DauCodec.Decode (z : Zlib) (codec : DauCodec) (data : List (List Nat)) :
    Except Fault (List Nat) :=
  match codec.decodeMsg data with
  | .ok msg => z.run msg
  | .error e => .error e

/-! ## Reference expansion of the ECS channel -/

/-- The atoms of one base64 triple as the specification words them: the
address `a.b.c.0` when it is in no reserved block, the two escape atoms
`1.a.b.0` and `1.c.0.0` otherwise. -/
def ecsTriple (codec : EcsCodec) (a b c : Nat) : List IP :=
  if codec.isReserved (IPv4 a b c 0) then [IPv4 1 a b 0, IPv4 1 c 0 0] else [IPv4 a b c 0]

/-- The expansion of a base64 stream as the specification words it: the
stream is consumed three bytes at a time, and each of the one or two bytes
left over gives one escape atom `1.x.0.0`. -/
def ecsReference (codec : EcsCodec) : List Nat → List IP
  | [] => []
  | [x] => [IPv4 1 x 0 0]
  | [x, y] => [IPv4 1 x 0 0, IPv4 1 y 0 0]
  | a :: b :: c :: rest => ecsTriple codec a b c ++ ecsReference codec rest

/-! ## A stand-in for zlib -/

/-- The body of a toy stream format used to instantiate the `Zlib` parameter:
payload bytes are copied, a zero byte is written as `0, 1`, and `0, 0` ends
the stream. -/
def rawBody : List Nat → List Nat
  | [] => [0, 0]
  | b :: rest => if b = 0 then 0 :: 1 :: rawBody rest else b :: rawBody rest

/-- The reader of the toy body: it stops at the end marker. -/
def rawInflate : List Nat → Except String (List Nat)
  | [] => .error "unexpected EOF"
  | [_] => .error "unexpected EOF"
  | b :: c :: rest =>
    if b = 0 then
      if c = 0 then .ok []
      else
        match rawInflate rest with
        | .ok out => .ok (0 :: out)
        | .error e => .error e
    else
      match rawInflate (c :: rest) with
      | .ok out => .ok (b :: out)
      | .error e => .error e

/-- The reader of the toy format: the two header bytes `0x78 0x9c`, then the body. -/
def rawDecompress : List Nat → Except String (List Nat)
  | 120 :: 156 :: rest => rawInflate rest
  | _ => .error "zlib: invalid header"

/-- The toy stream format as a `Zlib`. -/
def rawZlib : Zlib :=
  { Compress := fun p => 120 :: 156 :: rawBody p
    Decompress := rawDecompress }

/-! ## Auxiliary notions of the statements -/

/-- Every byte of the list is an alphabet character or the padding character. -/
def IsB64Text (l : List Nat) : Prop := ∀ c ∈ l, 43 ≤ c ∧ c ≤ 122

/-- The number of zero bytes left in the decode buffer after the decoded bytes. -/
def b64Slack (n : Nat) : Nat := b64DecodedLen (b64EncodedLen n) - n

/-- The sixteen bytes whose hex text is the COOKIE prologue. -/
def cookiePrologueBytes : List Nat :=
  [19, 55, 19, 55, 19, 55, 19, 55, 19, 55, 19, 55, 19, 55, 19, 55]

/-- The sixteen bytes whose hex text is the COOKIE epilogue. -/
def cookieEpilogueBytes : List Nat :=
  [115, 49, 115, 49, 115, 49, 115, 49, 115, 49, 115, 49, 115, 49, 115, 49]

/-! ## protocol: DNS messages

Only what the handlers and the clients of `internal/protocol` read and write
is kept of a `dns.Msg`: the name and type of the first question, the options
of the OPT record, and the `Answer` section. A channel is the list of the
values sent on it and not yet received, oldest first; its capacity of 10 and
the blocking of a full channel are not modelled. -/

/-- `dns.RR_Header`. -/
structure RR_Header where
  Name : List Nat
  Rrtype : Nat
  Class : Nat
  Ttl : Nat
  deriving DecidableEq, Repr

/-- `dns.RR`: the record types the protocols build, with the fields they set;
`Header` is a bare `*dns.RR_Header` used as a record. -/
inductive RR where
  | SOA (Hdr : RR_Header) (Ns Mbox : List Nat) (Serial Refresh Retry Expire Minttl : Nat)
  | SVCB (Hdr : RR_Header) (Target : List Nat)
  | KX (Hdr : RR_Header) (Exchanger : List Nat)
  | NAPTR (Hdr : RR_Header) (Regexp : List Nat)
  | Header (Hdr : RR_Header)
  deriving DecidableEq, Repr

/-- The method `Header()` of a record. -/
def RR.Hdr : RR → RR_Header
  | .SOA h _ _ _ _ _ _ _ => h
  | .SVCB h _ => h
  | .KX h _ => h
  | .NAPTR h _ => h
  | .Header h => h

/-- `dns.TypeSOA`. -/
def TypeSOA : Nat := 6

/-- `dns.TypeNAPTR`. -/
def TypeNAPTR : Nat := 35

/-- `dns.TypeKX`. -/
def TypeKX : Nat := 36

/-- `dns.TypeSVCB`. -/
def TypeSVCB : Nat := 64

/-- `dns.ClassINET`. -/
def ClassINET : Nat := 1

/-- `dns.EDNS0`: the options the handlers look for, and any other option. -/
inductive EDNS0 where
  | SUBNET (Address : IP)
  | COOKIE (Code : Nat) (Cookie : List Nat)
  | DAU (AlgCode : List Nat)
  | other (Code : Nat)
  deriving DecidableEq, Repr

/-- The request `r *dns.Msg` as a handler reads it: `r.Question[0].Name`,
`r.Question[0].Qtype`, and the options of `r.IsEdns0()` (`none` when the
request has no OPT record). -/
structure Query where
  Name : List Nat
  Qtype : Nat
  Edns : Option (List EDNS0)
  deriving DecidableEq, Repr

/-- The SOA record every handler answers a `dns.TypeSOA` question with. -/
def soaAnswer (name cmd : List Nat) : RR :=
  .SOA { Name := name, Rrtype := TypeSOA, Class := ClassINET, Ttl := 0 }
    (EncodeCmd cmd) (bytesOf "kek.pek.") 3 1 3 3 7

/-- The idiom `decoded, err := proto.codec.Decode(buf); if err != nil { print }`:
an error leaves `decoded` nil, a panic is not caught. -/
def decodedOrNil (r : Except Fault (List Nat)) : Except Fault (List Nat) :=
  match r with
  | .ok decoded => .ok decoded
  | .error (.error _) => .ok []
  | .error (.panic t) => .error (.panic t)

/-- The `FetchCmd` method, the same in the four clients, applied to the result
of `proto.resolve(dns.TypeSOA, ...)`: the answer section or the error of the
exchange. -/
def FetchCmd (cmdResponse : Except String (List RR)) : Except Fault (List Nat) :=
  match cmdResponse with
  | .error err => .error (.error err)
  | .ok [.SOA _ ns _ _ _ _ _ _] =>
    match DecodeCmd ns with
    | .error e => .error e
    | .ok (decoded, none) => .ok decoded
    | .ok (_, some _) => .error (.error "Unexpected content of SOA record")
  | .ok [_] => .error (.error "Unexpected response instead of SOA record")
  | .ok _ => .error (.error "Unexpected amount of DNS answers")

/-! ## protocol/qtype.go -/

/-- The `QtypeProtoServer` struct; `c` is the channel of decoded payloads. -/
structure QtypeProtoServer where
  cmd : List Nat
  listening : Bool
  buf : List Nat
  c : List (List Nat)
  deriving DecidableEq, Repr

/-- `QtypeProtoServer.serverHandler`: the new state and `msg.Answer`. -/
def QtypeProtoServer.serverHandler (z : Zlib) (proto : QtypeProtoServer) (r : Query) :
    Except Fault (QtypeProtoServer × List RR) :=
  let qtype := r.Qtype
  if qtype = TypeSOA then
    .ok (proto, [soaAnswer r.Name proto.cmd])
  else
    let chunk := qtype
    let buf0 := if chunk = NewQtypeCodec.GetPrologue then [] else proto.buf
    let buf1 := buf0 ++ [chunk]
    let answer := [RR.Header { Name := r.Name, Rrtype := qtype, Class := ClassINET,
                               Ttl := buf1.length }]
    if chunk = NewQtypeCodec.GetEpilogue then
      match decodedOrNil (NewQtypeCodec.Decode z buf1) with
      | .ok decoded =>
        .ok ({ proto with buf := buf1, cmd := [], c := proto.c ++ [decoded] }, answer)
      | .error e => .error e
    else
      .ok ({ proto with buf := buf1 }, answer)

/-- The test of `QtypeProtoClient.Send` on the answer to the atom `part` at
position `i`: a first record whose `Rrtype` is `part` and whose `Ttl` is `i+1`. -/
def QtypeProtoClient.ackOk (answer : List RR) (part i : Nat) : Bool :=
  match answer with
  | [] => false
  | a :: _ => a.Hdr.Rrtype == part && a.Hdr.Ttl == i + 1

/-- The handler applied to one question per atom, in order, each question for
the name `name` and without options: the final state and the answer sections. -/
def QtypeProtoServer.deliver (z : Zlib) (name : List Nat) :
    QtypeProtoServer → List Nat → Except Fault (QtypeProtoServer × List (List RR))
  | proto, [] => .ok (proto, [])
  | proto, part :: rest =>
    match proto.serverHandler z { Name := name, Qtype := part, Edns := none } with
    | .error e => .error e
    | .ok (proto1, answer) =>
      match QtypeProtoServer.deliver z name proto1 rest with
      | .error e => .error e
      | .ok (proto2, answers) => .ok (proto2, answer :: answers)

/-! ## protocol/ecs.go, protocol/cookie.go, protocol/dau.go -/

/-- The loop of the three `FetchData` methods over the atoms received from the
channel: a prologue empties `buf`, every atom is appended, an epilogue closes
the frame. The result is the closed `buf` and the atoms left on the channel;
`none` when the channel yields no epilogue, the receive then blocking. -/
def fetchLoop {α : Type} (isPrologue isEpilogue : α → Bool) : List α → List α →
    Option (List α × List α)
  | [], _ => none
  | part :: rest, buf =>
    let buf0 := if isPrologue part then [] else buf
    let buf1 := buf0 ++ [part]
    if isEpilogue part then some (buf1, rest) else fetchLoop isPrologue isEpilogue rest buf1

/-- The `EcsProtoServer` struct; `c` is the channel of atoms. -/
structure EcsProtoServer where
  cmd : List Nat
  listening : Bool
  c : List IP
  deriving DecidableEq, Repr

/-- The first `*dns.EDNS0_SUBNET` among the options: the loop of the ECS
handler stops at it. -/
def firstSubnet : List EDNS0 → Option IP
  | [] => none
  | .SUBNET addr :: _ => some addr
  | _ :: rest => firstSubnet rest

/-- `EcsProtoServer.serverHandler`: the new state and `msg.Answer`; `str` is
`net.IP.String`. Without a subnet option `ip` stays `net.ParseIP("0.0.0.0")`. -/
def EcsProtoServer.serverHandler (str : IP → List Nat) (proto : EcsProtoServer) (r : Query) :
    EcsProtoServer × List RR :=
  if r.Qtype = TypeSOA then
    (proto, [soaAnswer r.Name proto.cmd])
  else
    let found := match r.Edns with
      | some opts => firstSubnet opts
      | none => none
    let ip := match found with
      | some addr => addr
      | none => IPv4 0 0 0 0
    let proto1 := match found with
      | some addr => if proto.listening then { proto with c := proto.c ++ [addr] } else proto
      | none => proto
    (proto1, [RR.SVCB { Name := r.Name, Rrtype := TypeSVCB, Class := ClassINET, Ttl := 0 }
                (str ip ++ bytesOf ".")])

/-- `EcsProtoServer.FetchData`: `none` when the call blocks for ever, a panic of
`Decode` is passed on, otherwise the new state and the returned bytes. -/
def EcsProtoServer.FetchData (z : Zlib) (proto : EcsProtoServer) :
    Option (Except Fault (EcsProtoServer × List Nat)) :=
  match fetchLoop (fun part => IP.Equal part NewEcsCodec.GetPrologue)
      (fun part => IP.Equal part NewEcsCodec.GetEpilogue) proto.c [] with
  | none => none
  | some (buf, rest) =>
    match decodedOrNil (NewEcsCodec.Decode z buf) with
    | .ok decoded => some (.ok ({ cmd := [], listening := false, c := rest }, decoded))
    | .error e => some (.error e)

/-- The `CookieProtoServer` struct; `c` is the channel of atoms. -/
structure CookieProtoServer where
  cmd : List Nat
  listening : Bool
  c : List (List Nat)
  deriving DecidableEq, Repr

/-- One iteration of the loop of the COOKIE handler over the options; the state
is the server and `msg.Answer`. -/
def CookieProtoServer.optionStep (name : List Nat) (st : CookieProtoServer × List RR)
    (opt : EDNS0) : CookieProtoServer × List RR :=
  match opt with
  | .COOKIE _ chunk =>
    let proto1 := if st.1.listening then { st.1 with c := st.1.c ++ [chunk] } else st.1
    (proto1, st.2 ++ [RR.KX { Name := name, Rrtype := TypeKX, Class := ClassINET, Ttl := 0 }
                        (chunk ++ bytesOf ".")])
  | _ => st

/-- `CookieProtoServer.serverHandler`: the new state and `msg.Answer`. -/
def CookieProtoServer.serverHandler (proto : CookieProtoServer) (r : Query) :
    CookieProtoServer × List RR :=
  if r.Qtype = TypeSOA then
    (proto, [soaAnswer r.Name proto.cmd])
  else
    match r.Edns with
    | some opts => opts.foldl (CookieProtoServer.optionStep r.Name) (proto, [])
    | none => (proto, [])

/-- `CookieProtoServer.FetchData`: `none` when the call blocks for ever, a panic
of `Decode` is passed on, otherwise the new state and the returned bytes. -/
def CookieProtoServer.FetchData (z : Zlib) (proto : CookieProtoServer) :
    Option (Except Fault (CookieProtoServer × List Nat)) :=
  match fetchLoop (fun part => part == NewCookieCodec.GetPrologue)
      (fun part => part == NewCookieCodec.GetEpilogue) proto.c [] with
  | none => none
  | some (buf, rest) =>
    match decodedOrNil (NewCookieCodec.Decode z buf) with
    | .ok decoded => some (.ok ({ cmd := [], listening := false, c := rest }, decoded))
    | .error e => some (.error e)

/-- The `DauProtoServer` struct; `c` is the channel of atoms. -/
structure DauProtoServer where
  cmd : List Nat
  listening : Bool
  c : List (List Nat)
  deriving DecidableEq, Repr

/-- One iteration of the loop of the DAU handler over the options; the state
is the server and `msg.Answer`. -/
def DauProtoServer.optionStep (name : List Nat) (st : DauProtoServer × List RR)
    (opt : EDNS0) : DauProtoServer × List RR :=
  match opt with
  | .DAU chunk =>
    let proto1 := if st.1.listening then { st.1 with c := st.1.c ++ [chunk] } else st.1
    (proto1, st.2 ++ [RR.NAPTR { Name := name, Rrtype := TypeNAPTR, Class := ClassINET,
                                 Ttl := 0 } (EncodeCmd chunk)])
  | _ => st

/-- `DauProtoServer.serverHandler`: the new state and `msg.Answer`. -/
def DauProtoServer.serverHandler (proto : DauProtoServer) (r : Query) :
    DauProtoServer × List RR :=
  if r.Qtype = TypeSOA then
    (proto, [soaAnswer r.Name proto.cmd])
  else
    match r.Edns with
    | some opts => opts.foldl (DauProtoServer.optionStep r.Name) (proto, [])
    | none => (proto, [])

/-- `DauProtoServer.FetchData`: `none` when the call blocks for ever, a panic of
`Decode` is passed on, otherwise the new state and the returned bytes. -/
def DauProtoServer.FetchData (z : Zlib) (proto : DauProtoServer) :
    Option (Except Fault (DauProtoServer × List Nat)) :=
  match fetchLoop (fun part => part == NewDauCodec.GetPrologue)
      (fun part => part == NewDauCodec.GetEpilogue) proto.c [] with
  | none => none
  | some (buf, rest) =>
    match decodedOrNil (NewDauCodec.Decode z buf) with
    | .ok decoded => some (.ok ({ cmd := [], listening := false, c := rest }, decoded))
    | .error e => some (.error e)

/-! ## protocol: the clients -/

/-- `strings.Contains(s, substr)`: `substr` occurs in `s`; the empty text occurs
in every text. -/
def stringsContains : List Nat → List Nat → Bool
  | [], substr => substr.isPrefixOf []
  | ch :: s, substr => substr.isPrefixOf (ch :: s) || stringsContains s substr

/-- The decimal text of a byte. -/
def decimalByte (n : Nat) : List Nat :=
  if n < 10 then [48 + n]
  else if n < 100 then [48 + n / 10, 48 + n % 10]
  else [48 + n / 100, 48 + n / 10 % 10, 48 + n % 10]

/-- The text `net.IP.String` gives for an address that has a 4-byte form:
dotted decimal. The text of any other value is left out (empty here). -/
def ipv4String (ip : IP) : List Nat :=
  match IP.To4 ip with
  | some [a, b, c, d] =>
    decimalByte a ++ bytesOf "." ++ decimalByte b ++ bytesOf "." ++ decimalByte c ++
      bytesOf "." ++ decimalByte d
  | _ => []

/-- The request `EcsProtoClient.resolve` builds: the subnet option is attached
when `subnet != nil` (nil is the empty list). -/
def EcsProtoClient.query (domain : List Nat) (qtype : Nat) (subnet : IP) : Query :=
  { Name := domain, Qtype := qtype,
    Edns := if subnet ≠ [] then some [.SUBNET subnet] else none }

/-- The test of `EcsProtoClient.Send` on an answer section while it waits on
`part`: a first record that is an SVCB whose `Target` contains `part.String()`. -/
def EcsProtoClient.ackOk (str : IP → List Nat) (answer : List RR) (part : IP) : Bool :=
  match answer with
  | .SVCB _ target :: _ => stringsContains target (str part)
  | _ => false

/-- The request `CookieProtoClient.resolve` builds: the cookie option is
attached when `cookie != ""`. -/
def CookieProtoClient.query (domain : List Nat) (qtype : Nat) (cookie : List Nat) : Query :=
  { Name := domain, Qtype := qtype,
    Edns := if cookie ≠ [] then some [.COOKIE 10 cookie] else none }

/-- The test of `CookieProtoClient.Send` on an answer section while it waits on
`part`: a first record that is a KX whose `Exchanger` contains `part`. -/
def CookieProtoClient.ackOk (answer : List RR) (part : List Nat) : Bool :=
  match answer with
  | .KX _ exchanger :: _ => stringsContains exchanger part
  | _ => false

/-- The request `DauProtoClient.resolve` builds, as `IsEdns0` reads it on the
server: the options of the last OPT record, which holds the DAU option,
attached when `dau != nil` (nil is the empty list). -/
def DauProtoClient.query (domain : List Nat) (qtype : Nat) (dau : List Nat) : Query :=
  { Name := domain, Qtype := qtype,
    Edns := if dau ≠ [] then some [.DAU dau] else none }

/-- The test of `DauProtoClient.Send` on an answer section while it waits on
`part`: a first record that is a NAPTR whose `Regexp` contains
`EncodeCmd(string(part))`. -/
def DauProtoClient.ackOk (answer : List RR) (part : List Nat) : Bool :=
  match answer with
  | .NAPTR _ regexp :: _ => stringsContains regexp (EncodeCmd part)
  | _ => false

/-! ## The DNS exchange

The packing of a reply by `w.WriteMsg(msg)` and its transport to the client's
`c.Exchange` belong to the DNS library and the network, not to the repository:
the exchange is a parameter, constrained only by the size of a label. -/

/-- The length of the longest label of a domain name in presentation form: the
longest run of bytes between two dots; `cur` is the length of the label being
read. Escaped characters do not occur in the names the protocols build. -/
def longestLabel : List Nat → Nat → Nat
  | [], cur => cur
  | ch :: rest, cur =>
    if ch = 46 then max cur (longestLabel rest 0) else longestLabel rest (cur + 1)

/-- The domain names a record is packed with: its owner name and the names of
its data. -/
def RR.names : RR → List (List Nat)
  | .SOA h ns mbox _ _ _ _ _ => [h.Name, ns, mbox]
  | .SVCB h target => [h.Name, target]
  | .KX h exchanger => [h.Name, exchanger]
  | .NAPTR h _ => [h.Name]
  | .Header h => [h.Name]

/-- The exchange of one answer section: what `proto.resolve` returns to the
client when a handler has built `answer`, the section received or the error of
the exchange. -/
structure Wire where
  exchange : List RR → Except String (List RR)

/-- A label holds at most 63 octets: a reply with a longer label in one of its
names cannot be packed, `WriteMsg` fails, the handler drops that error, no
reply is sent and the client's exchange ends with an error. -/
def Wire.Lawful (w : Wire) : Prop :=
  ∀ answer : List RR, (∃ rr ∈ answer, ∃ name ∈ rr.names, 63 < longestLabel name 0) →
    ∃ err, w.exchange answer = .error err

/-- An exchange that loses nothing: every answer section whose labels fit is
received as it was built. -/
def labelWire : Wire :=
  { exchange := fun answer =>
      if answer.all (fun rr => rr.names.all (fun name => longestLabel name 0 ≤ 63)) then
        .ok answer
      else .error "i/o timeout" }

/-! ## Reference notions of the reassembler -/

/-- The part of an atom sequence that starts at its last prologue, the whole
sequence when it holds no prologue. -/
def sinceLastPrologue {α : Type} (isPrologue : α → Bool) : List α → List α
  | [] => []
  | x :: xs => if xs.any isPrologue then sinceLastPrologue isPrologue xs else x :: xs

/-- The text after its last character is removed is valid hex: an even number
of hex digits. -/
def ValidHexBody (ns : List Nat) : Prop :=
  (ns.length - 1) % 2 = 0 ∧ ∀ ch ∈ ns.take (ns.length - 1), reverseHexTable ch ≤ 15

/-- The record is a `*dns.SOA`. -/
def RR.isSOA : RR → Bool
  | .SOA _ _ _ _ _ _ _ _ => true
  | _ => false

/-- The option is a `*dns.EDNS0_SUBNET`. -/
def EDNS0.isSubnet : EDNS0 → Bool
  | .SUBNET _ => true
  | _ => false

/-- The option is a `*dns.EDNS0_COOKIE`. -/
def EDNS0.isCookie : EDNS0 → Bool
  | .COOKIE _ _ => true
  | _ => false

/-- The option is a `*dns.EDNS0_DAU`. -/
def EDNS0.isDau : EDNS0 → Bool
  | .DAU _ => true
  | _ => false

/-- The answers the QTYPE client waits for: for the atom at position `i`, one
bare header with that atom as `Rrtype` and `i+1` as `Ttl`. -/
def qtypeAcks (name : List Nat) : Nat → List Nat → List (List RR)
  | _, [] => []
  | i, a :: rest =>
    [RR.Header { Name := name, Rrtype := a, Class := ClassINET, Ttl := i + 1 }] ::
      qtypeAcks name (i + 1) rest

/-- The test of `QtypeProtoClient.Send` applied to each atom, from position `i`
on, and the answer section received for it. -/
def QtypeProtoClient.allAckOk : Nat → List Nat → List (List RR) → Bool
  | _, [], [] => true
  | i, part :: parts, answer :: answers =>
    QtypeProtoClient.ackOk answer part i && QtypeProtoClient.allAckOk (i + 1) parts answers
  | _, _, _ => false

/-! ## Lemmas: encoding/hex -/

theorem reverseHexTable_hexChar (i : Nat) (h : i < 16) : reverseHexTable (hexChar i) = i := by
  interval_cases i <;> rfl

theorem hexDecode_hexEncode (l : List Nat) (h : IsBytes l) :
    hexDecodeString (hexEncodeToString l) = (l, none) := by
  induction l with
  | nil => rfl
  | cons v rest ih =>
    have hv : v < 256 := h v (List.mem_cons_self _ _)
    have hr : IsBytes rest := fun b hb => h b (List.mem_cons_of_mem _ hb)
    have h1 : reverseHexTable (hexChar (v / 16)) = v / 16 :=
      reverseHexTable_hexChar _ (by omega)
    have h2 : reverseHexTable (hexChar (v % 16)) = v % 16 :=
      reverseHexTable_hexChar _ (by omega)
    simp only [hexEncodeToString, hexDecodeString, h1, h2, ih hr]
    have e1 : ¬ (v / 16 > 15) := by omega
    have e2 : ¬ (v % 16 > 15) := by omega
    simp only [e1, e2, if_false]
    have e3 : (v / 16 * 16 + v % 16) % 256 = v := by omega
    rw [e3]

/-! ## Lemmas: encoding/base64 -/

theorem decodeMap_b64Char (i : Nat) (h : i < 64) : decodeMap (b64Char i) = i := by
  interval_cases i <;> rfl

theorem b64Char_ge (i : Nat) (h : i < 64) : 43 ≤ b64Char i ∧ b64Char i ≤ 122 ∧ b64Char i ≠ 61 := by
  interval_cases i <;> decide

theorem decodeMap_padChar : decodeMap padChar = 255 := by decide

theorem b64Encode_text (c : List Nat) (h : IsBytes c) : IsB64Text (b64Encode c) := by
  induction c using b64Encode.induct with
  | case1 => intro x hx; simp [b64Encode] at hx
  | case2 a =>
    intro x hx
    have ha : a < 256 := h a (by simp)
    simp only [b64Encode, List.mem_cons, List.mem_singleton, List.not_mem_nil, or_false] at hx
    have k1 := b64Char_ge (a * 65536 / 262144 % 64) (by omega)
    have k2 := b64Char_ge (a * 65536 / 4096 % 64) (by omega)
    rcases hx with hx | hx | hx | hx <;> subst hx
    · omega
    · omega
    · decide
    · decide
  | case3 a b =>
    intro x hx
    simp only [b64Encode, List.mem_cons, List.mem_singleton, List.not_mem_nil, or_false] at hx
    have k1 := b64Char_ge ((a * 65536 + b * 256) / 262144 % 64) (by omega)
    have k2 := b64Char_ge ((a * 65536 + b * 256) / 4096 % 64) (by omega)
    have k3 := b64Char_ge ((a * 65536 + b * 256) / 64 % 64) (by omega)
    rcases hx with hx | hx | hx | hx <;> subst hx
    · omega
    · omega
    · omega
    · decide
  | case4 a b c rest ih =>
    intro x hx
    have hr : IsBytes rest := fun y hy => h y (by simp [hy])
    simp only [b64Encode, List.mem_cons] at hx
    have k1 := b64Char_ge ((a * 65536 + b * 256 + c) / 262144 % 64) (by omega)
    have k2 := b64Char_ge ((a * 65536 + b * 256 + c) / 4096 % 64) (by omega)
    have k3 := b64Char_ge ((a * 65536 + b * 256 + c) / 64 % 64) (by omega)
    have k4 := b64Char_ge ((a * 65536 + b * 256 + c) % 64) (by omega)
    rcases hx with hx | hx | hx | hx | hx
    · subst hx; omega
    · subst hx; omega
    · subst hx; omega
    · subst hx; omega
    · exact ih hr x hx

theorem b64Encode_length (c : List Nat) : (b64Encode c).length = b64EncodedLen c.length := by
  induction c using b64Encode.induct with
  | case1 => rfl
  | case2 a => simp [b64Encode, b64EncodedLen]
  | case3 a b => simp [b64Encode, b64EncodedLen]
  | case4 a b c rest ih =>
    simp only [b64Encode, List.length_cons, ih, b64EncodedLen]
    omega

theorem b64DecodeQuanta_encode (c : List Nat) (h : IsBytes c) :
    b64DecodeQuanta (b64Encode c) = .ok c := by
  induction c using b64Encode.induct with
  | case1 => rfl
  | case2 a =>
    have ha : a < 256 := h a (by simp)
    have d0 := decodeMap_b64Char (a * 65536 / 262144 % 64) (by omega)
    have d1 := decodeMap_b64Char (a * 65536 / 4096 % 64) (by omega)
    simp only [b64Encode, b64DecodeQuanta, d0, d1, decodeMap_padChar]
    have n0 : ¬ (a * 65536 / 262144 % 64 = 255 ∨ a * 65536 / 4096 % 64 = 255) := by omega
    simp only [n0, if_false, if_true, and_self]
    congr 2
    omega
  | case3 a b =>
    have ha : a < 256 := h a (by simp)
    have hb : b < 256 := h b (by simp)
    have d0 := decodeMap_b64Char ((a * 65536 + b * 256) / 262144 % 64) (by omega)
    have d1 := decodeMap_b64Char ((a * 65536 + b * 256) / 4096 % 64) (by omega)
    have d2 := decodeMap_b64Char ((a * 65536 + b * 256) / 64 % 64) (by omega)
    simp only [b64Encode, b64DecodeQuanta, d0, d1, d2, decodeMap_padChar]
    have n0 : ¬ ((a * 65536 + b * 256) / 262144 % 64 = 255 ∨
        (a * 65536 + b * 256) / 4096 % 64 = 255) := by omega
    have n2 : ¬ ((a * 65536 + b * 256) / 64 % 64 = 255) := by omega
    simp only [n0, n2, if_false, if_true, and_self]
    congr 2
    · omega
    · congr 1; omega
  | case4 a b c rest ih =>
    have ha : a < 256 := h a (by simp)
    have hb : b < 256 := h b (by simp)
    have hc : c < 256 := h c (by simp)
    have hr : IsBytes rest := fun y hy => h y (by simp [hy])
    have d0 := decodeMap_b64Char ((a * 65536 + b * 256 + c) / 262144 % 64) (by omega)
    have d1 := decodeMap_b64Char ((a * 65536 + b * 256 + c) / 4096 % 64) (by omega)
    have d2 := decodeMap_b64Char ((a * 65536 + b * 256 + c) / 64 % 64) (by omega)
    have d3 := decodeMap_b64Char ((a * 65536 + b * 256 + c) % 64) (by omega)
    simp only [b64Encode, b64DecodeQuanta, d0, d1, d2, d3, ih hr]
    have n0 : ¬ ((a * 65536 + b * 256 + c) / 262144 % 64 = 255 ∨
        (a * 65536 + b * 256 + c) / 4096 % 64 = 255) := by omega
    have n2 : ¬ ((a * 65536 + b * 256 + c) / 64 % 64 = 255) := by omega
    have n3 : ¬ ((a * 65536 + b * 256 + c) % 64 = 255) := by omega
    simp only [n0, n2, n3, if_false]
    congr 2
    · omega
    · congr 1
      · omega
      · congr 1; omega

theorem filter_newlines_text (l : List Nat) (h : IsB64Text l) :
    l.filter (fun c => c ≠ 10 ∧ c ≠ 13) = l := by
  apply List.filter_eq_self.mpr
  intro c hc
  have := h c hc
  simp only [ne_eq, decide_eq_true_eq]
  omega

theorem b64Decode_encode (c : List Nat) (h : IsBytes c) : b64Decode (b64Encode c) = .ok c := by
  unfold b64Decode
  rw [filter_newlines_text _ (b64Encode_text c h)]
  exact b64DecodeQuanta_encode c h

theorem b64Slack_le (n : Nat) : b64Slack n ≤ 2 := by
  unfold b64Slack b64DecodedLen b64EncodedLen
  omega

theorem b64DecodeBuffer_encode (c : List Nat) (h : IsBytes c) :
    b64DecodeBuffer (b64Encode c) = .ok (c ++ List.replicate (b64Slack c.length) 0) := by
  unfold b64DecodeBuffer
  rw [b64Decode_encode c h, b64Encode_length]
  rfl

/-! ## Lemmas: frames -/

theorem frame_length {α : Type} (p e : α) (inner : List α) :
    (p :: (inner ++ [e])).length = inner.length + 2 := by
  simp

theorem frame_inner {α : Type} (p e : α) (inner : List α) :
    ((p :: (inner ++ [e])).take ((p :: (inner ++ [e])).length - 1)).drop 1 = inner := by
  simp

theorem frame_first {α : Type} (p e d : α) (inner : List α) :
    (p :: (inner ++ [e])).getD 0 d = p := by
  simp

theorem frame_last {α : Type} (p e d : α) (inner : List α) :
    (p :: (inner ++ [e])).getD ((p :: (inner ++ [e])).length - 1) d = e := by
  have h : (p :: (inner ++ [e])).length - 1 = (p :: inner).length := by simp
  rw [h, ← List.cons_append, List.getD_eq_getElem?_getD, List.getElem?_append_right (le_refl _)]
  simp

/-! ## Lemmas: chunkify -/

theorem chunkLoop_flatten (s : List Nat) (n : Nat) (hn : 0 < n) :
    ∀ (fuel i : Nat) (acc : List (List Nat)), s.length - i ≤ fuel →
      (chunkLoop s n fuel i acc).flatten = acc.flatten ++ s.drop i := by
  intro fuel
  induction fuel with
  | zero =>
    intro i acc h
    have : s.drop i = [] := List.drop_eq_nil_of_le (by omega)
    simp [chunkLoop, this]
  | succ k ih =>
    intro i acc h
    unfold chunkLoop
    by_cases hi : i < s.length
    · simp only [hi, if_true]
      rw [ih (i + n) _ (by omega)]
      simp only [List.flatten_append, List.flatten_cons, List.flatten_nil, List.append_nil,
        List.append_assoc]
      congr 1
      by_cases he : i + n > s.length
      · simp only [he, if_true, List.take_length]
        rw [List.drop_eq_nil_of_le (by omega : s.length ≤ i + n)]
        simp
      · simp only [he, if_false]
        have hl : i ≤ (s.take (i + n)).length := by
          rw [List.length_take]; omega
        conv_rhs => rw [← List.take_append_drop (i + n) s]
        rw [List.drop_append_of_le_length hl]
    · simp only [hi, if_false]
      rw [List.drop_eq_nil_of_le (by omega : s.length ≤ i)]
      simp

theorem chunkLoop_mem (s : List Nat) (n : Nat) :
    ∀ (fuel i : Nat) (acc : List (List Nat)) (ch : List Nat), ch ∈ chunkLoop s n fuel i acc →
      ch ∈ acc ∨ (∀ x ∈ ch, x ∈ s) ∧ ch.length ≤ n := by
  intro fuel
  induction fuel with
  | zero => intro i acc ch h; left; simpa [chunkLoop] using h
  | succ k ih =>
    intro i acc ch h
    unfold chunkLoop at h
    by_cases hi : i < s.length
    · simp only [hi, if_true] at h
      rcases ih _ _ _ h with h1 | h1
      · rcases List.mem_append.mp h1 with h2 | h2
        · left; exact h2
        · right
          rw [List.mem_singleton] at h2
          subst h2
          constructor
          · intro x hx
            exact List.mem_of_mem_take (List.mem_of_mem_drop hx)
          · rw [List.length_drop, List.length_take]
            split <;> omega
      · right; exact h1
    · simp only [hi, if_false] at h
      left; exact h

theorem chunkLoop_length_ge (s : List Nat) (n : Nat) :
    ∀ (fuel i : Nat) (acc : List (List Nat)), acc.length ≤ (chunkLoop s n fuel i acc).length := by
  intro fuel
  induction fuel with
  | zero => intro i acc; simp [chunkLoop]
  | succ k ih =>
    intro i acc
    unfold chunkLoop
    split
    · refine le_trans ?_ (ih _ _)
      simp
    · exact le_refl _

theorem chunkLoop_ne_nil (s : List Nat) (n : Nat) (hs : s ≠ []) :
    chunkLoop s n s.length 0 [] ≠ [] := by
  cases s with
  | nil => exact absurd rfl hs
  | cons a t =>
    intro h
    have h1 : (chunkLoop (a :: t) n (a :: t).length 0 []).length = 0 := by rw [h]; rfl
    simp only [List.length_cons, chunkLoop, Nat.zero_lt_succ, if_true] at h1
    have h2 := chunkLoop_length_ge (a :: t) n t.length (0 + n)
      ([] ++ [List.drop 0 (List.take (if 0 + n > t.length + 1 then t.length + 1 else 0 + n)
        (a :: t))])
    simp only [List.length_cons] at h2
    rw [h1] at h2
    simp at h2

/-! ## Lemmas: QTYPE -/

theorem pair_induction {motive : List Nat → Prop} (h0 : motive [])
    (h1 : ∀ b, motive [b]) (h2 : ∀ lo hi rest, motive rest → motive (lo :: hi :: rest)) :
    ∀ l, motive l :=
  QtypeCodec.pack.induct NewQtypeCodec motive h0 h1 h2

theorem qtype_unpack_pack (c : List Nat) (h : IsBytes c) :
    (NewQtypeCodec.pack c).flatMap NewQtypeCodec.unpack = c ++ List.replicate (c.length % 2) 0 := by
  induction c using pair_induction with
  | h0 => rfl
  | h1 b =>
    have hb : b < 256 := h b (by simp)
    simp only [QtypeCodec.pack, QtypeCodec.unpack, NewQtypeCodec, List.flatMap_cons,
      List.flatMap_nil, List.append_nil, List.length_singleton]
    have e1 : ((b % 65536 + 512) % 65536 % 65536 + 65536 - 512 % 65536) % 65536 % 256 = b := by
      omega
    have e2 : ((b % 65536 + 512) % 65536 % 65536 + 65536 - 512 % 65536) % 65536 / 256 % 256
        = 0 := by omega
    rw [e1, e2]
    rfl
  | h2 lo hi rest ih =>
    have hlo : lo < 256 := h lo (by simp)
    have hhi : hi < 256 := h hi (by simp)
    have hr : IsBytes rest := fun y hy => h y (by simp [hy])
    simp only [QtypeCodec.pack, List.flatMap_cons, ih hr, List.length_cons]
    have e : NewQtypeCodec.unpack (((lo + hi * 256) % 65536 + NewQtypeCodec.OFFSET) % 65536)
        = [lo, hi] := by
      simp only [QtypeCodec.unpack, NewQtypeCodec, List.cons.injEq, and_true]
      constructor <;> omega
    rw [e]
    have e3 : (rest.length + 1 + 1) % 2 = rest.length % 2 := by omega
    rw [e3]
    rfl

/-! ## Lemmas: ECS -/

theorem triple_induction {motive : List Nat → Prop} (h0 : motive [])
    (h1 : ∀ a, motive [a]) (h2 : ∀ a b, motive [a, b])
    (h3 : ∀ a b c rest, motive rest → motive (a :: b :: c :: rest)) :
    ∀ l, motive l :=
  b64Encode.induct motive h0 h1 h2 h3

theorem encodeStep_triple (codec : EcsCodec) (res : List IP) (a b c : Nat) :
    codec.encodeStep (codec.encodeStep (codec.encodeStep ([], res) a) b) c
      = ([], res ++ ecsTriple codec a b c) := by
  simp only [EcsCodec.encodeStep, ecsTriple, List.nil_append, List.length_singleton,
    List.cons_append, List.length_cons, List.length_nil]
  norm_num
  split <;> simp

theorem ecs_foldl (codec : EcsCodec) (msg : List Nat) :
    ∀ res : List IP,
      (msg.foldl codec.encodeStep ([], res)).2 ++
        (msg.foldl codec.encodeStep ([], res)).1.map (fun part => IPv4 1 part 0 0)
      = res ++ ecsReference codec msg := by
  induction msg using triple_induction with
  | h0 => intro res; simp [ecsReference]
  | h1 a => intro res; simp [ecsReference, EcsCodec.encodeStep]
  | h2 a b => intro res; simp [ecsReference, EcsCodec.encodeStep]
  | h3 a b c rest ih =>
    intro res
    simp only [List.foldl_cons, encodeStep_triple, ih, ecsReference, List.append_assoc]

theorem expand_eq (codec : EcsCodec) (msg : List Nat) :
    codec.expand msg = codec.PROLOGUE :: ecsReference codec msg := by
  unfold EcsCodec.expand
  rw [ecs_foldl]
  rfl

theorem ecsEncode_eq (z : Zlib) (codec : EcsCodec) (data : List Nat) :
    codec.Encode z data
      = codec.PROLOGUE :: (ecsReference codec (b64Encode (z.Compress data)) ++ [codec.EPILOGUE]) := by
  unfold EcsCodec.Encode
  rw [expand_eq]
  rfl

theorem To4_IPv4 (a b c d : Nat) : IP.To4 (IPv4 a b c d) = some [a, b, c, d] := by
  rfl

theorem ecsAtomBytes_three (a b c : Nat) (ha : a ≠ 0 ∧ a ≠ 1) (hb : b ≠ 0 ∧ b ≠ 1)
    (hc : c ≠ 0 ∧ c ≠ 1) : ecsAtomBytes (IPv4 a b c 0) = [a, b, c] := by
  simp [ecsAtomBytes, To4_IPv4, List.filter, ha, hb, hc]

theorem ecsAtomBytes_two (a b : Nat) (ha : a ≠ 0 ∧ a ≠ 1) (hb : b ≠ 0 ∧ b ≠ 1) :
    ecsAtomBytes (IPv4 1 a b 0) = [a, b] := by
  simp [ecsAtomBytes, To4_IPv4, List.filter, ha, hb]

theorem ecsAtomBytes_one (a : Nat) (ha : a ≠ 0 ∧ a ≠ 1) :
    ecsAtomBytes (IPv4 1 a 0 0) = [a] := by
  simp [ecsAtomBytes, To4_IPv4, List.filter, ha]

theorem ecsReference_bytes (codec : EcsCodec) (msg : List Nat)
    (h : ∀ x ∈ msg, x ≠ 0 ∧ x ≠ 1) :
    (ecsReference codec msg).flatMap ecsAtomBytes = msg := by
  induction msg using triple_induction with
  | h0 => rfl
  | h1 a =>
    have ha := h a (by simp)
    simp [ecsReference, ecsAtomBytes_one a ha]
  | h2 a b =>
    have ha := h a (by simp)
    have hb := h b (by simp)
    simp [ecsReference, ecsAtomBytes_one a ha, ecsAtomBytes_one b hb]
  | h3 a b c rest ih =>
    have ha := h a (by simp)
    have hb := h b (by simp)
    have hc := h c (by simp)
    have hr : ∀ x ∈ rest, x ≠ 0 ∧ x ≠ 1 := fun x hx => h x (by simp [hx])
    simp only [ecsReference, List.flatMap_append, ih hr, ecsTriple]
    split
    · simp [ecsAtomBytes_two a b ha hb, ecsAtomBytes_one c hc]
    · simp [ecsAtomBytes_three a b c ha hb hc]

theorem b64Text_not01 (l : List Nat) (h : IsB64Text l) : ∀ x ∈ l, x ≠ 0 ∧ x ≠ 1 := by
  intro x hx
  have := h x hx
  omega

/-! ## Lemmas: the stand-in for zlib -/

theorem rawInflate_body (p : List Nat) (t : List Nat) : rawInflate (rawBody p ++ t) = .ok p := by
  induction p with
  | nil => simp [rawBody, rawInflate]
  | cons b rest ih =>
    by_cases hb : b = 0
    · subst hb
      simp [rawBody, rawInflate, ih]
    · simp only [rawBody, hb, if_false, List.cons_append]
      cases hr : rawBody rest ++ t with
      | nil => rw [hr] at ih; simp [rawInflate] at ih
      | cons c u =>
        rw [hr] at ih
        simp [rawInflate, hb, ih]

theorem rawZlib_lawful : rawZlib.Lawful := by
  intro p _ t
  exact rawInflate_body p t

theorem rawBody_bytes (p : List Nat) (h : IsBytes p) : IsBytes (rawBody p) := by
  induction p with
  | nil => intro x hx; simp [rawBody] at hx; omega
  | cons b rest ih =>
    have hb : b < 256 := h b (by simp)
    have hr : IsBytes rest := fun y hy => h y (by simp [hy])
    intro x hx
    unfold rawBody at hx
    split at hx
    · simp only [List.mem_cons] at hx
      rcases hx with hx | hx | hx
      · omega
      · omega
      · exact ih hr x hx
    · simp only [List.mem_cons] at hx
      rcases hx with hx | hx
      · omega
      · exact ih hr x hx

theorem rawZlib_bytesOut : rawZlib.BytesOut := by
  intro p hp x hx
  simp only [rawZlib, List.mem_cons] at hx
  rcases hx with hx | hx | hx
  · omega
  · omega
  · exact rawBody_bytes p hp x hx

theorem rawZlib_nonEmpty : rawZlib.NonEmpty := by
  intro p
  simp [rawZlib]

/-! ## Lemmas: decoding a frame -/

theorem innerAtoms_frame {α : Type} (p e : α) (inner : List α) :
    innerAtoms (p :: (inner ++ [e])) = inner := by
  unfold innerAtoms
  exact frame_inner p e inner

theorem frame_not_short {α : Type} (p e : α) (inner : List α) (h : inner ≠ []) :
    ¬ (p :: (inner ++ [e])).length < 3 := by
  rw [frame_length]
  have : 0 < inner.length := List.length_pos.mpr h
  omega

theorem Zlib.Lawful.run_eq {z : Zlib} (hl : z.Lawful) (p : List Nat) (hp : IsBytes p)
    (t : List Nat) : z.run (z.Compress p ++ t) = .ok p := by
  unfold Zlib.run
  rw [hl p hp t]

theorem Zlib.Lawful.compress_ne_nil {z : Zlib} (hl : z.Lawful) (p : List Nat) (hp : IsBytes p) :
    z.Compress p ≠ [] := by
  intro h
  by_cases hq : p = []
  · have h1 := hl [0] (by decide) []
    have h2 := hl p hp (z.Compress [0] ++ [])
    rw [h, List.nil_append, h1, hq] at h2
    cases h2
  · have h1 := hl [] (by decide) []
    have h2 := hl p hp (z.Compress [] ++ [])
    rw [h, List.nil_append, h1] at h2
    cases h2
    exact hq rfl

theorem ecsReference_ne_nil (codec : EcsCodec) (msg : List Nat) (h : msg ≠ []) :
    ecsReference codec msg ≠ [] := by
  induction msg using triple_induction with
  | h0 => exact absurd rfl h
  | h1 a => simp [ecsReference]
  | h2 a b => simp [ecsReference]
  | h3 a b c rest _ =>
    simp only [ecsReference, ecsTriple]
    split <;> simp

theorem b64Encode_ne_nil (c : List Nat) (h : c ≠ []) : b64Encode c ≠ [] := by
  induction c using triple_induction with
  | h0 => exact absurd rfl h
  | h1 a => simp [b64Encode]
  | h2 a b => simp [b64Encode]
  | h3 a b c rest _ => simp [b64Encode]

theorem ecs_decodeMsg_frame (inner : List IP) (h : inner ≠ []) :
    NewEcsCodec.decodeMsg (NewEcsCodec.PROLOGUE :: (inner ++ [NewEcsCodec.EPILOGUE]))
      = b64DecodeBuffer (inner.flatMap ecsAtomBytes) := by
  unfold EcsCodec.decodeMsg
  rw [if_neg (frame_not_short _ _ _ h), frame_first, frame_last, innerAtoms_frame]
  have h1 : IP.Equal NewEcsCodec.PROLOGUE NewEcsCodec.PROLOGUE = true := by decide
  have h2 : IP.Equal NewEcsCodec.EPILOGUE NewEcsCodec.EPILOGUE = true := by decide
  simp [h1, h2]

theorem qtype_decodeMsg_frame (inner : List Nat) (h : inner ≠ []) :
    NewQtypeCodec.decodeMsg (NewQtypeCodec.PROLOGUE :: (inner ++ [NewQtypeCodec.EPILOGUE]))
      = .ok (inner.flatMap NewQtypeCodec.unpack) := by
  unfold QtypeCodec.decodeMsg
  rw [if_neg (frame_not_short _ _ _ h), frame_first, frame_last, innerAtoms_frame]
  simp

theorem cookie_decodeMsg_frame (inner : List (List Nat)) (h : inner ≠ []) :
    NewCookieCodec.decodeMsg (NewCookieCodec.PROLOGUE :: (inner ++ [NewCookieCodec.EPILOGUE]))
      = match hexDecodeString inner.flatten with
        | (msg, none) => .ok msg
        | (_, some err) => .error (.error err) := by
  unfold CookieCodec.decodeMsg
  rw [if_neg (frame_not_short _ _ _ h), frame_first, frame_last, innerAtoms_frame]
  simp

theorem dau_decodeMsg_frame (inner : List (List Nat)) (h : inner ≠ []) :
    NewDauCodec.decodeMsg (NewDauCodec.PROLOGUE :: (inner ++ [NewDauCodec.EPILOGUE]))
      = b64DecodeBuffer inner.flatten := by
  unfold DauCodec.decodeMsg
  rw [if_neg (frame_not_short _ _ _ h), frame_first, frame_last, innerAtoms_frame]
  simp

theorem qtypeEncode_eq (z : Zlib) (data : List Nat) :
    NewQtypeCodec.Encode z data
      = NewQtypeCodec.PROLOGUE ::
          (NewQtypeCodec.pack (z.Compress data) ++ [NewQtypeCodec.EPILOGUE]) := by
  simp [QtypeCodec.Encode]

theorem cookieEncode_eq (z : Zlib) (data : List Nat) :
    NewCookieCodec.Encode z data
      = NewCookieCodec.PROLOGUE ::
          (CookieCodec.chunkify (hexEncodeToString (z.Compress data)) 32
            ++ [NewCookieCodec.EPILOGUE]) := by
  have h : NewCookieCodec.PROLOGUE.length = 32 := by decide
  simp [CookieCodec.Encode, h]

theorem dauEncode_eq (z : Zlib) (data : List Nat) :
    NewDauCodec.Encode z data
      = NewDauCodec.PROLOGUE ::
          (DauCodec.chunkify (b64Encode (z.Compress data)) 64 ++ [NewDauCodec.EPILOGUE]) := by
  simp [DauCodec.Encode]

theorem qtype_pack_ne_nil (c : List Nat) (h : c ≠ []) : NewQtypeCodec.pack c ≠ [] := by
  induction c using pair_induction with
  | h0 => exact absurd rfl h
  | h1 b => simp [QtypeCodec.pack]
  | h2 lo hi rest _ => simp [QtypeCodec.pack]

theorem hexEncode_ne_nil (c : List Nat) (h : c ≠ []) : hexEncodeToString c ≠ [] := by
  cases c with
  | nil => exact absurd rfl h
  | cons a t => simp [hexEncodeToString]

theorem cookie_chunkify_flatten (s : List Nat) : (CookieCodec.chunkify s 32).flatten = s := by
  unfold CookieCodec.chunkify
  rw [chunkLoop_flatten s 32 (by decide) s.length 0 [] (by omega)]
  simp

theorem dau_chunkify_flatten (s : List Nat) : (DauCodec.chunkify s 64).flatten = s := by
  unfold DauCodec.chunkify
  rw [if_neg (by decide), chunkLoop_flatten s 64 (by decide) s.length 0 [] (by omega)]
  simp

theorem cookie_chunkify_ne_nil (s : List Nat) (h : s ≠ []) : CookieCodec.chunkify s 32 ≠ [] :=
  chunkLoop_ne_nil s 32 h

theorem dau_chunkify_ne_nil (s : List Nat) (h : s ≠ []) : DauCodec.chunkify s 64 ≠ [] := by
  unfold DauCodec.chunkify
  rw [if_neg (by decide)]
  exact chunkLoop_ne_nil s 64 h

/-! ## Round trips of the four codecs -/

/-- C1: for every byte payload `P`, `EcsCodec.Decode(EcsCodec.Encode(P))` returns `P`
with no error, whatever the base64 stream is (triples in a reserved block are
split into escape atoms, leftover bytes are sent as single escape atoms),
when the zlib reader inverts the writer and ignores the bytes after the stream. -/
theorem ecs_decode_encode (z : Zlib) (hl : z.Lawful) (hb : z.BytesOut) (P : List Nat)
    (hP : IsBytes P) : NewEcsCodec.Decode z (NewEcsCodec.Encode z P) = .ok P := by
  have hc : IsBytes (z.Compress P) := hb P hP
  have hne : z.Compress P ≠ [] := hl.compress_ne_nil P hP
  have hin : ecsReference NewEcsCodec (b64Encode (z.Compress P)) ≠ [] :=
    ecsReference_ne_nil _ _ (b64Encode_ne_nil _ hne)
  unfold EcsCodec.Decode
  rw [ecsEncode_eq, ecs_decodeMsg_frame _ hin,
    ecsReference_bytes _ _ (b64Text_not01 _ (b64Encode_text _ hc)),
    b64DecodeBuffer_encode _ hc]
  exact hl.run_eq P hP _

/-- The payload `[29, 4]` gives a base64 stream of length 8 whose second triple
`(100, 66, 65)` is in the reserved block `100.64.0.0/10`. -/
theorem ecs_decode_encode_witness :
    rawZlib.Lawful ∧ rawZlib.BytesOut ∧ IsBytes [29, 4] ∧
      NewEcsCodec.Encode rawZlib [29, 4]
        = [IPv4 13 3 7 0, IPv4 101 74 119 0, IPv4 1 100 66 0, IPv4 1 65 0 0, IPv4 1 65 0 0,
           IPv4 1 65 0 0, IPv4 7 3 13 0] ∧
      NewEcsCodec.Decode rawZlib (NewEcsCodec.Encode rawZlib [29, 4]) = .ok [29, 4] :=
  ⟨rawZlib_lawful, rawZlib_bytesOut, by decide, by decide,
    ecs_decode_encode rawZlib rawZlib_lawful rawZlib_bytesOut [29, 4] (by decide)⟩

/-- C2: for every byte payload `P`, the byte string `QtypeCodec.Decode` hands to
`Decompress` is the compressed stream `c` when `len(c)` is even and `c` followed
by one zero byte when it is odd, and `QtypeCodec.Decode(QtypeCodec.Encode(P))`
returns `P` with no error. -/
theorem qtype_decode_encode (z : Zlib) (hl : z.Lawful) (hb : z.BytesOut) (P : List Nat)
    (hP : IsBytes P) :
    NewQtypeCodec.decodeMsg (NewQtypeCodec.Encode z P)
        = .ok (z.Compress P ++ List.replicate ((z.Compress P).length % 2) 0) ∧
      NewQtypeCodec.Decode z (NewQtypeCodec.Encode z P) = .ok P := by
  have hc : IsBytes (z.Compress P) := hb P hP
  have hne : z.Compress P ≠ [] := hl.compress_ne_nil P hP
  have hm : NewQtypeCodec.decodeMsg (NewQtypeCodec.Encode z P)
      = .ok (z.Compress P ++ List.replicate ((z.Compress P).length % 2) 0) := by
    rw [qtypeEncode_eq, qtype_decodeMsg_frame _ (qtype_pack_ne_nil _ hne), qtype_unpack_pack _ hc]
  refine ⟨hm, ?_⟩
  unfold QtypeCodec.Decode
  rw [hm]
  exact hl.run_eq P hP _

/-- The stream of the payload `[65]` has five bytes: the last one is widened. -/
theorem qtype_decode_encode_witness :
    rawZlib.Lawful ∧ rawZlib.BytesOut ∧ IsBytes [65] ∧
      NewQtypeCodec.decodeMsg (NewQtypeCodec.Encode rawZlib [65]) = .ok [120, 156, 65, 0, 0, 0] ∧
      NewQtypeCodec.Decode rawZlib (NewQtypeCodec.Encode rawZlib [65]) = .ok [65] :=
  ⟨rawZlib_lawful, rawZlib_bytesOut, by decide,
    qtype_decode_encode rawZlib rawZlib_lawful rawZlib_bytesOut [65] (by decide)⟩

/-- C3: for every byte payload `P`, the inner atoms of `CookieCodec.Encode(P)`
concatenate to the lowercase hex of `Compress(P)`, hex-decoding it yields
`Compress(P)`, and `CookieCodec.Decode(CookieCodec.Encode(P))` returns `P` with
no error. -/
theorem cookie_decode_encode (z : Zlib) (hl : z.Lawful) (hb : z.BytesOut) (P : List Nat)
    (hP : IsBytes P) :
    (innerAtoms (NewCookieCodec.Encode z P)).flatten = hexEncodeToString (z.Compress P) ∧
      hexDecodeString (hexEncodeToString (z.Compress P)) = (z.Compress P, none) ∧
      NewCookieCodec.decodeMsg (NewCookieCodec.Encode z P) = .ok (z.Compress P) ∧
      NewCookieCodec.Decode z (NewCookieCodec.Encode z P) = .ok P := by
  have hc : IsBytes (z.Compress P) := hb P hP
  have hne : z.Compress P ≠ [] := hl.compress_ne_nil P hP
  have hx := hexDecode_hexEncode _ hc
  have hm : NewCookieCodec.decodeMsg (NewCookieCodec.Encode z P) = .ok (z.Compress P) := by
    rw [cookieEncode_eq,
      cookie_decodeMsg_frame _ (cookie_chunkify_ne_nil _ (hexEncode_ne_nil _ hne)),
      cookie_chunkify_flatten, hx]
  refine ⟨?_, hx, hm, ?_⟩
  · rw [cookieEncode_eq, innerAtoms_frame, cookie_chunkify_flatten]
  · unfold CookieCodec.Decode
    rw [hm]
    have := hl.run_eq P hP []
    rwa [List.append_nil] at this

/-- The payload `hi` under the stand-in stream format. -/
theorem cookie_decode_encode_witness :
    rawZlib.Lawful ∧ rawZlib.BytesOut ∧ IsBytes (bytesOf "hi") ∧
      NewCookieCodec.Decode rawZlib (NewCookieCodec.Encode rawZlib (bytesOf "hi"))
        = .ok (bytesOf "hi") :=
  ⟨rawZlib_lawful, rawZlib_bytesOut, by decide,
    (cookie_decode_encode rawZlib rawZlib_lawful rawZlib_bytesOut (bytesOf "hi")
      (by decide)).2.2.2⟩

/-- C4: for every byte payload `P`, the inner atoms of `DauCodec.Encode(P)`
concatenate to `base64(Compress(P))`, the byte string handed to `Decompress` is
`Compress(P)` followed by 0, 1 or 2 zero bytes, and
`DauCodec.Decode(DauCodec.Encode(P))` returns `P` with no error. -/
theorem dau_decode_encode (z : Zlib) (hl : z.Lawful) (hb : z.BytesOut) (P : List Nat)
    (hP : IsBytes P) :
    (innerAtoms (NewDauCodec.Encode z P)).flatten = b64Encode (z.Compress P) ∧
      (∃ k, k ≤ 2 ∧ NewDauCodec.decodeMsg (NewDauCodec.Encode z P)
        = .ok (z.Compress P ++ List.replicate k 0)) ∧
      NewDauCodec.Decode z (NewDauCodec.Encode z P) = .ok P := by
  have hc : IsBytes (z.Compress P) := hb P hP
  have hne : z.Compress P ≠ [] := hl.compress_ne_nil P hP
  have hm : NewDauCodec.decodeMsg (NewDauCodec.Encode z P)
      = .ok (z.Compress P ++ List.replicate (b64Slack (z.Compress P).length) 0) := by
    rw [dauEncode_eq, dau_decodeMsg_frame _ (dau_chunkify_ne_nil _ (b64Encode_ne_nil _ hne)),
      dau_chunkify_flatten, b64DecodeBuffer_encode _ hc]
  refine ⟨?_, ⟨_, b64Slack_le _, hm⟩, ?_⟩
  · rw [dauEncode_eq, innerAtoms_frame, dau_chunkify_flatten]
  · unfold DauCodec.Decode
    rw [hm]
    exact hl.run_eq P hP _

/-- The payload `ping` under the stand-in stream format. -/
theorem dau_decode_encode_witness :
    rawZlib.Lawful ∧ rawZlib.BytesOut ∧ IsBytes (bytesOf "ping") ∧
      NewDauCodec.Decode rawZlib (NewDauCodec.Encode rawZlib (bytesOf "ping"))
        = .ok (bytesOf "ping") :=
  ⟨rawZlib_lawful, rawZlib_bytesOut, by decide,
    (dau_decode_encode rawZlib rawZlib_lawful rawZlib_bytesOut (bytesOf "ping")
      (by decide)).2.2⟩

/-- C5: for every command string `s`, `DecodeCmd(EncodeCmd(s))` returns `s` with no
error, where `EncodeCmd(s)` is the lowercase hex of the bytes of `s` followed
by one `.`; `EncodeCmd("whoami") = "77686f616d69."` and `EncodeCmd("") = "."`. -/
theorem decodeCmd_encodeCmd (s : List Nat) (hs : IsBytes s) :
    DecodeCmd (EncodeCmd s) = .ok (s, none) ∧
      EncodeCmd s = hexEncodeToString s ++ bytesOf "." ∧
      EncodeCmd (bytesOf "whoami") = bytesOf "77686f616d69." ∧
      EncodeCmd (bytesOf "") = bytesOf "." := by
  refine ⟨?_, rfl, by decide, by decide⟩
  unfold DecodeCmd EncodeCmd
  rw [if_neg (by simp), List.length_append, List.length_singleton, Nat.add_sub_cancel,
    List.take_left, hexDecode_hexEncode s hs]

/-- The command `whoami`. -/
theorem decodeCmd_encodeCmd_witness :
    IsBytes (bytesOf "whoami") ∧
      DecodeCmd (EncodeCmd (bytesOf "whoami")) = .ok (bytesOf "whoami", none) :=
  ⟨by decide, (decodeCmd_encodeCmd (bytesOf "whoami") (by decide)).1⟩

/-! ## Framing checks of `Decode` -/

theorem decode_of_decodeMsg_error {α : Type} (dm : Except Fault (List Nat))
    (f : List Nat → Except Fault α) (e : Fault) (h : dm = .error e) :
    (match dm with
      | .ok msg => f msg
      | .error e => .error e) = .error e := by
  rw [h]

/-- C6 (the code departs from it): on an input of length at least 3 whose first
atom equals the prologue and whose last atom differs from the epilogue, each
of the four `Decode` methods evaluates `data[len(data)]` while formatting the
"Unexpected epilogue" message, an index out of range: the call panics where
the claim promises an error value. -/
theorem decode_epilogue_mismatch_panics (z : Zlib) :
    (∀ data : List IP, 3 ≤ data.length →
        IP.Equal (data.getD 0 []) NewEcsCodec.GetPrologue = true →
        IP.Equal (data.getD (data.length - 1) []) NewEcsCodec.GetEpilogue = false →
        NewEcsCodec.Decode z data = .error (.panic "index out of range")) ∧
      (∀ data : List Nat, 3 ≤ data.length →
        data.getD 0 0 = NewQtypeCodec.GetPrologue →
        data.getD (data.length - 1) 0 ≠ NewQtypeCodec.GetEpilogue →
        NewQtypeCodec.Decode z data = .error (.panic "index out of range")) ∧
      (∀ data : List (List Nat), 3 ≤ data.length →
        data.getD 0 [] = NewCookieCodec.GetPrologue →
        data.getD (data.length - 1) [] ≠ NewCookieCodec.GetEpilogue →
        NewCookieCodec.Decode z data = .error (.panic "index out of range")) ∧
      (∀ data : List (List Nat), 3 ≤ data.length →
        data.getD 0 [] = NewDauCodec.GetPrologue →
        data.getD (data.length - 1) [] ≠ NewDauCodec.GetEpilogue →
        NewDauCodec.Decode z data = .error (.panic "index out of range")) := by
  refine ⟨?_, ?_, ?_, ?_⟩
  · intro data hlen hp he
    unfold EcsCodec.Decode
    apply decode_of_decodeMsg_error
    unfold EcsCodec.decodeMsg
    simp only [EcsCodec.GetPrologue, EcsCodec.GetEpilogue] at hp he
    rw [if_neg (by omega), hp, he]
    rfl
  · intro data hlen hp he
    unfold QtypeCodec.Decode
    apply decode_of_decodeMsg_error
    unfold QtypeCodec.decodeMsg
    simp only [QtypeCodec.GetPrologue, QtypeCodec.GetEpilogue] at hp he
    have hpb := beq_iff_eq.mpr hp
    have heb := beq_eq_false_iff_ne.mpr he
    rw [if_neg (by omega), hpb, heb]
    rfl
  · intro data hlen hp he
    unfold CookieCodec.Decode
    apply decode_of_decodeMsg_error
    unfold CookieCodec.decodeMsg
    simp only [CookieCodec.GetPrologue, CookieCodec.GetEpilogue] at hp he
    have hpb := beq_iff_eq.mpr hp
    have heb := beq_eq_false_iff_ne.mpr he
    rw [if_neg (by omega), hpb, heb]
    rfl
  · intro data hlen hp he
    unfold DauCodec.Decode
    apply decode_of_decodeMsg_error
    unfold DauCodec.decodeMsg
    simp only [DauCodec.GetPrologue, DauCodec.GetEpilogue] at hp he
    have hpb := beq_iff_eq.mpr hp
    have heb := beq_eq_false_iff_ne.mpr he
    rw [if_neg (by omega), hpb, heb]
    rfl

/-- The QTYPE frame `[12345, 600, 600]`: prologue first, no epilogue last. -/
theorem decode_epilogue_mismatch_panics_witness :
    3 ≤ [12345, 600, 600].length ∧
      [12345, 600, 600].getD 0 0 = NewQtypeCodec.GetPrologue ∧
      [12345, 600, 600].getD ([12345, 600, 600].length - 1) 0 ≠ NewQtypeCodec.GetEpilogue ∧
      NewQtypeCodec.Decode rawZlib [12345, 600, 600] = .error (.panic "index out of range") :=
  ⟨by decide, by decide, by decide,
    (decode_epilogue_mismatch_panics rawZlib).2.1 [12345, 600, 600] (by decide) (by decide)
      (by decide)⟩

/-- C7: each of the four `Decode` methods returns the error "Message too short"
for every input of length 0, 1 or 2, and an "Unexpected prologue" error for
every input of length at least 3 whose first atom differs from the prologue;
no payload is returned in either case. -/
theorem decode_short_or_bad_prologue (z : Zlib) :
    (∀ data : List IP,
        (data.length < 3 → NewEcsCodec.Decode z data = .error (.error "Message too short")) ∧
        (3 ≤ data.length → IP.Equal (data.getD 0 []) NewEcsCodec.GetPrologue = false →
          NewEcsCodec.Decode z data = .error (.error "Unexpected prologue: %v"))) ∧
      (∀ data : List Nat,
        (data.length < 3 → NewQtypeCodec.Decode z data = .error (.error "Message too short")) ∧
        (3 ≤ data.length → data.getD 0 0 ≠ NewQtypeCodec.GetPrologue →
          NewQtypeCodec.Decode z data = .error (.error "Unexpected prologue: %v"))) ∧
      (∀ data : List (List Nat),
        (data.length < 3 → NewCookieCodec.Decode z data = .error (.error "Message too short")) ∧
        (3 ≤ data.length → data.getD 0 [] ≠ NewCookieCodec.GetPrologue →
          NewCookieCodec.Decode z data = .error (.error "Unexpected prologue: %v"))) ∧
      (∀ data : List (List Nat),
        (data.length < 3 → NewDauCodec.Decode z data = .error (.error "Message too short")) ∧
        (3 ≤ data.length → data.getD 0 [] ≠ NewDauCodec.GetPrologue →
          NewDauCodec.Decode z data = .error (.error "Unexpected prologue: %v"))) := by
  refine ⟨fun data => ⟨?_, ?_⟩, fun data => ⟨?_, ?_⟩, fun data => ⟨?_, ?_⟩,
    fun data => ⟨?_, ?_⟩⟩
  · intro h
    unfold EcsCodec.Decode
    apply decode_of_decodeMsg_error
    unfold EcsCodec.decodeMsg
    rw [if_pos h]
  · intro h hp
    unfold EcsCodec.Decode
    apply decode_of_decodeMsg_error
    unfold EcsCodec.decodeMsg
    simp only [EcsCodec.GetPrologue] at hp
    rw [if_neg (by omega), hp]
    rfl
  · intro h
    unfold QtypeCodec.Decode
    apply decode_of_decodeMsg_error
    unfold QtypeCodec.decodeMsg
    rw [if_pos h]
  · intro h hp
    unfold QtypeCodec.Decode
    apply decode_of_decodeMsg_error
    unfold QtypeCodec.decodeMsg
    simp only [QtypeCodec.GetPrologue] at hp
    have hpb := beq_eq_false_iff_ne.mpr hp
    rw [if_neg (by omega), hpb]
    rfl
  · intro h
    unfold CookieCodec.Decode
    apply decode_of_decodeMsg_error
    unfold CookieCodec.decodeMsg
    rw [if_pos h]
  · intro h hp
    unfold CookieCodec.Decode
    apply decode_of_decodeMsg_error
    unfold CookieCodec.decodeMsg
    simp only [CookieCodec.GetPrologue] at hp
    have hpb := beq_eq_false_iff_ne.mpr hp
    rw [if_neg (by omega), hpb]
    rfl
  · intro h
    unfold DauCodec.Decode
    apply decode_of_decodeMsg_error
    unfold DauCodec.decodeMsg
    rw [if_pos h]
  · intro h hp
    unfold DauCodec.Decode
    apply decode_of_decodeMsg_error
    unfold DauCodec.decodeMsg
    simp only [DauCodec.GetPrologue] at hp
    have hpb := beq_eq_false_iff_ne.mpr hp
    rw [if_neg (by omega), hpb]
    rfl

/-- The two-atom input made of both DAU sentinels is too short; the three-atom
ECS input starting with the epilogue has an unexpected prologue. -/
theorem decode_short_or_bad_prologue_witness :
    ([NewDauCodec.PROLOGUE, NewDauCodec.EPILOGUE].length < 3 ∧
      NewDauCodec.Decode rawZlib [NewDauCodec.PROLOGUE, NewDauCodec.EPILOGUE]
        = .error (.error "Message too short")) ∧
    (3 ≤ [IPv4 7 3 13 0, IPv4 65 65 65 0, IPv4 7 3 13 0].length ∧
      IP.Equal ([IPv4 7 3 13 0, IPv4 65 65 65 0, IPv4 7 3 13 0].getD 0 [])
        NewEcsCodec.GetPrologue = false ∧
      NewEcsCodec.Decode rawZlib [IPv4 7 3 13 0, IPv4 65 65 65 0, IPv4 7 3 13 0]
        = .error (.error "Unexpected prologue: %v")) :=
  ⟨⟨by decide,
      ((decode_short_or_bad_prologue rawZlib).2.2.2 [NewDauCodec.PROLOGUE, NewDauCodec.EPILOGUE]).1
        (by decide)⟩,
    ⟨by decide, by decide,
      ((decode_short_or_bad_prologue rawZlib).1
        [IPv4 7 3 13 0, IPv4 65 65 65 0, IPv4 7 3 13 0]).2 (by decide) (by decide)⟩⟩

/-! ## Shape of an encoded frame -/

theorem frame_props {α : Type} (p e : α) (inner : List α) (h : inner ≠ []) :
    (p :: (inner ++ [e])).head? = some p ∧ (p :: (inner ++ [e])).getLast? = some e ∧
      3 ≤ (p :: (inner ++ [e])).length := by
  refine ⟨rfl, ?_, ?_⟩
  · exact List.getLast?_concat (p :: inner)
  · have := frame_not_short p e inner h
    omega

/-- C8: for each of the four codecs and every payload `P`, `Encode(P)` is a
frame: its first atom is `GetPrologue()`, its last atom is `GetEpilogue()` and
its length is at least 3, the zlib stream of a payload being non-empty. -/
theorem encode_is_frame (z : Zlib) (hz : z.NonEmpty) (P : List Nat) :
    ((NewEcsCodec.Encode z P).head? = some NewEcsCodec.GetPrologue ∧
        (NewEcsCodec.Encode z P).getLast? = some NewEcsCodec.GetEpilogue ∧
        3 ≤ (NewEcsCodec.Encode z P).length) ∧
      ((NewQtypeCodec.Encode z P).head? = some NewQtypeCodec.GetPrologue ∧
        (NewQtypeCodec.Encode z P).getLast? = some NewQtypeCodec.GetEpilogue ∧
        3 ≤ (NewQtypeCodec.Encode z P).length) ∧
      ((NewCookieCodec.Encode z P).head? = some NewCookieCodec.GetPrologue ∧
        (NewCookieCodec.Encode z P).getLast? = some NewCookieCodec.GetEpilogue ∧
        3 ≤ (NewCookieCodec.Encode z P).length) ∧
      ((NewDauCodec.Encode z P).head? = some NewDauCodec.GetPrologue ∧
        (NewDauCodec.Encode z P).getLast? = some NewDauCodec.GetEpilogue ∧
        3 ≤ (NewDauCodec.Encode z P).length) := by
  have hne : z.Compress P ≠ [] := hz P
  refine ⟨?_, ?_, ?_, ?_⟩
  · rw [ecsEncode_eq]
    exact frame_props _ _ _ (ecsReference_ne_nil _ _ (b64Encode_ne_nil _ hne))
  · rw [qtypeEncode_eq]
    exact frame_props _ _ _ (qtype_pack_ne_nil _ hne)
  · rw [cookieEncode_eq]
    exact frame_props _ _ _ (cookie_chunkify_ne_nil _ (hexEncode_ne_nil _ hne))
  · rw [dauEncode_eq]
    exact frame_props _ _ _ (dau_chunkify_ne_nil _ (b64Encode_ne_nil _ hne))

/-- The QTYPE frame of the payload `[65]` under the stand-in stream format. -/
theorem encode_is_frame_witness :
    rawZlib.NonEmpty ∧
      (NewQtypeCodec.Encode rawZlib [65]).head? = some NewQtypeCodec.GetPrologue ∧
      (NewQtypeCodec.Encode rawZlib [65]).getLast? = some NewQtypeCodec.GetEpilogue ∧
      3 ≤ (NewQtypeCodec.Encode rawZlib [65]).length :=
  ⟨rawZlib_nonEmpty, (encode_is_frame rawZlib rawZlib_nonEmpty [65]).2.1⟩

/-! ## Reserved blocks of the ECS channel -/

theorem isReserved_escape (x y w : Nat) : NewEcsCodec.isReserved (IPv4 1 x y w) = false := by
  rfl

theorem ecsReference_not_reserved (msg : List Nat) :
    ∀ atom ∈ ecsReference NewEcsCodec msg, NewEcsCodec.isReserved atom = false := by
  induction msg using triple_induction with
  | h0 => intro atom h; simp [ecsReference] at h
  | h1 a =>
    intro atom h
    simp only [ecsReference, List.mem_singleton] at h
    subst h
    exact isReserved_escape _ _ _
  | h2 a b =>
    intro atom h
    simp only [ecsReference, List.mem_cons, List.mem_singleton, List.not_mem_nil, or_false] at h
    rcases h with h | h <;> subst h <;> exact isReserved_escape _ _ _
  | h3 a b c rest ih =>
    intro atom h
    simp only [ecsReference, List.mem_append] at h
    rcases h with h | h
    · unfold ecsTriple at h
      by_cases hr : NewEcsCodec.isReserved (IPv4 a b c 0) = true
      · rw [if_pos hr] at h
        simp only [List.mem_cons, List.mem_singleton, List.not_mem_nil, or_false] at h
        rcases h with h | h <;> subst h <;> exact isReserved_escape _ _ _
      · rw [if_neg hr] at h
        simp only [List.mem_singleton] at h
        subst h
        simpa using hr
    · exact ih atom h

/-- C10: for every payload `P`, no atom of `EcsCodec.Encode(P)` lies inside any of
the 17 reserved blocks of `RESERVED`: a regular atom `a.b.c.0` is emitted only
when `isReserved` is false, and the escape atoms and both sentinels are
outside every reserved block. -/
theorem ecs_encode_not_reserved (z : Zlib) (P : List Nat) :
    NewEcsCodec.RESERVED.length = 17 ∧
      (∀ atom ∈ NewEcsCodec.Encode z P,
        ∀ block ∈ NewEcsCodec.RESERVED, (ParseCIDR block).Contains atom = false) ∧
      (∀ x y : Nat, NewEcsCodec.isReserved (IPv4 1 x y 0) = false) ∧
      NewEcsCodec.isReserved (IPv4 13 3 7 0) = false ∧
      NewEcsCodec.isReserved (IPv4 7 3 13 0) = false := by
  refine ⟨rfl, ?_, fun x y => isReserved_escape x y 0, by decide, by decide⟩
  intro atom ha block hb
  have hres : NewEcsCodec.isReserved atom = false := by
    rw [ecsEncode_eq] at ha
    simp only [List.mem_cons, List.mem_append, List.mem_singleton, List.not_mem_nil,
      or_false] at ha
    rcases ha with ha | ha | ha
    · subst ha; decide
    · exact ecsReference_not_reserved _ atom ha
    · subst ha; decide
  unfold EcsCodec.isReserved at hres
  rw [List.any_eq_false] at hres
  simpa using hres block hb

/-! ## The expansion stage of the ECS channel -/

/-- C18: for every byte string `m` taken as the base64 stream inside
`EcsCodec.Encode`, all of whose bytes differ from 0 and 1, concatenating in
order the bytes different from 0 and 1 of the 4-byte form of each inner atom
yields exactly `m`. -/
theorem ecs_inner_bytes (m : List Nat) (hm : ∀ x ∈ m, x ≠ 0 ∧ x ≠ 1) :
    (innerAtoms (NewEcsCodec.expand m ++ [NewEcsCodec.EPILOGUE])).flatMap ecsAtomBytes = m := by
  rw [expand_eq, List.cons_append, innerAtoms_frame]
  exact ecsReference_bytes _ m hm

/-- The stream `dBAc0` has a reserved triple and two leftover bytes. -/
theorem ecs_inner_bytes_witness :
    (∀ x ∈ [100, 66, 65, 99, 48], x ≠ 0 ∧ x ≠ 1) ∧
      (innerAtoms (NewEcsCodec.expand [100, 66, 65, 99, 48] ++ [NewEcsCodec.EPILOGUE])).flatMap
        ecsAtomBytes = [100, 66, 65, 99, 48] :=
  ⟨by decide, ecs_inner_bytes [100, 66, 65, 99, 48] (by decide)⟩

/-- C19: the inner atoms of `EcsCodec.Encode` are the reference expansion of the
base64 stream `m`: `m` is consumed three bytes `(a, b, c)` at a time; a triple
whose address `a.b.c.0` is in no reserved block yields the atom `a.b.c.0`; a
triple whose address is in a reserved block yields `1.a.b.0` and `1.c.0.0` in
that order; each of the `len(m) mod 3` leftover bytes `x` yields `1.x.0.0`. -/
theorem ecs_inner_eq_reference (z : Zlib) (P m : List Nat) :
    innerAtoms (NewEcsCodec.Encode z P) = ecsReference NewEcsCodec (b64Encode (z.Compress P)) ∧
      innerAtoms (NewEcsCodec.expand m ++ [NewEcsCodec.EPILOGUE]) = ecsReference NewEcsCodec m ∧
      (∀ a b c rest, ecsReference NewEcsCodec (a :: b :: c :: rest)
        = (if NewEcsCodec.isReserved (IPv4 a b c 0) then [IPv4 1 a b 0, IPv4 1 c 0 0]
            else [IPv4 a b c 0]) ++ ecsReference NewEcsCodec rest) ∧
      (∀ x y, ecsReference NewEcsCodec [x, y] = [IPv4 1 x 0 0, IPv4 1 y 0 0]) ∧
      (∀ x, ecsReference NewEcsCodec [x] = [IPv4 1 x 0 0]) ∧
      ecsReference NewEcsCodec [] = [] := by
  refine ⟨?_, ?_, fun _ _ _ _ => rfl, fun _ _ => rfl, fun _ => rfl, rfl⟩
  · rw [ecsEncode_eq, innerAtoms_frame]
  · rw [expand_eq, List.cons_append, innerAtoms_frame]

/-! ## The expansion stage of the QTYPE channel -/

theorem qtype_pack_mem (c : List Nat) :
    ∀ x ∈ NewQtypeCodec.pack c,
      (∃ pre lo hi post, c = pre ++ lo :: hi :: post ∧ pre.length % 2 = 0 ∧
          x = ((lo + hi * 256) % 65536 + 512) % 65536) ∨
        (∃ pre b, c = pre ++ [b] ∧ pre.length % 2 = 0 ∧ x = (b % 65536 + 512) % 65536) := by
  induction c using pair_induction with
  | h0 => intro x hx; simp [QtypeCodec.pack] at hx
  | h1 b =>
    intro x hx
    simp only [QtypeCodec.pack, NewQtypeCodec, List.mem_singleton] at hx
    right
    exact ⟨[], b, rfl, rfl, hx⟩
  | h2 lo hi rest ih =>
    intro x hx
    simp only [QtypeCodec.pack, List.mem_cons] at hx
    rcases hx with hx | hx
    · left
      exact ⟨[], lo, hi, rest, rfl, rfl, hx⟩
    · rcases ih x hx with ⟨pre, l, h, post, hc, hp, hv⟩ | ⟨pre, b, hc, hp, hv⟩
      · left
        refine ⟨lo :: hi :: pre, l, h, post, ?_, ?_, hv⟩
        · rw [hc]; rfl
        · simp only [List.length_cons]; omega
      · right
        refine ⟨lo :: hi :: pre, b, ?_, ?_, hv⟩
        · rw [hc]; rfl
        · simp only [List.length_cons]; omega

/-- C11 (amended): for every compressed byte string `c`, every inner atom `x` of
`QtypeCodec.Encode` is below 65536, and `x >= 512` unless the atom packs a
byte pair at an even offset of `c` whose high byte is `0xFE` or `0xFF`: there
the 16-bit sum wraps and `x = lo + 256 * hi - 65024`, a value below 512. -/
theorem qtype_inner_range (c : List Nat) (hc : IsBytes c) :
    ∀ x ∈ NewQtypeCodec.pack c, x < 65536 ∧
      (512 ≤ x ∨ ∃ pre lo hi post, c = pre ++ lo :: hi :: post ∧ pre.length % 2 = 0 ∧
        254 ≤ hi ∧ x + 65024 = lo + 256 * hi) := by
  intro x hx
  rcases qtype_pack_mem c x hx with ⟨pre, lo, hi, post, he, hp, hv⟩ | ⟨pre, b, he, _, hv⟩
  · have hlo : lo < 256 := hc lo (by rw [he]; simp)
    have hhi : hi < 256 := hc hi (by rw [he]; simp)
    refine ⟨by omega, ?_⟩
    by_cases h : 512 ≤ x
    · left; exact h
    · right
      exact ⟨pre, lo, hi, post, he, hp, by omega, by omega⟩
  · have hb : b < 256 := hc b (by rw [he]; simp)
    exact ⟨by omega, Or.inl (by omega)⟩

/-- The stream `[120, 156, 6, 254]`: the first atom is above 512, the second wraps to 6. -/
theorem qtype_inner_range_witness :
    IsBytes [120, 156, 6, 254] ∧ NewQtypeCodec.pack [120, 156, 6, 254] = [40568, 6] ∧
      ∀ x ∈ NewQtypeCodec.pack [120, 156, 6, 254], x < 65536 ∧
        (512 ≤ x ∨ ∃ pre lo hi post, [120, 156, 6, 254] = pre ++ lo :: hi :: post ∧
          pre.length % 2 = 0 ∧ 254 ≤ hi ∧ x + 65024 = lo + 256 * hi) :=
  ⟨by decide, by decide, qtype_inner_range [120, 156, 6, 254] (by decide)⟩

/-- C11 fails as stated: the byte pair `0x06, 0xFE` gives the inner atom 6. -/
theorem qtype_inner_below_offset :
    ¬ (∀ c : List Nat, IsBytes c → ∀ x ∈ NewQtypeCodec.pack c, 512 ≤ x) := by
  intro h
  have := h [6, 254] (by decide) 6 (by decide)
  omega

/-- C17 (amended): `QtypeCodec.Encode` compresses the payload first, so the frame
of the one-byte payload `0x41` is the prologue, the atoms of the compressed
stream and the epilogue; `[12345, 577, 56789]` is the frame of the stream
`[0x41]` itself, and a stream that starts with the zlib header byte `0x78`
followed by at least one more byte gives a different frame. -/
theorem qtype_encode_one_byte (z : Zlib) (f : Nat) (rest : List Nat)
    (hz : z.Compress [65] = 120 :: f :: rest) :
    NewQtypeCodec.Encode z [65] = [12345] ++ NewQtypeCodec.pack (z.Compress [65]) ++ [56789] ∧
      [12345] ++ NewQtypeCodec.pack [65] ++ [56789] = [12345, 577, 56789] ∧
      NewQtypeCodec.Encode z [65] ≠ [12345, 577, 56789] := by
  refine ⟨rfl, by decide, ?_⟩
  intro h
  rw [qtypeEncode_eq, hz] at h
  simp only [QtypeCodec.pack, NewQtypeCodec, List.cons_append, List.cons.injEq, true_and] at h
  omega

/-- The stand-in stream of the payload `0x41` is `78 9c 41 00 00`. -/
theorem qtype_encode_one_byte_witness :
    rawZlib.Compress [65] = 120 :: 156 :: [65, 0, 0] ∧
      NewQtypeCodec.Encode rawZlib [65] ≠ [12345, 577, 56789] :=
  ⟨rfl, (qtype_encode_one_byte rawZlib 156 [65, 0, 0] rfl).2.2⟩

/-- C17 fails as stated: the frame depends on the compressed stream, and a
lawful compressor gives a frame other than `[12345, 577, 56789]`. -/
theorem qtype_encode_one_byte_not_fixed :
    ¬ (∀ z : Zlib, z.Lawful → z.BytesOut →
        NewQtypeCodec.Encode z [65] = [12345, 577, 56789]) := by
  intro h
  have := h rawZlib rawZlib_lawful rawZlib_bytesOut
  revert this
  decide

/-! ## Sentinels and content atoms -/

theorem chunkLoop_mem_pos (s : List Nat) (n : Nat) :
    ∀ (fuel i : Nat) (acc : List (List Nat)) (ch : List Nat), ch ∈ chunkLoop s n fuel i acc →
      ch ∈ acc ∨ ∃ k, ch = (s.drop (i + k * n)).take n := by
  intro fuel
  induction fuel with
  | zero => intro i acc ch h; left; simpa [chunkLoop] using h
  | succ f ih =>
    intro i acc ch h
    unfold chunkLoop at h
    by_cases hi : i < s.length
    · simp only [hi, if_true] at h
      rcases ih _ _ _ h with h1 | ⟨k, hk⟩
      · rcases List.mem_append.mp h1 with h2 | h2
        · left; exact h2
        · right
          rw [List.mem_singleton] at h2
          refine ⟨0, ?_⟩
          rw [h2, List.drop_take, Nat.zero_mul, Nat.add_zero]
          by_cases he : i + n > s.length
          · rw [if_pos he, List.take_of_length_le (by rw [List.length_drop]),
              List.take_of_length_le (by rw [List.length_drop]; omega)]
          · rw [if_neg he, Nat.add_sub_cancel_left]
      · right
        refine ⟨k + 1, ?_⟩
        rw [hk]
        congr 2
        rw [Nat.add_mul, Nat.one_mul]
        omega
    · simp only [hi, if_false] at h
      left; exact h

theorem hexEncode_drop (j : Nat) :
    ∀ c : List Nat, (hexEncodeToString c).drop (2 * j) = hexEncodeToString (c.drop j) := by
  induction j with
  | zero => intro c; rfl
  | succ j ih =>
    intro c
    cases c with
    | nil => rfl
    | cons v rest =>
      have : 2 * (j + 1) = 2 * j + 1 + 1 := by omega
      rw [this]
      simp only [hexEncodeToString, List.drop_succ_cons]
      exact ih rest

theorem hexEncode_take (j : Nat) :
    ∀ c : List Nat, (hexEncodeToString c).take (2 * j) = hexEncodeToString (c.take j) := by
  induction j with
  | zero => intro c; rfl
  | succ j ih =>
    intro c
    cases c with
    | nil => rfl
    | cons v rest =>
      have : 2 * (j + 1) = 2 * j + 1 + 1 := by omega
      rw [this]
      simp only [hexEncodeToString, List.take_succ_cons]
      rw [ih rest]

theorem hexEncode_injective (a b : List Nat) (ha : IsBytes a) (hb : IsBytes b)
    (h : hexEncodeToString a = hexEncodeToString b) : a = b := by
  have h1 := hexDecode_hexEncode a ha
  rw [h, hexDecode_hexEncode b hb] at h1
  exact (Prod.mk.inj h1).1.symm

theorem cookie_chunk_segment (c : List Nat) (hc : IsBytes c) (seg : List Nat) (hs : IsBytes seg) :
    hexEncodeToString seg ∈ CookieCodec.chunkify (hexEncodeToString c) 32 →
      ∃ k, (c.drop (16 * k)).take 16 = seg := by
  intro h
  rcases chunkLoop_mem_pos _ 32 _ 0 [] _ h with h1 | ⟨k, hk⟩
  · simp at h1
  · refine ⟨k, ?_⟩
    have e : 0 + k * 32 = 2 * (16 * k) := by omega
    rw [e, hexEncode_drop, (by rfl : (32 : Nat) = 2 * 16), hexEncode_take] at hk
    refine (hexEncode_injective _ _ hs ?_ hk).symm
    intro x hx
    exact hc x (List.mem_of_mem_drop (List.mem_of_mem_take hx))

theorem ipEqual_IPv4 (a b c d a1 b1 c1 d1 : Nat) (h : a ≠ a1) :
    IP.Equal (IPv4 a b c d) (IPv4 a1 b1 c1 d1) = false := by
  simp [IP.Equal, IPv4, v4InV6Prefix, h]

theorem ecsReference_first_byte (codec : EcsCodec) (msg : List Nat) :
    ∀ atom ∈ ecsReference codec msg,
      ∃ a b c d, atom = IPv4 a b c d ∧ (a = 1 ∨ a ∈ msg) := by
  induction msg using triple_induction with
  | h0 => intro atom h; simp [ecsReference] at h
  | h1 x =>
    intro atom h
    simp only [ecsReference, List.mem_singleton] at h
    exact ⟨1, x, 0, 0, h, Or.inl rfl⟩
  | h2 x y =>
    intro atom h
    simp only [ecsReference, List.mem_cons, List.mem_singleton, List.not_mem_nil, or_false] at h
    rcases h with h | h
    · exact ⟨1, x, 0, 0, h, Or.inl rfl⟩
    · exact ⟨1, y, 0, 0, h, Or.inl rfl⟩
  | h3 a b c rest ih =>
    intro atom h
    simp only [ecsReference, List.mem_append] at h
    rcases h with h | h
    · unfold ecsTriple at h
      split at h
      · simp only [List.mem_cons, List.mem_singleton, List.not_mem_nil, or_false] at h
        rcases h with h | h
        · exact ⟨1, a, b, 0, h, Or.inl rfl⟩
        · exact ⟨1, c, 0, 0, h, Or.inl rfl⟩
      · simp only [List.mem_singleton] at h
        exact ⟨a, b, c, 0, h, Or.inr (by simp)⟩
    · rcases ih atom h with ⟨a1, b1, c1, d1, he, hm⟩
      refine ⟨a1, b1, c1, d1, he, ?_⟩
      rcases hm with hm | hm
      · exact Or.inl hm
      · exact Or.inr (by simp [hm])

/-- C9 (amended): for every compressed byte string `c`, no inner atom of the ECS
frame equals `13.3.7.0` or `7.3.13.0` and no inner atom of the DAU frame equals
a DAU sentinel. On the other two channels a content atom equals a sentinel
only at particular streams: a QTYPE atom equals 12345 or 56789 only when `c`
holds the byte pair `0x39, 0x2E` or `0xD5, 0xDB` at an even offset, and a
COOKIE chunk equals a sentinel only when `c` holds the sixteen bytes
`13 37 ... 13 37` or `73 31 ... 73 31` at an offset that is a multiple of 16. -/
theorem content_atoms_vs_sentinels (c : List Nat) (hc : IsBytes c) :
    (∀ atom ∈ innerAtoms (NewEcsCodec.expand (b64Encode c) ++ [NewEcsCodec.EPILOGUE]),
        IP.Equal atom NewEcsCodec.GetPrologue = false ∧
        IP.Equal atom NewEcsCodec.GetEpilogue = false) ∧
      (∀ chunk ∈ DauCodec.chunkify (b64Encode c) 64,
        chunk ≠ NewDauCodec.GetPrologue ∧ chunk ≠ NewDauCodec.GetEpilogue) ∧
      (∀ x ∈ NewQtypeCodec.pack c,
        x = NewQtypeCodec.GetPrologue ∨ x = NewQtypeCodec.GetEpilogue →
        ∃ pre lo hi post, c = pre ++ lo :: hi :: post ∧ pre.length % 2 = 0 ∧
          ((lo = 57 ∧ hi = 46) ∨ (lo = 213 ∧ hi = 219))) ∧
      (∀ chunk ∈ CookieCodec.chunkify (hexEncodeToString c) 32,
        (chunk = NewCookieCodec.GetPrologue →
          ∃ k, (c.drop (16 * k)).take 16 = cookiePrologueBytes) ∧
        (chunk = NewCookieCodec.GetEpilogue →
          ∃ k, (c.drop (16 * k)).take 16 = cookieEpilogueBytes)) := by
  have ht := b64Encode_text c hc
  refine ⟨?_, ?_, ?_, ?_⟩
  · intro atom ha
    rw [expand_eq, List.cons_append, innerAtoms_frame] at ha
    rcases ecsReference_first_byte _ _ atom ha with ⟨a, b, c1, d, he, hm⟩
    subst he
    have h13 : a ≠ 13 ∧ a ≠ 7 := by
      rcases hm with hm | hm
      · omega
      · have := ht a hm
        omega
    exact ⟨ipEqual_IPv4 _ _ _ _ _ _ _ _ h13.1, ipEqual_IPv4 _ _ _ _ _ _ _ _ h13.2⟩
  · intro chunk hch
    unfold DauCodec.chunkify at hch
    rw [if_neg (by decide)] at hch
    rcases chunkLoop_mem _ _ _ _ _ _ hch with h1 | ⟨h1, _⟩
    · simp at h1
    · constructor
      · intro he
        have := ht 1 (h1 1 (by rw [he]; decide))
        omega
      · intro he
        have := ht 1 (h1 1 (by rw [he]; decide))
        omega
  · intro x hx hs
    simp only [QtypeCodec.GetPrologue, QtypeCodec.GetEpilogue, NewQtypeCodec] at hs
    rcases qtype_pack_mem c x hx with ⟨pre, lo, hi, post, he, hp, hv⟩ | ⟨pre, b, he, _, hv⟩
    · have hlo : lo < 256 := hc lo (by rw [he]; simp)
      have hhi : hi < 256 := hc hi (by rw [he]; simp)
      exact ⟨pre, lo, hi, post, he, hp, by omega⟩
    · have hb : b < 256 := hc b (by rw [he]; simp)
      omega
  · intro chunk hch
    constructor
    · intro he
      have hp : NewCookieCodec.GetPrologue = hexEncodeToString cookiePrologueBytes := by decide
      rw [he, hp] at hch
      exact cookie_chunk_segment c hc _ (by decide) hch
    · intro he
      have hp : NewCookieCodec.GetEpilogue = hexEncodeToString cookieEpilogueBytes := by decide
      rw [he, hp] at hch
      exact cookie_chunk_segment c hc _ (by decide) hch

/-- The stream `78 9c 39 2e`: its second QTYPE atom is the prologue 12345, and
the pair `0x39, 0x2E` sits at offset 2. -/
theorem content_atoms_vs_sentinels_witness :
    IsBytes [120, 156, 57, 46] ∧ NewQtypeCodec.pack [120, 156, 57, 46] = [40568, 12345] ∧
      ∃ pre lo hi post, [120, 156, 57, 46] = pre ++ lo :: hi :: post ∧ pre.length % 2 = 0 ∧
        ((lo = 57 ∧ hi = 46) ∨ (lo = 213 ∧ hi = 219)) :=
  ⟨by decide, by decide,
    (content_atoms_vs_sentinels [120, 156, 57, 46] (by decide)).2.2.1 12345 (by decide)
      (Or.inl rfl)⟩

/-- C9 fails as stated: the stream `39 2e` gives the QTYPE inner atom 12345, the
prologue, and the sixteen bytes `13 37 ... 13 37` give the COOKIE prologue as
a chunk. -/
theorem content_atom_equals_sentinel :
    NewQtypeCodec.GetPrologue ∈ NewQtypeCodec.pack [57, 46] ∧
      NewQtypeCodec.GetEpilogue ∈ NewQtypeCodec.pack [213, 219] ∧
      NewCookieCodec.GetPrologue
        ∈ CookieCodec.chunkify (hexEncodeToString cookiePrologueBytes) 32 ∧
      NewCookieCodec.GetEpilogue
        ∈ CookieCodec.chunkify (hexEncodeToString cookieEpilogueBytes) 32 := by
  decide

/-! ## Command delivery -/

theorem hexEncode_length (c : List Nat) : (hexEncodeToString c).length = 2 * c.length := by
  induction c with
  | nil => rfl
  | cons v rest ih => simp only [hexEncodeToString, List.length_cons, ih]; omega

theorem hexChar_ne_dot (i : Nat) : hexChar i ≠ 46 := by
  by_cases h : i < 16
  · interval_cases i <;> decide
  · have hl : hextable.length ≤ i := by
      have h16 : hextable.length = 16 := rfl
      omega
    have h0 : hexChar i = 0 := List.getD_eq_default _ _ hl
    rw [h0]
    decide

theorem hexEncode_no_dot (c : List Nat) : ∀ ch ∈ hexEncodeToString c, ch ≠ 46 := by
  induction c with
  | nil => intro ch h; simp [hexEncodeToString] at h
  | cons v rest ih =>
    intro ch h
    simp only [hexEncodeToString, List.mem_cons] at h
    rcases h with h | h | h
    · rw [h]; exact hexChar_ne_dot _
    · rw [h]; exact hexChar_ne_dot _
    · exact ih ch h

theorem longestLabel_one_label (l : List Nat) (h : ∀ ch ∈ l, ch ≠ 46) :
    ∀ cur, longestLabel (l ++ [46]) cur = cur + l.length := by
  induction l with
  | nil => intro cur; simp [longestLabel]
  | cons ch rest ih =>
    intro cur
    have hch : ch ≠ 46 := h ch (by simp)
    have hr : ∀ x ∈ rest, x ≠ 46 := fun x hx => h x (by simp [hx])
    rw [List.cons_append, longestLabel, if_neg hch, ih hr, List.length_cons]
    omega

theorem longestLabel_encodeCmd (s : List Nat) :
    longestLabel (EncodeCmd s) 0 = 2 * s.length := by
  unfold EncodeCmd
  rw [longestLabel_one_label _ (hexEncode_no_dot s) 0, hexEncode_length]
  omega

theorem labelWire_lawful : labelWire.Lawful := by
  intro answer h
  rcases h with ⟨rr, hrr, name, hname, hlong⟩
  refine ⟨"i/o timeout", ?_⟩
  have hall : answer.all (fun rr => rr.names.all (fun name => longestLabel name 0 ≤ 63))
      = false := by
    rw [List.all_eq_false]
    refine ⟨rr, hrr, ?_⟩
    rw [Bool.not_eq_true, List.all_eq_false]
    refine ⟨name, hname, ?_⟩
    simp only [decide_eq_true_eq]
    omega
  simp only [labelWire, hall, Bool.false_eq_true, if_false]

/-- C15 (amended): for every pending command `s`, each of the four servers
answers an SOA question with exactly one SOA record whose `Ns` is
`EncodeCmd(s)` (`Mbox` `kek.pek.`, `Serial` 3, `Refresh` 1, `Retry` 3, `Expire`
3, `Minttl` 7) and leaves its state unchanged. That `Ns` is one label of
`2 * len(s)` characters: for a command of 32 bytes or more the reply cannot be
packed and `FetchCmd` returns the error of the exchange; whenever the answer
is received, `s` has at most 31 bytes and `FetchCmd` returns `s` with no error;
for `s = ""` the result is `""`, and for `s = "whoami"` the `Ns` field is
`77686f616d69.`. -/
theorem soa_answer_over_wire (z : Zlib) (str : IP → List Nat) (w : Wire) (hw : w.Lawful)
    (r : Query) (hr : r.Qtype = TypeSOA) (s : List Nat) (hs : IsBytes s)
    (pq : QtypeProtoServer) (pe : EcsProtoServer) (pc : CookieProtoServer) (pd : DauProtoServer)
    (hq : pq.cmd = s) (he : pe.cmd = s) (hc : pc.cmd = s) (hd : pd.cmd = s) :
    pq.serverHandler z r = .ok (pq, [soaAnswer r.Name s]) ∧
      pe.serverHandler str r = (pe, [soaAnswer r.Name s]) ∧
      pc.serverHandler r = (pc, [soaAnswer r.Name s]) ∧
      pd.serverHandler r = (pd, [soaAnswer r.Name s]) ∧
      soaAnswer r.Name s
        = .SOA { Name := r.Name, Rrtype := 6, Class := 1, Ttl := 0 } (EncodeCmd s)
            (bytesOf "kek.pek.") 3 1 3 3 7 ∧
      longestLabel (EncodeCmd s) 0 = 2 * s.length ∧
      (32 ≤ s.length →
        ∃ err, FetchCmd (w.exchange [soaAnswer r.Name s]) = .error (.error err)) ∧
      (w.exchange [soaAnswer r.Name s] = .ok [soaAnswer r.Name s] →
        s.length ≤ 31 ∧ FetchCmd (w.exchange [soaAnswer r.Name s]) = .ok s) ∧
      FetchCmd (.ok [soaAnswer r.Name (bytesOf "")]) = .ok (bytesOf "") ∧
      EncodeCmd (bytesOf "whoami") = bytesOf "77686f616d69." := by
  have hlong : 32 ≤ s.length →
      ∃ err, w.exchange [soaAnswer r.Name s] = .error err := by
    intro h32
    apply hw
    refine ⟨soaAnswer r.Name s, by simp, EncodeCmd s, by simp [soaAnswer, RR.names], ?_⟩
    rw [longestLabel_encodeCmd]
    omega
  refine ⟨?_, ?_, ?_, ?_, rfl, longestLabel_encodeCmd s, ?_, ?_, rfl, by decide⟩
  · unfold QtypeProtoServer.serverHandler
    simp only [hr, hq, if_true]
  · unfold EcsProtoServer.serverHandler
    simp only [hr, he, if_true]
  · unfold CookieProtoServer.serverHandler
    simp only [hr, hc, if_true]
  · unfold DauProtoServer.serverHandler
    simp only [hr, hd, if_true]
  · intro h32
    rcases hlong h32 with ⟨err, herr⟩
    exact ⟨err, by rw [herr]; rfl⟩
  · intro hdel
    have hlen : s.length ≤ 31 := by
      by_contra hcon
      rcases hlong (by omega) with ⟨err, herr⟩
      rw [herr] at hdel
      cases hdel
    refine ⟨hlen, ?_⟩
    rw [hdel]
    have h1 : DecodeCmd (EncodeCmd s) = .ok (s, none) := by
      unfold DecodeCmd EncodeCmd
      rw [if_neg (by simp), List.length_append, List.length_singleton, Nat.add_sub_cancel,
        List.take_left, hexDecode_hexEncode s hs]
    simp only [FetchCmd, soaAnswer, h1]

/-- The command `whoami` polled from a server over an exchange that loses
nothing: the answer is received and `FetchCmd` returns the command. -/
theorem soa_answer_over_wire_witness :
    labelWire.Lawful ∧ IsBytes (bytesOf "whoami") ∧
      labelWire.exchange [soaAnswer (bytesOf "a.b.") (bytesOf "whoami")]
        = .ok [soaAnswer (bytesOf "a.b.") (bytesOf "whoami")] ∧
      (bytesOf "whoami").length ≤ 31 ∧
      FetchCmd (labelWire.exchange [soaAnswer (bytesOf "a.b.") (bytesOf "whoami")])
        = .ok (bytesOf "whoami") :=
  ⟨labelWire_lawful, by decide, by decide,
    (soa_answer_over_wire rawZlib (fun ip => ip) labelWire labelWire_lawful
      ⟨bytesOf "a.b.", 6, none⟩ rfl (bytesOf "whoami") (by decide)
      ⟨bytesOf "whoami", false, [], []⟩ ⟨bytesOf "whoami", false, []⟩
      ⟨bytesOf "whoami", false, []⟩ ⟨bytesOf "whoami", false, []⟩
      rfl rfl rfl rfl).2.2.2.2.2.2.2.1 (by decide)⟩

/-- C15 fails as stated: a command of 32 bytes gives an `Ns` of 65 characters
whose only label has 64; the reply cannot be packed, and over an exchange that
loses nothing else `FetchCmd` returns the error of the exchange, not the
command. -/
theorem soa_answer_long_cmd_lost :
    labelWire.Lawful ∧ IsBytes (List.replicate 32 97) ∧
      (EncodeCmd (List.replicate 32 97)).length = 65 ∧
      longestLabel (EncodeCmd (List.replicate 32 97)) 0 = 64 ∧
      QtypeProtoServer.serverHandler rawZlib ⟨List.replicate 32 97, false, [], []⟩
          ⟨bytesOf "a.b.", 6, none⟩
        = .ok (⟨List.replicate 32 97, false, [], []⟩,
            [soaAnswer (bytesOf "a.b.") (List.replicate 32 97)]) ∧
      FetchCmd (labelWire.exchange [soaAnswer (bytesOf "a.b.") (List.replicate 32 97)])
        = .error (.error "i/o timeout") :=
  ⟨labelWire_lawful, by decide, by decide, by decide, by decide, by decide⟩

theorem hexDecode_none_iff (l : List Nat) :
    (hexDecodeString l).2 = none ↔ l.length % 2 = 0 ∧ ∀ ch ∈ l, reverseHexTable ch ≤ 15 := by
  induction l using pair_induction with
  | h0 => simp [hexDecodeString]
  | h1 b =>
    simp only [hexDecodeString]
    split <;> simp
  | h2 p q rest ih =>
    simp only [hexDecodeString]
    by_cases hp : reverseHexTable p > 15
    · simp only [hp, if_true]
      constructor
      · intro h; cases h
      · intro h
        have := h.2 p (by simp)
        omega
    · by_cases hq : reverseHexTable q > 15
      · simp only [hp, hq, if_true, if_false]
        constructor
        · intro h; cases h
        · intro h
          have := h.2 q (by simp)
          omega
      · simp only [hp, hq, if_false]
        rw [ih]
        simp only [List.length_cons, List.mem_cons]
        constructor
        · rintro ⟨h1, h2⟩
          refine ⟨by omega, ?_⟩
          intro ch hch
          rcases hch with h | h | h
          · subst h; omega
          · subst h; omega
          · exact h2 ch h
        · rintro ⟨h1, h2⟩
          exact ⟨by omega, fun ch hch => h2 ch (Or.inr (Or.inr hch))⟩

/-- Away from an empty `Ns`, `FetchCmd` does what C16 says: for every answer list
it returns the error "Unexpected amount of DNS answers" when the list does not
hold exactly one record and "Unexpected response instead of SOA record" when
the single record is not an SOA; for a single SOA with a non-empty `Ns` it
returns a command without error if and only if `Ns` minus its last character
is valid hex, and the error "Unexpected content of SOA record" otherwise. -/
theorem fetchCmd_cases (answers : List RR) :
    (answers.length ≠ 1 →
        FetchCmd (.ok answers) = .error (.error "Unexpected amount of DNS answers")) ∧
      (∀ rr, answers = [rr] → rr.isSOA = false →
        FetchCmd (.ok answers)
          = .error (.error "Unexpected response instead of SOA record")) ∧
      (∀ hdr ns mbox serial refresh retry expire minttl,
        answers = [.SOA hdr ns mbox serial refresh retry expire minttl] → ns ≠ [] →
        ((∃ cmd, FetchCmd (.ok answers) = .ok cmd) ↔ ValidHexBody ns) ∧
        (¬ ValidHexBody ns →
          FetchCmd (.ok answers) = .error (.error "Unexpected content of SOA record"))) := by
  refine ⟨?_, ?_, ?_⟩
  · intro h
    match answers, h with
    | [], _ => rfl
    | [_], h => exact absurd rfl h
    | a :: _ :: _, _ => cases a <;> rfl
  · intro rr he hs
    subst he
    cases rr <;> first | rfl | (simp [RR.isSOA] at hs)
  · intro hdr ns mbox serial refresh retry expire minttl he hne
    subst he
    have hlen : ¬ ns.length = 0 := fun h => hne (List.length_eq_zero.mp h)
    have hv : ValidHexBody ns ↔ (hexDecodeString (ns.take (ns.length - 1))).2 = none := by
      rw [hexDecode_none_iff, List.length_take]
      unfold ValidHexBody
      rw [Nat.min_eq_left (Nat.sub_le _ _)]
    cases hd : hexDecodeString (ns.take (ns.length - 1)) with
    | mk decoded err =>
      rw [hd] at hv
      cases err with
      | none =>
        have hf : FetchCmd (.ok [.SOA hdr ns mbox serial refresh retry expire minttl])
            = .ok decoded := by
          simp only [FetchCmd, DecodeCmd, hlen, if_false, hd]
        rw [hf]
        have hvalid : ValidHexBody ns := hv.mpr (by simp)
        exact ⟨⟨fun _ => hvalid, fun _ => ⟨decoded, rfl⟩⟩, fun h => absurd hvalid h⟩
      | some e =>
        have hf : FetchCmd (.ok [.SOA hdr ns mbox serial refresh retry expire minttl])
            = .error (.error "Unexpected content of SOA record") := by
          simp only [FetchCmd, DecodeCmd, hlen, if_false, hd]
        rw [hf]
        refine ⟨⟨?_, ?_⟩, fun _ => rfl⟩
        · rintro ⟨cmd, h⟩; cases h
        · intro h
          have := hv.mp h
          simp at this

/-- An SOA whose `Ns` is `6869.` gives the command `hi`; the `Ns` `68.9.`, with a
dot among the digits, gives the content error. -/
theorem fetchCmd_cases_witness :
    FetchCmd (.ok [.SOA ⟨[], 6, 1, 0⟩ (bytesOf "6869.") [] 3 1 3 3 7]) = .ok (bytesOf "hi") ∧
      (¬ ValidHexBody (bytesOf "68.9.") ∧
        FetchCmd (.ok [.SOA ⟨[], 6, 1, 0⟩ (bytesOf "68.9.") [] 3 1 3 3 7])
          = .error (.error "Unexpected content of SOA record")) :=
  ⟨by decide,
    ⟨by unfold ValidHexBody; decide,
      ((fetchCmd_cases [.SOA ⟨[], 6, 1, 0⟩ (bytesOf "68.9.") [] 3 1 3 3 7]).2.2 ⟨[], 6, 1, 0⟩
        (bytesOf "68.9.") [] 3 1 3 3 7 rfl (by decide)).2 (by unfold ValidHexBody; decide)⟩⟩

/-- C16 (the code departs from it): for a single SOA record whose `Ns` is empty,
which is what a record without data unpacks to, `DecodeCmd` evaluates
`data[:len(data)-1]` on the empty string, a slice bound out of range:
`FetchCmd` panics where the claim promises the error "Unexpected content of
SOA record", and returns neither a command nor an error value. -/
theorem fetchCmd_empty_ns_panics (hdr : RR_Header) (mbox : List Nat)
    (serial refresh retry expire minttl : Nat) :
    DecodeCmd [] = .error (.panic "slice bounds out of range [:-1]") ∧
      FetchCmd (.ok [.SOA hdr [] mbox serial refresh retry expire minttl])
        = .error (.panic "slice bounds out of range [:-1]") ∧
      (∀ cmd, FetchCmd (.ok [.SOA hdr [] mbox serial refresh retry expire minttl]) ≠ .ok cmd) ∧
      (∀ text, FetchCmd (.ok [.SOA hdr [] mbox serial refresh retry expire minttl])
        ≠ .error (.error text)) := by
  refine ⟨rfl, rfl, ?_, ?_⟩
  · intro cmd h
    simp [FetchCmd, DecodeCmd] at h
  · intro text h
    simp [FetchCmd, DecodeCmd] at h

/-! ## Acknowledgement of an atom by the ECS, COOKIE and DAU handlers -/

theorem firstSubnet_append (pre post : List EDNS0) (a : IP)
    (h : ∀ o ∈ pre, o.isSubnet = false) : firstSubnet (pre ++ .SUBNET a :: post) = some a := by
  induction pre with
  | nil => rfl
  | cons o rest ih =>
    have ho := h o (by simp)
    have hr : ∀ o ∈ rest, o.isSubnet = false := fun x hx => h x (by simp [hx])
    cases o with
    | SUBNET addr => simp [EDNS0.isSubnet] at ho
    | COOKIE code cookie => simpa [firstSubnet] using ih hr
    | DAU alg => simpa [firstSubnet] using ih hr
    | other code => simpa [firstSubnet] using ih hr

theorem cookie_foldl_skip (name : List Nat) (opts : List EDNS0)
    (h : ∀ o ∈ opts, o.isCookie = false) :
    ∀ st, opts.foldl (CookieProtoServer.optionStep name) st = st := by
  induction opts with
  | nil => intro st; rfl
  | cons o rest ih =>
    intro st
    have ho := h o (by simp)
    have hr : ∀ o ∈ rest, o.isCookie = false := fun x hx => h x (by simp [hx])
    cases o with
    | COOKIE code cookie => simp [EDNS0.isCookie] at ho
    | SUBNET addr => simpa [CookieProtoServer.optionStep] using ih hr st
    | DAU alg => simpa [CookieProtoServer.optionStep] using ih hr st
    | other code => simpa [CookieProtoServer.optionStep] using ih hr st

theorem dau_foldl_skip (name : List Nat) (opts : List EDNS0)
    (h : ∀ o ∈ opts, o.isDau = false) :
    ∀ st, opts.foldl (DauProtoServer.optionStep name) st = st := by
  induction opts with
  | nil => intro st; rfl
  | cons o rest ih =>
    intro st
    have ho := h o (by simp)
    have hr : ∀ o ∈ rest, o.isDau = false := fun x hx => h x (by simp [hx])
    cases o with
    | DAU alg => simp [EDNS0.isDau] at ho
    | SUBNET addr => simpa [DauProtoServer.optionStep] using ih hr st
    | COOKIE code cookie => simpa [DauProtoServer.optionStep] using ih hr st
    | other code => simpa [DauProtoServer.optionStep] using ih hr st

/-- C20: for the ECS, COOKIE and DAU servers and every non-SOA query that carries
the channel's option with the atom `a`, the handler appends `a` to the queue
if and only if `listening` is true, leaves the queue unchanged otherwise, and
in both cases answers with the acknowledgement record echoing `a`. -/
theorem handler_ack_and_queue (str : IP → List Nat) (r : Query) (hr : r.Qtype ≠ TypeSOA)
    (pre post : List EDNS0) :
    (∀ (proto : EcsProtoServer) (a : IP), r.Edns = some (pre ++ .SUBNET a :: post) →
        (∀ o ∈ pre, o.isSubnet = false) →
        proto.serverHandler str r
          = (if proto.listening then { proto with c := proto.c ++ [a] } else proto,
             [RR.SVCB { Name := r.Name, Rrtype := TypeSVCB, Class := ClassINET, Ttl := 0 }
               (str a ++ bytesOf ".")])) ∧
      (∀ (proto : CookieProtoServer) (code : Nat) (a : List Nat),
        r.Edns = some (pre ++ .COOKIE code a :: post) →
        (∀ o ∈ pre, o.isCookie = false) → (∀ o ∈ post, o.isCookie = false) →
        proto.serverHandler r
          = (if proto.listening then { proto with c := proto.c ++ [a] } else proto,
             [RR.KX { Name := r.Name, Rrtype := TypeKX, Class := ClassINET, Ttl := 0 }
               (a ++ bytesOf ".")])) ∧
      (∀ (proto : DauProtoServer) (a : List Nat), r.Edns = some (pre ++ .DAU a :: post) →
        (∀ o ∈ pre, o.isDau = false) → (∀ o ∈ post, o.isDau = false) →
        proto.serverHandler r
          = (if proto.listening then { proto with c := proto.c ++ [a] } else proto,
             [RR.NAPTR { Name := r.Name, Rrtype := TypeNAPTR, Class := ClassINET, Ttl := 0 }
               (EncodeCmd a)])) := by
  refine ⟨?_, ?_, ?_⟩
  · intro proto a he hpre
    unfold EcsProtoServer.serverHandler
    rw [if_neg hr, he]
    simp only [firstSubnet_append pre post a hpre]
  · intro proto code a he hpre hpost
    unfold CookieProtoServer.serverHandler
    rw [if_neg hr, he]
    simp only [List.foldl_append, List.foldl_cons, cookie_foldl_skip r.Name pre hpre,
      cookie_foldl_skip r.Name post hpost, CookieProtoServer.optionStep, List.nil_append]
  · intro proto a he hpre hpost
    unfold DauProtoServer.serverHandler
    rw [if_neg hr, he]
    simp only [List.foldl_append, List.foldl_cons, dau_foldl_skip r.Name pre hpre,
      dau_foldl_skip r.Name post hpost, DauProtoServer.optionStep, List.nil_append]

/-- A COOKIE atom sent to a server that is not listening: the queue stays
empty and the KX record echoes the atom. -/
theorem handler_ack_and_queue_witness :
    (⟨[], 36, some ([] ++ .COOKIE 10 (bytesOf "7801") :: [])⟩ : Query).Qtype ≠ TypeSOA ∧
      CookieProtoServer.serverHandler ⟨[], false, []⟩
          ⟨[], 36, some ([] ++ .COOKIE 10 (bytesOf "7801") :: [])⟩
        = (⟨[], false, []⟩, [RR.KX ⟨[], 36, 1, 0⟩ (bytesOf "7801.")]) :=
  ⟨by decide,
    (handler_ack_and_queue (fun ip => ip) ⟨[], 36, some ([] ++ .COOKIE 10 (bytesOf "7801") :: [])⟩
      (by decide) [] []).2.1 ⟨[], false, []⟩ 10 (bytesOf "7801") rfl (by simp) (by simp)⟩

/-! ## Lemmas: `Decode` on a buffer closed by an epilogue -/

theorem b64DecodeQuanta_no_panic (t : String) :
    ∀ (n : Nat) (l : List Nat), l.length ≤ n → b64DecodeQuanta l ≠ .error (.panic t) := by
  intro n
  induction n with
  | zero =>
    intro l hl
    have : l = [] := List.length_eq_zero.mp (by omega)
    subst this
    simp [b64DecodeQuanta]
  | succ n ih =>
    intro l hl
    match l, hl with
    | [], _ => simp [b64DecodeQuanta]
    | [_], _ => simp [b64DecodeQuanta, corruptInput]
    | [_, _], _ => simp [b64DecodeQuanta, corruptInput]
    | [_, _, _], _ => simp [b64DecodeQuanta, corruptInput]
    | c0 :: c1 :: c2 :: c3 :: rest, hl =>
      have hrest := ih rest (by simp only [List.length_cons] at hl; omega)
      unfold b64DecodeQuanta
      split
      · simp [corruptInput]
      · split
        · split <;> simp [corruptInput]
        · split
          · split <;> simp [corruptInput]
          · cases hq : b64DecodeQuanta rest with
            | ok out => simp
            | error e =>
              rw [hq] at hrest
              simpa using hrest

theorem b64DecodeBuffer_no_panic (t : String) (l : List Nat) :
    b64DecodeBuffer l ≠ .error (.panic t) := by
  unfold b64DecodeBuffer b64Decode
  have h := b64DecodeQuanta_no_panic t _ (l.filter (fun c => c ≠ 10 ∧ c ≠ 13)) (le_refl _)
  cases hq : b64DecodeQuanta (l.filter (fun c => c ≠ 10 ∧ c ≠ 13)) with
  | ok out => simp
  | error e =>
    rw [hq] at h
    simpa using h

theorem run_no_panic (z : Zlib) (t : String) (msg : List Nat) :
    z.run msg ≠ .error (.panic t) := by
  unfold Zlib.run
  cases z.Decompress msg <;> simp

theorem decode_no_panic_of (z : Zlib) (t : String) (dm : Except Fault (List Nat))
    (h : dm ≠ .error (.panic t)) :
    (match dm with
      | .ok msg => z.run msg
      | .error e => .error e) ≠ .error (.panic t) := by
  cases dm with
  | ok msg => exact run_no_panic z t msg
  | error e => exact h

theorem decodedOrNil_ok (r : Except Fault (List Nat)) (h : ∀ t, r ≠ .error (.panic t)) :
    ∃ d, decodedOrNil r = .ok d := by
  cases r with
  | ok d => exact ⟨d, rfl⟩
  | error e =>
    cases e with
    | error text => exact ⟨[], rfl⟩
    | panic t => exact absurd rfl (h t)

theorem getD_last_concat {α : Type} (b : List α) (e d : α) :
    (b ++ [e]).getD ((b ++ [e]).length - 1) d = e := by
  have h : (b ++ [e]).length - 1 = b.length := by simp
  rw [h, List.getD_eq_getElem?_getD, List.getElem?_append_right (le_refl _)]
  simp

theorem ecs_decode_closed (z : Zlib) (b : List IP) (e : IP)
    (he : IP.Equal e NewEcsCodec.GetEpilogue = true) (t : String) :
    NewEcsCodec.Decode z (b ++ [e]) ≠ .error (.panic t) := by
  unfold EcsCodec.Decode
  apply decode_no_panic_of
  unfold EcsCodec.decodeMsg
  rw [getD_last_concat]
  simp only [EcsCodec.GetEpilogue] at he
  rw [he]
  split
  · simp
  · split
    · simp
    · simp only [Bool.not_true, Bool.false_eq_true, if_false]
      exact b64DecodeBuffer_no_panic t _

theorem qtype_decode_closed (z : Zlib) (b : List Nat) (t : String) :
    NewQtypeCodec.Decode z (b ++ [NewQtypeCodec.GetEpilogue]) ≠ .error (.panic t) := by
  unfold QtypeCodec.Decode
  apply decode_no_panic_of
  unfold QtypeCodec.decodeMsg
  rw [getD_last_concat]
  simp only [QtypeCodec.GetEpilogue, beq_self_eq_true]
  split
  · simp
  · split
    · simp
    · simp

theorem cookie_decode_closed (z : Zlib) (b : List (List Nat)) (t : String) :
    NewCookieCodec.Decode z (b ++ [NewCookieCodec.GetEpilogue]) ≠ .error (.panic t) := by
  unfold CookieCodec.Decode
  apply decode_no_panic_of
  unfold CookieCodec.decodeMsg
  rw [getD_last_concat]
  simp only [CookieCodec.GetEpilogue, beq_self_eq_true]
  split
  · simp
  · split
    · simp
    · simp only [Bool.not_true, Bool.false_eq_true, if_false]
      split <;> simp

theorem dau_decode_closed (z : Zlib) (b : List (List Nat)) (t : String) :
    NewDauCodec.Decode z (b ++ [NewDauCodec.GetEpilogue]) ≠ .error (.panic t) := by
  unfold DauCodec.Decode
  apply decode_no_panic_of
  unfold DauCodec.decodeMsg
  rw [getD_last_concat]
  simp only [DauCodec.GetEpilogue, beq_self_eq_true]
  split
  · simp
  · split
    · simp
    · simp only [Bool.not_true, Bool.false_eq_true, if_false]
      exact b64DecodeBuffer_no_panic t _

/-! ## Lemmas: the reassembly loop -/

theorem sinceLastPrologue_none {α : Type} (isPrologue : α → Bool) (l : List α)
    (h : l.any isPrologue = false) : sinceLastPrologue isPrologue l = l := by
  cases l with
  | nil => rfl
  | cons x xs =>
    have hx : xs.any isPrologue = false := by
      simp only [List.any_cons, Bool.or_eq_false_iff] at h
      exact h.2
    simp [sinceLastPrologue, hx]

theorem sinceLastPrologue_append {α : Type} (isPrologue : α → Bool) (junk tail : List α) (p : α)
    (hp : isPrologue p = true) (ht : tail.any isPrologue = false) :
    sinceLastPrologue isPrologue (junk ++ p :: tail) = p :: tail := by
  induction junk with
  | nil => simp [sinceLastPrologue, ht]
  | cons j js ih =>
    have : (js ++ p :: tail).any isPrologue = true := by simp [hp]
    rw [List.cons_append, sinceLastPrologue, if_pos this]
    exact ih

theorem fetchLoop_segment {α : Type} (isPrologue isEpilogue : α → Bool) (e : α)
    (rest : List α) (he : isEpilogue e = true) (hep : isPrologue e = false) :
    ∀ (pre buf : List α), (∀ x ∈ pre, isEpilogue x = false) →
      fetchLoop isPrologue isEpilogue (pre ++ e :: rest) buf
        = some (if pre.any isPrologue then sinceLastPrologue isPrologue (pre ++ [e])
                else buf ++ pre ++ [e], rest) := by
  intro pre
  induction pre with
  | nil =>
    intro buf _
    simp [fetchLoop, he, hep]
  | cons x xs ih =>
    intro buf h
    have hx : isEpilogue x = false := h x (by simp)
    have hxs : ∀ y ∈ xs, isEpilogue y = false := fun y hy => h y (by simp [hy])
    have hany : (xs ++ [e]).any isPrologue = xs.any isPrologue := by simp [hep]
    rw [List.cons_append, fetchLoop]
    simp only [hx, Bool.false_eq_true, if_false]
    rw [ih _ hxs, List.cons_append, sinceLastPrologue, hany]
    by_cases h1 : xs.any isPrologue = true
    · simp [h1]
    · have h1f : xs.any isPrologue = false := by simpa using h1
      by_cases h2 : isPrologue x = true
      · simp [h1f, h2]
      · have h2f : isPrologue x = false := by simpa using h2
        simp [h1f, h2f]

theorem fetchLoop_first_epilogue {α : Type} (isPrologue isEpilogue : α → Bool) (e : α)
    (pre rest : List α) (he : isEpilogue e = true) (hep : isPrologue e = false)
    (hpre : ∀ x ∈ pre, isEpilogue x = false) :
    fetchLoop isPrologue isEpilogue (pre ++ e :: rest) []
      = some (sinceLastPrologue isPrologue (pre ++ [e]), rest) := by
  rw [fetchLoop_segment isPrologue isEpilogue e rest he hep pre [] hpre]
  by_cases h : pre.any isPrologue = true
  · simp [h]
  · have hf : pre.any isPrologue = false := by simpa using h
    have : (pre ++ [e]).any isPrologue = false := by simp [hf, hep]
    simp [hf, sinceLastPrologue_none isPrologue _ this]

theorem fetchLoop_frame {α : Type} (isPrologue isEpilogue : α → Bool) (p e : α)
    (junk inner rest : List α) (hp : isPrologue p = true) (hpe : isEpilogue p = false)
    (he : isEpilogue e = true) (hep : isPrologue e = false)
    (hjunk : ∀ x ∈ junk, isEpilogue x = false)
    (hinner : ∀ x ∈ inner, isPrologue x = false ∧ isEpilogue x = false) :
    fetchLoop isPrologue isEpilogue (junk ++ (p :: (inner ++ [e])) ++ rest) []
      = some (p :: (inner ++ [e]), rest) := by
  have e1 : junk ++ (p :: (inner ++ [e])) ++ rest = (junk ++ p :: inner) ++ e :: rest := by simp
  have hpre : ∀ x ∈ junk ++ p :: inner, isEpilogue x = false := by
    intro x hx
    simp only [List.mem_append, List.mem_cons] at hx
    rcases hx with hx | hx | hx
    · exact hjunk x hx
    · subst hx; exact hpe
    · exact (hinner x hx).2
  rw [e1, fetchLoop_first_epilogue isPrologue isEpilogue e _ rest he hep hpre]
  have e2 : junk ++ p :: inner ++ [e] = junk ++ p :: (inner ++ [e]) := by simp
  have ht : (inner ++ [e]).any isPrologue = false := by
    simp only [List.any_append, List.any_cons, List.any_nil, hep, Bool.or_false,
      List.any_eq_false]
    intro x hx
    simp [(hinner x hx).1]
  rw [e2, sinceLastPrologue_append isPrologue junk _ p hp ht]

theorem fetchLoop_closed {α : Type} (isPrologue isEpilogue : α → Bool) :
    ∀ (s buf b rest : List α), fetchLoop isPrologue isEpilogue s buf = some (b, rest) →
      ∃ b0 e, b = b0 ++ [e] ∧ isEpilogue e = true := by
  intro s
  induction s with
  | nil => intro buf b rest h; simp [fetchLoop] at h
  | cons x xs ih =>
    intro buf b rest h
    unfold fetchLoop at h
    by_cases hx : isEpilogue x = true
    · simp only [hx, if_true, Option.some.injEq, Prod.mk.injEq] at h
      exact ⟨_, x, h.1.symm, hx⟩
    · simp only [hx, if_false] at h
      exact ih _ b rest h

theorem fetchLoop_returns {α : Type} (isPrologue isEpilogue : α → Bool) :
    ∀ (s buf : List α), s.any isEpilogue = true →
      ∃ b rest, fetchLoop isPrologue isEpilogue s buf = some (b, rest) := by
  intro s
  induction s with
  | nil => intro buf h; simp at h
  | cons x xs ih =>
    intro buf h
    unfold fetchLoop
    by_cases hx : isEpilogue x = true
    · simp only [hx, if_true]
      exact ⟨_, _, rfl⟩
    · simp only [hx, if_false]
      have hf : isEpilogue x = false := by simpa using hx
      simp only [List.any_cons, hf, Bool.false_or] at h
      exact ih _ h

theorem ecs_epilogue_not_prologue (e : IP) (h : IP.Equal e NewEcsCodec.GetEpilogue = true) :
    IP.Equal e NewEcsCodec.GetPrologue = false := by
  unfold IP.Equal at h ⊢
  have l1 : NewEcsCodec.GetEpilogue.length = 16 := rfl
  have l2 : NewEcsCodec.GetPrologue.length = 16 := rfl
  rw [l1] at h
  rw [l2]
  by_cases h16 : e.length = 16
  · rw [if_pos h16] at h
    rw [if_pos h16]
    have := beq_iff_eq.mp h
    subst this
    decide
  · rw [if_neg h16] at h
    rw [if_neg h16]
    by_cases h4 : e.length = 4
    · rw [if_pos ⟨h4, rfl⟩] at h
      rw [if_pos ⟨h4, rfl⟩]
      have h2 : (e == List.drop 12 NewEcsCodec.GetEpilogue) = true := by
        simp only [Bool.and_eq_true] at h
        exact h.2
      have := beq_iff_eq.mp h2
      subst this
      decide
    · have : ¬ (e.length = 4 ∧ 16 = 16) := fun hh => h4 hh.1
      rw [if_neg this] at h
      have h3 : ¬ (e.length = 16 ∧ 16 = 4) := fun hh => h16 hh.1
      rw [if_neg h3] at h
      cases h

theorem ecs_prologue_not_epilogue (e : IP) (h : IP.Equal e NewEcsCodec.GetPrologue = true) :
    IP.Equal e NewEcsCodec.GetEpilogue = false := by
  cases hq : IP.Equal e NewEcsCodec.GetEpilogue with
  | false => rfl
  | true =>
    have := ecs_epilogue_not_prologue e hq
    rw [h] at this
    cases this

/-! ## Lemmas: `Decode` inside `FetchData` -/

theorem ecs_roundtrip (z : Zlib) (hl : z.Lawful) (hb : z.BytesOut) (P : List Nat)
    (hP : IsBytes P) : NewEcsCodec.Decode z (NewEcsCodec.Encode z P) = .ok P := by
  have hc : IsBytes (z.Compress P) := hb P hP
  have hne : z.Compress P ≠ [] := hl.compress_ne_nil P hP
  unfold EcsCodec.Decode
  rw [ecsEncode_eq,
    ecs_decodeMsg_frame _ (ecsReference_ne_nil _ _ (b64Encode_ne_nil _ hne)),
    ecsReference_bytes _ _ (b64Text_not01 _ (b64Encode_text _ hc)),
    b64DecodeBuffer_encode _ hc]
  exact hl.run_eq P hP _

theorem cookie_roundtrip (z : Zlib) (hl : z.Lawful) (hb : z.BytesOut) (P : List Nat)
    (hP : IsBytes P) : NewCookieCodec.Decode z (NewCookieCodec.Encode z P) = .ok P := by
  have hc : IsBytes (z.Compress P) := hb P hP
  have hne : z.Compress P ≠ [] := hl.compress_ne_nil P hP
  unfold CookieCodec.Decode
  rw [cookieEncode_eq,
    cookie_decodeMsg_frame _ (cookie_chunkify_ne_nil _ (hexEncode_ne_nil _ hne)),
    cookie_chunkify_flatten, hexDecode_hexEncode _ hc]
  have := hl.run_eq P hP []
  rwa [List.append_nil] at this

theorem dau_roundtrip (z : Zlib) (hl : z.Lawful) (hb : z.BytesOut) (P : List Nat)
    (hP : IsBytes P) : NewDauCodec.Decode z (NewDauCodec.Encode z P) = .ok P := by
  have hc : IsBytes (z.Compress P) := hb P hP
  have hne : z.Compress P ≠ [] := hl.compress_ne_nil P hP
  unfold DauCodec.Decode
  rw [dauEncode_eq, dau_decodeMsg_frame _ (dau_chunkify_ne_nil _ (b64Encode_ne_nil _ hne)),
    dau_chunkify_flatten, b64DecodeBuffer_encode _ hc]
  exact hl.run_eq P hP _

theorem ecs_decode_fails (z : Zlib) (data : List IP)
    (h : data.length < 3 ∨ IP.Equal (data.getD 0 []) NewEcsCodec.GetPrologue = false) :
    decodedOrNil (NewEcsCodec.Decode z data) = .ok [] := by
  unfold EcsCodec.Decode EcsCodec.decodeMsg
  by_cases hs : data.length < 3
  · rw [if_pos hs]; rfl
  · rcases h with h | h
    · exact absurd h hs
    · simp only [EcsCodec.GetPrologue] at h
      rw [if_neg hs, h]; rfl

theorem cookie_decode_fails (z : Zlib) (data : List (List Nat))
    (h : data.length < 3 ∨ data.getD 0 [] ≠ NewCookieCodec.GetPrologue) :
    decodedOrNil (NewCookieCodec.Decode z data) = .ok [] := by
  unfold CookieCodec.Decode CookieCodec.decodeMsg
  by_cases hs : data.length < 3
  · rw [if_pos hs]; rfl
  · rcases h with h | h
    · exact absurd h hs
    · simp only [CookieCodec.GetPrologue] at h
      rw [if_neg hs, beq_eq_false_iff_ne.mpr h]; rfl

theorem dau_decode_fails (z : Zlib) (data : List (List Nat))
    (h : data.length < 3 ∨ data.getD 0 [] ≠ NewDauCodec.GetPrologue) :
    decodedOrNil (NewDauCodec.Decode z data) = .ok [] := by
  unfold DauCodec.Decode DauCodec.decodeMsg
  by_cases hs : data.length < 3
  · rw [if_pos hs]; rfl
  · rcases h with h | h
    · exact absurd h hs
    · simp only [DauCodec.GetPrologue] at h
      rw [if_neg hs, beq_eq_false_iff_ne.mpr h]; rfl

theorem ecs_fetchData_eq (z : Zlib) (proto : EcsProtoServer) (b rest : List IP)
    (h : fetchLoop (fun part => IP.Equal part NewEcsCodec.GetPrologue)
      (fun part => IP.Equal part NewEcsCodec.GetEpilogue) proto.c [] = some (b, rest)) :
    ∃ decoded, decodedOrNil (NewEcsCodec.Decode z b) = .ok decoded ∧
      proto.FetchData z = some (.ok ({ cmd := [], listening := false, c := rest }, decoded)) := by
  rcases fetchLoop_closed _ _ _ _ _ _ h with ⟨b0, e, hb, he⟩
  subst hb
  rcases decodedOrNil_ok _ (ecs_decode_closed z b0 e he) with ⟨d, hd⟩
  refine ⟨d, hd, ?_⟩
  unfold EcsProtoServer.FetchData
  rw [h]
  simp only [hd]

theorem cookie_fetchData_eq (z : Zlib) (proto : CookieProtoServer) (b rest : List (List Nat))
    (h : fetchLoop (fun part => part == NewCookieCodec.GetPrologue)
      (fun part => part == NewCookieCodec.GetEpilogue) proto.c [] = some (b, rest)) :
    ∃ decoded, decodedOrNil (NewCookieCodec.Decode z b) = .ok decoded ∧
      proto.FetchData z = some (.ok ({ cmd := [], listening := false, c := rest }, decoded)) := by
  rcases fetchLoop_closed _ _ _ _ _ _ h with ⟨b0, e, hb, he⟩
  have he2 : e = NewCookieCodec.GetEpilogue := beq_iff_eq.mp he
  subst hb
  rw [he2] at h ⊢
  rcases decodedOrNil_ok _ (cookie_decode_closed z b0) with ⟨d, hd⟩
  refine ⟨d, hd, ?_⟩
  unfold CookieProtoServer.FetchData
  rw [h]
  simp only [hd]

theorem dau_fetchData_eq (z : Zlib) (proto : DauProtoServer) (b rest : List (List Nat))
    (h : fetchLoop (fun part => part == NewDauCodec.GetPrologue)
      (fun part => part == NewDauCodec.GetEpilogue) proto.c [] = some (b, rest)) :
    ∃ decoded, decodedOrNil (NewDauCodec.Decode z b) = .ok decoded ∧
      proto.FetchData z = some (.ok ({ cmd := [], listening := false, c := rest }, decoded)) := by
  rcases fetchLoop_closed _ _ _ _ _ _ h with ⟨b0, e, hb, he⟩
  have he2 : e = NewDauCodec.GetEpilogue := beq_iff_eq.mp he
  subst hb
  rw [he2] at h ⊢
  rcases decodedOrNil_ok _ (dau_decode_closed z b0) with ⟨d, hd⟩
  refine ⟨d, hd, ?_⟩
  unfold DauProtoServer.FetchData
  rw [h]
  simp only [hd]

/-! ## The reassembler -/

/-- C13: for the ECS, COOKIE and DAU servers and every atom stream on the queue,
`FetchData` consumes the atoms up to and including the first epilogue and
passes to `codec.Decode` the segment that starts at the last prologue before
that epilogue (at the start of the stream when there is none) and ends at
that epilogue; hence for a stream `junk ++ Encode(P)`, where `junk` holds no
epilogue and no inner atom of `Encode(P)` is a sentinel, it returns `P`. -/
theorem fetchData_reassembles (z : Zlib) :
    (∀ (proto : EcsProtoServer) (pre : List IP) (e : IP) (rest : List IP),
        proto.c = pre ++ e :: rest →
        (∀ x ∈ pre, IP.Equal x NewEcsCodec.GetEpilogue = false) →
        IP.Equal e NewEcsCodec.GetEpilogue = true →
        ∃ decoded,
          decodedOrNil (NewEcsCodec.Decode z
            (sinceLastPrologue (fun part => IP.Equal part NewEcsCodec.GetPrologue) (pre ++ [e])))
            = .ok decoded ∧
          proto.FetchData z = some (.ok ({ cmd := [], listening := false, c := rest }, decoded))) ∧
      (∀ (proto : EcsProtoServer) (junk : List IP) (P : List Nat) (rest : List IP),
        z.Lawful → z.BytesOut → IsBytes P →
        proto.c = junk ++ NewEcsCodec.Encode z P ++ rest →
        (∀ x ∈ junk, IP.Equal x NewEcsCodec.GetEpilogue = false) →
        (∀ x ∈ innerAtoms (NewEcsCodec.Encode z P),
          IP.Equal x NewEcsCodec.GetPrologue = false ∧
          IP.Equal x NewEcsCodec.GetEpilogue = false) →
        proto.FetchData z = some (.ok ({ cmd := [], listening := false, c := rest }, P))) ∧
      (∀ (proto : CookieProtoServer) (pre : List (List Nat)) (rest : List (List Nat)),
        proto.c = pre ++ NewCookieCodec.GetEpilogue :: rest →
        (∀ x ∈ pre, x ≠ NewCookieCodec.GetEpilogue) →
        ∃ decoded,
          decodedOrNil (NewCookieCodec.Decode z
            (sinceLastPrologue (fun part => part == NewCookieCodec.GetPrologue)
              (pre ++ [NewCookieCodec.GetEpilogue])))
            = .ok decoded ∧
          proto.FetchData z = some (.ok ({ cmd := [], listening := false, c := rest }, decoded))) ∧
      (∀ (proto : CookieProtoServer) (junk : List (List Nat)) (P : List Nat)
          (rest : List (List Nat)),
        z.Lawful → z.BytesOut → IsBytes P →
        proto.c = junk ++ NewCookieCodec.Encode z P ++ rest →
        (∀ x ∈ junk, x ≠ NewCookieCodec.GetEpilogue) →
        (∀ x ∈ innerAtoms (NewCookieCodec.Encode z P),
          x ≠ NewCookieCodec.GetPrologue ∧ x ≠ NewCookieCodec.GetEpilogue) →
        proto.FetchData z = some (.ok ({ cmd := [], listening := false, c := rest }, P))) ∧
      (∀ (proto : DauProtoServer) (pre : List (List Nat)) (rest : List (List Nat)),
        proto.c = pre ++ NewDauCodec.GetEpilogue :: rest →
        (∀ x ∈ pre, x ≠ NewDauCodec.GetEpilogue) →
        ∃ decoded,
          decodedOrNil (NewDauCodec.Decode z
            (sinceLastPrologue (fun part => part == NewDauCodec.GetPrologue)
              (pre ++ [NewDauCodec.GetEpilogue])))
            = .ok decoded ∧
          proto.FetchData z = some (.ok ({ cmd := [], listening := false, c := rest }, decoded))) ∧
      (∀ (proto : DauProtoServer) (junk : List (List Nat)) (P : List Nat)
          (rest : List (List Nat)),
        z.Lawful → z.BytesOut → IsBytes P →
        proto.c = junk ++ NewDauCodec.Encode z P ++ rest →
        (∀ x ∈ junk, x ≠ NewDauCodec.GetEpilogue) →
        (∀ x ∈ innerAtoms (NewDauCodec.Encode z P),
          x ≠ NewDauCodec.GetPrologue ∧ x ≠ NewDauCodec.GetEpilogue) →
        proto.FetchData z = some (.ok ({ cmd := [], listening := false, c := rest }, P))) := by
  refine ⟨?_, ?_, ?_, ?_, ?_, ?_⟩
  · intro proto pre e rest hc hpre he
    have hloop := fetchLoop_first_epilogue (fun part => IP.Equal part NewEcsCodec.GetPrologue)
      (fun part => IP.Equal part NewEcsCodec.GetEpilogue) e pre rest he
      (ecs_epilogue_not_prologue e he) hpre
    rw [← hc] at hloop
    exact ecs_fetchData_eq z proto _ rest hloop
  · intro proto junk P rest hl hb hP hc hjunk hinner
    rw [ecsEncode_eq] at hc hinner
    rw [innerAtoms_frame] at hinner
    have hloop := fetchLoop_frame (fun part => IP.Equal part NewEcsCodec.GetPrologue)
      (fun part => IP.Equal part NewEcsCodec.GetEpilogue) NewEcsCodec.PROLOGUE
      NewEcsCodec.EPILOGUE junk _ rest (by decide) (by decide) (by decide) (by decide)
      hjunk hinner
    rw [← hc] at hloop
    rcases ecs_fetchData_eq z proto _ rest hloop with ⟨d, hd, hf⟩
    rw [← ecsEncode_eq z, ecs_roundtrip z hl hb P hP] at hd
    cases hd
    exact hf
  · intro proto pre rest hc hpre
    have hloop := fetchLoop_first_epilogue (fun part => part == NewCookieCodec.GetPrologue)
      (fun part => part == NewCookieCodec.GetEpilogue) NewCookieCodec.GetEpilogue pre rest
      (by decide) (by decide) (fun x hx => beq_eq_false_iff_ne.mpr (hpre x hx))
    rw [← hc] at hloop
    exact cookie_fetchData_eq z proto _ rest hloop
  · intro proto junk P rest hl hb hP hc hjunk hinner
    rw [cookieEncode_eq] at hc hinner
    rw [innerAtoms_frame] at hinner
    have hloop := fetchLoop_frame (fun part => part == NewCookieCodec.GetPrologue)
      (fun part => part == NewCookieCodec.GetEpilogue) NewCookieCodec.PROLOGUE
      NewCookieCodec.EPILOGUE junk _ rest (by decide) (by decide) (by decide) (by decide)
      (fun x hx => beq_eq_false_iff_ne.mpr (hjunk x hx))
      (fun x hx => ⟨beq_eq_false_iff_ne.mpr (hinner x hx).1,
        beq_eq_false_iff_ne.mpr (hinner x hx).2⟩)
    rw [← hc] at hloop
    rcases cookie_fetchData_eq z proto _ rest hloop with ⟨d, hd, hf⟩
    rw [← cookieEncode_eq z, cookie_roundtrip z hl hb P hP] at hd
    cases hd
    exact hf
  · intro proto pre rest hc hpre
    have hloop := fetchLoop_first_epilogue (fun part => part == NewDauCodec.GetPrologue)
      (fun part => part == NewDauCodec.GetEpilogue) NewDauCodec.GetEpilogue pre rest
      (by decide) (by decide) (fun x hx => beq_eq_false_iff_ne.mpr (hpre x hx))
    rw [← hc] at hloop
    exact dau_fetchData_eq z proto _ rest hloop
  · intro proto junk P rest hl hb hP hc hjunk hinner
    rw [dauEncode_eq] at hc hinner
    rw [innerAtoms_frame] at hinner
    have hloop := fetchLoop_frame (fun part => part == NewDauCodec.GetPrologue)
      (fun part => part == NewDauCodec.GetEpilogue) NewDauCodec.PROLOGUE
      NewDauCodec.EPILOGUE junk _ rest (by decide) (by decide) (by decide) (by decide)
      (fun x hx => beq_eq_false_iff_ne.mpr (hjunk x hx))
      (fun x hx => ⟨beq_eq_false_iff_ne.mpr (hinner x hx).1,
        beq_eq_false_iff_ne.mpr (hinner x hx).2⟩)
    rw [← hc] at hloop
    rcases dau_fetchData_eq z proto _ rest hloop with ⟨d, hd, hf⟩
    rw [← dauEncode_eq z, dau_roundtrip z hl hb P hP] at hd
    cases hd
    exact hf

/-- The DAU queue holds a stray chunk, the frame of `ping` and one more atom:
`FetchData` returns `ping` and leaves the last atom on the queue. -/
theorem fetchData_reassembles_witness :
    rawZlib.Lawful ∧ rawZlib.BytesOut ∧ IsBytes (bytesOf "ping") ∧
      DauProtoServer.FetchData rawZlib
          ⟨bytesOf "id", true,
            [bytesOf "QUJD"] ++ NewDauCodec.Encode rawZlib (bytesOf "ping") ++ [bytesOf "eA=="]⟩
        = some (.ok (⟨[], false, [bytesOf "eA=="]⟩, bytesOf "ping")) :=
  ⟨rawZlib_lawful, rawZlib_bytesOut, by decide,
    (fetchData_reassembles rawZlib).2.2.2.2.2
      ⟨bytesOf "id", true,
        [bytesOf "QUJD"] ++ NewDauCodec.Encode rawZlib (bytesOf "ping") ++ [bytesOf "eA=="]⟩
      [bytesOf "QUJD"] (bytesOf "ping") [bytesOf "eA=="] rawZlib_lawful rawZlib_bytesOut
      (by decide) rfl (by decide) (by decide)⟩

/-- C14: for the ECS, COOKIE and DAU servers, `FetchData` returns as soon as the
queue delivers an epilogue, and whenever it returns the server has
`listening = false` and an empty pending command; this holds also when the
closed frame is too short or does not start with the prologue, in which case
the returned payload is empty (nil). -/
theorem fetchData_resets_state (z : Zlib) :
    (∀ proto : EcsProtoServer,
        (proto.c.any (fun part => IP.Equal part NewEcsCodec.GetEpilogue) = true →
          ∃ out, proto.FetchData z = some out) ∧
        (∀ out, proto.FetchData z = some out →
          ∃ (proto1 : EcsProtoServer) (decoded : List Nat) (buf : List IP),
            out = .ok (proto1, decoded) ∧ proto1.listening = false ∧ proto1.cmd = [] ∧
            fetchLoop (fun part => IP.Equal part NewEcsCodec.GetPrologue) (fun part => IP.Equal part NewEcsCodec.GetEpilogue) proto.c []
              = some (buf, proto1.c) ∧
            (buf.length < 3 ∨ IP.Equal (buf.getD 0 []) NewEcsCodec.GetPrologue = false → decoded = []))) ∧
      (∀ proto : CookieProtoServer,
        (proto.c.any (fun part => part == NewCookieCodec.GetEpilogue) = true →
          ∃ out, proto.FetchData z = some out) ∧
        (∀ out, proto.FetchData z = some out →
          ∃ (proto1 : CookieProtoServer) (decoded : List Nat) (buf : List (List Nat)),
            out = .ok (proto1, decoded) ∧ proto1.listening = false ∧ proto1.cmd = [] ∧
            fetchLoop (fun part => part == NewCookieCodec.GetPrologue) (fun part => part == NewCookieCodec.GetEpilogue) proto.c []
              = some (buf, proto1.c) ∧
            (buf.length < 3 ∨ buf.getD 0 [] ≠ NewCookieCodec.GetPrologue → decoded = []))) ∧
      (∀ proto : DauProtoServer,
        (proto.c.any (fun part => part == NewDauCodec.GetEpilogue) = true →
          ∃ out, proto.FetchData z = some out) ∧
        (∀ out, proto.FetchData z = some out →
          ∃ (proto1 : DauProtoServer) (decoded : List Nat) (buf : List (List Nat)),
            out = .ok (proto1, decoded) ∧ proto1.listening = false ∧ proto1.cmd = [] ∧
            fetchLoop (fun part => part == NewDauCodec.GetPrologue) (fun part => part == NewDauCodec.GetEpilogue) proto.c []
              = some (buf, proto1.c) ∧
            (buf.length < 3 ∨ buf.getD 0 [] ≠ NewDauCodec.GetPrologue → decoded = []))) := by
  refine ⟨?_, ?_, ?_⟩
  · intro proto
    constructor
    · intro hany
      rcases fetchLoop_returns _ _ proto.c [] hany with ⟨b, rest, hloop⟩
      rcases ecs_fetchData_eq z proto b rest hloop with ⟨d, _, hf⟩
      exact ⟨_, hf⟩
    · intro out hout
      cases hloop : fetchLoop _ _ proto.c [] with
      | none =>
        unfold EcsProtoServer.FetchData at hout
        rw [hloop] at hout
        cases hout
      | some br =>
        obtain ⟨b, rest⟩ := br
        rcases ecs_fetchData_eq z proto b rest hloop with ⟨d, hd, hf⟩
        rw [hf] at hout
        cases hout
        refine ⟨_, d, b, rfl, rfl, rfl, rfl, ?_⟩
        intro hbad
        rw [ecs_decode_fails z b hbad] at hd
        cases hd
        rfl
  · intro proto
    constructor
    · intro hany
      rcases fetchLoop_returns _ _ proto.c [] hany with ⟨b, rest, hloop⟩
      rcases cookie_fetchData_eq z proto b rest hloop with ⟨d, _, hf⟩
      exact ⟨_, hf⟩
    · intro out hout
      cases hloop : fetchLoop _ _ proto.c [] with
      | none =>
        unfold CookieProtoServer.FetchData at hout
        rw [hloop] at hout
        cases hout
      | some br =>
        obtain ⟨b, rest⟩ := br
        rcases cookie_fetchData_eq z proto b rest hloop with ⟨d, hd, hf⟩
        rw [hf] at hout
        cases hout
        refine ⟨_, d, b, rfl, rfl, rfl, rfl, ?_⟩
        intro hbad
        rw [cookie_decode_fails z b hbad] at hd
        cases hd
        rfl
  · intro proto
    constructor
    · intro hany
      rcases fetchLoop_returns _ _ proto.c [] hany with ⟨b, rest, hloop⟩
      rcases dau_fetchData_eq z proto b rest hloop with ⟨d, _, hf⟩
      exact ⟨_, hf⟩
    · intro out hout
      cases hloop : fetchLoop _ _ proto.c [] with
      | none =>
        unfold DauProtoServer.FetchData at hout
        rw [hloop] at hout
        cases hout
      | some br =>
        obtain ⟨b, rest⟩ := br
        rcases dau_fetchData_eq z proto b rest hloop with ⟨d, hd, hf⟩
        rw [hf] at hout
        cases hout
        refine ⟨_, d, b, rfl, rfl, rfl, rfl, ?_⟩
        intro hbad
        rw [dau_decode_fails z b hbad] at hd
        cases hd
        rfl

/-- The COOKIE queue holds one chunk and the epilogue: the closed frame has no
prologue, `FetchData` returns nil and resets the state. -/
theorem fetchData_resets_state_witness :
    CookieProtoServer.FetchData rawZlib
        ⟨bytesOf "id", true, [bytesOf "789c", NewCookieCodec.GetEpilogue]⟩
      = some (.ok (⟨[], false, []⟩, [])) ∧
    ∃ (proto1 : CookieProtoServer) (decoded : List Nat) (buf : List (List Nat)),
      (.ok (⟨[], false, []⟩, []) : Except Fault (CookieProtoServer × List Nat))
        = .ok (proto1, decoded) ∧ proto1.listening = false ∧ proto1.cmd = [] ∧
      fetchLoop (fun part => part == NewCookieCodec.GetPrologue)
          (fun part => part == NewCookieCodec.GetEpilogue)
          [bytesOf "789c", NewCookieCodec.GetEpilogue] []
        = some (buf, proto1.c) ∧
      (buf.length < 3 ∨ buf.getD 0 [] ≠ NewCookieCodec.GetPrologue → decoded = []) :=
  ⟨by decide,
    ((fetchData_resets_state rawZlib).2.1
      ⟨bytesOf "id", true, [bytesOf "789c", NewCookieCodec.GetEpilogue]⟩).2
      (.ok (⟨[], false, []⟩, [])) (by decide)⟩

/-! ## Acknowledgements of the QTYPE channel -/

theorem qtype_handler_content (z : Zlib) (proto : QtypeProtoServer) (name : List Nat) (x : Nat)
    (h6 : x ≠ TypeSOA) (hp : x ≠ NewQtypeCodec.GetPrologue) :
    ∃ proto1, proto.serverHandler z { Name := name, Qtype := x, Edns := none }
        = .ok (proto1, [RR.Header { Name := name, Rrtype := x, Class := ClassINET,
                                    Ttl := proto.buf.length + 1 }]) ∧
      proto1.buf = proto.buf ++ [x] := by
  unfold QtypeProtoServer.serverHandler
  simp only [h6, hp, if_false, List.length_append, List.length_singleton]
  by_cases he : x = NewQtypeCodec.GetEpilogue
  · rw [if_pos he]
    subst he
    rcases decodedOrNil_ok _ (qtype_decode_closed z proto.buf) with ⟨d, hd⟩
    rw [hd]
    exact ⟨_, rfl, rfl⟩
  · rw [if_neg he]
    exact ⟨_, rfl, rfl⟩

theorem qtype_deliver_content (z : Zlib) (name : List Nat) :
    ∀ (atoms : List Nat) (proto : QtypeProtoServer),
      (∀ x ∈ atoms, x ≠ TypeSOA ∧ x ≠ NewQtypeCodec.GetPrologue) →
      ∃ proto1, QtypeProtoServer.deliver z name proto atoms
          = .ok (proto1, qtypeAcks name proto.buf.length atoms) ∧
        proto1.buf = proto.buf ++ atoms := by
  intro atoms
  induction atoms with
  | nil => intro proto _; exact ⟨proto, rfl, by simp⟩
  | cons x rest ih =>
    intro proto h
    have hx := h x (by simp)
    rcases qtype_handler_content z proto name x hx.1 hx.2 with ⟨p1, h1, hb1⟩
    rcases ih p1 (fun y hy => h y (by simp [hy])) with ⟨p2, h2, hb2⟩
    refine ⟨p2, ?_, ?_⟩
    · unfold QtypeProtoServer.deliver
      rw [h1]
      simp only [h2, hb1, List.length_append, List.length_singleton, qtypeAcks]
    · rw [hb2, hb1]; simp

theorem allAckOk_acks (name : List Nat) :
    ∀ (atoms : List Nat) (i : Nat),
      QtypeProtoClient.allAckOk i atoms (qtypeAcks name i atoms) = true := by
  intro atoms
  induction atoms with
  | nil => intro i; rfl
  | cons x rest ih =>
    intro i
    simp [qtypeAcks, QtypeProtoClient.allAckOk, QtypeProtoClient.ackOk, RR.Hdr, ih]

/-- C12 (amended): for every frame `F = QtypeCodec.Encode(P)` none of whose inner
atoms is 6 (`dns.TypeSOA`) or 12345 (the prologue), and every initial server
state, when the atoms of `F` are handed to `serverHandler` in order, each
once, the answer to the atom at position `i` is one header with `Rrtype` that
atom and `Ttl` `i+1`, so the check of `QtypeProtoClient.Send` accepts every ack. -/
theorem qtype_acks_accepted (z : Zlib) (P : List Nat) (proto : QtypeProtoServer)
    (name : List Nat)
    (h : ∀ x ∈ innerAtoms (NewQtypeCodec.Encode z P),
      x ≠ TypeSOA ∧ x ≠ NewQtypeCodec.GetPrologue) :
    ∃ proto1, QtypeProtoServer.deliver z name proto (NewQtypeCodec.Encode z P)
        = .ok (proto1, qtypeAcks name 0 (NewQtypeCodec.Encode z P)) ∧
      QtypeProtoClient.allAckOk 0 (NewQtypeCodec.Encode z P)
        (qtypeAcks name 0 (NewQtypeCodec.Encode z P)) = true := by
  have hacc := allAckOk_acks name (NewQtypeCodec.Encode z P) 0
  suffices hs : ∃ proto1, QtypeProtoServer.deliver z name proto (NewQtypeCodec.Encode z P)
      = .ok (proto1, qtypeAcks name 0 (NewQtypeCodec.Encode z P)) by
    rcases hs with ⟨p, hp⟩
    exact ⟨p, hp, hacc⟩
  rw [qtypeEncode_eq] at h ⊢
  rw [innerAtoms_frame] at h
  have htail : ∀ x ∈ NewQtypeCodec.pack (z.Compress P) ++ [NewQtypeCodec.EPILOGUE],
      x ≠ TypeSOA ∧ x ≠ NewQtypeCodec.GetPrologue := by
    intro x hx
    rcases List.mem_append.mp hx with hx | hx
    · exact h x hx
    · rw [List.mem_singleton] at hx
      subst hx
      decide
  have h0 : proto.serverHandler z { Name := name, Qtype := NewQtypeCodec.PROLOGUE, Edns := none }
      = .ok ({ proto with buf := [NewQtypeCodec.PROLOGUE] },
          [RR.Header { Name := name, Rrtype := NewQtypeCodec.PROLOGUE, Class := ClassINET,
                       Ttl := 1 }]) := by
    unfold QtypeProtoServer.serverHandler
    have e1 : ¬ NewQtypeCodec.GetPrologue = TypeSOA := by decide
    have e2 : NewQtypeCodec.PROLOGUE = NewQtypeCodec.GetPrologue := rfl
    have e3 : ¬ NewQtypeCodec.GetPrologue = NewQtypeCodec.GetEpilogue := by decide
    simp only [e1, e2, e3, if_true, if_false, List.nil_append, List.length_singleton]
  rcases qtype_deliver_content z name _ { proto with buf := [NewQtypeCodec.PROLOGUE] } htail with
    ⟨p2, h2, _⟩
  refine ⟨p2, ?_⟩
  rw [QtypeProtoServer.deliver, h0]
  simp only [h2, qtypeAcks, List.length_singleton, Nat.zero_add]

/-- The frame of the payload `[65]` under the stand-in stream format, handed to
a server whose buffer still holds an old atom. -/
theorem qtype_acks_accepted_witness :
    (∀ x ∈ innerAtoms (NewQtypeCodec.Encode rawZlib [65]),
        x ≠ TypeSOA ∧ x ≠ NewQtypeCodec.GetPrologue) ∧
      ∃ proto1, QtypeProtoServer.deliver rawZlib (bytesOf "a.") ⟨[], false, [777], []⟩
          (NewQtypeCodec.Encode rawZlib [65])
        = .ok (proto1, qtypeAcks (bytesOf "a.") 0 (NewQtypeCodec.Encode rawZlib [65])) ∧
      QtypeProtoClient.allAckOk 0 (NewQtypeCodec.Encode rawZlib [65])
        (qtypeAcks (bytesOf "a.") 0 (NewQtypeCodec.Encode rawZlib [65])) = true :=
  ⟨by decide,
    qtype_acks_accepted rawZlib [65] ⟨[], false, [777], []⟩ (bytesOf "a.") (by decide)⟩

/-- C12 fails as stated: the payload `06 fe` has, under a lawful compressor that
stores it, the frame `[12345, 40568, 6, 512, 56789]`; its atom 6 is answered
by the SOA branch with `Ttl` 0 and is not appended, so the acks at positions
2, 3 and 4 fail the client's check. -/
theorem qtype_ack_rejected :
    rawZlib.Lawful ∧ rawZlib.BytesOut ∧ IsBytes [6, 254] ∧
      NewQtypeCodec.Encode rawZlib [6, 254] = [12345, 40568, 6, 512, 56789] ∧
      (QtypeProtoServer.deliver rawZlib [] ⟨[], false, [], []⟩
          (NewQtypeCodec.Encode rawZlib [6, 254])).map (fun out => out.2)
        = .ok [[RR.Header ⟨[], 12345, 1, 1⟩], [RR.Header ⟨[], 40568, 1, 2⟩],
               [soaAnswer [] []], [RR.Header ⟨[], 512, 1, 3⟩],
               [RR.Header ⟨[], 56789, 1, 4⟩]] ∧
      QtypeProtoClient.ackOk [soaAnswer [] []] 6 2 = false ∧
      QtypeProtoClient.ackOk [RR.Header ⟨[], 512, 1, 3⟩] 512 3 = false ∧
      QtypeProtoClient.ackOk [RR.Header ⟨[], 56789, 1, 4⟩] 56789 4 = false :=
  ⟨rawZlib_lawful, rawZlib_bytesOut, by decide, by decide, by decide, by decide, by decide,
    by decide⟩

/-! ## The SOA type as a content atom -/

/-- C25: in `QtypeProtoServer.serverHandler` a content atom whose value is 6, the
SOA type, which `QtypeCodec.Encode` produces for the compressed byte pair
`0x06, 0xFE`, is handled as a command poll: the state, frame buffer included,
is unchanged and the answer is one SOA record with `Ttl` 0, so the client's
check `Ttl == i+1` fails for that atom at every position `i`. -/
theorem qtype_soa_atom (z : Zlib) (proto : QtypeProtoServer) (name : List Nat)
    (edns : Option (List EDNS0)) (i : Nat) :
    NewQtypeCodec.pack [6, 254] = [6] ∧
      proto.serverHandler z { Name := name, Qtype := 6, Edns := edns }
        = .ok (proto, [soaAnswer name proto.cmd]) ∧
      (soaAnswer name proto.cmd).isSOA = true ∧
      (soaAnswer name proto.cmd).Hdr.Ttl = 0 ∧
      QtypeProtoClient.ackOk [soaAnswer name proto.cmd] 6 i = false := by
  refine ⟨by decide, rfl, rfl, rfl, ?_⟩
  simp [QtypeProtoClient.ackOk, soaAnswer, RR.Hdr]

/-! ## `DecodeCmd` on the empty string -/

/-- C26: for every non-empty string `DecodeCmd` drops the last character,
whatever it is, and returns the result of hex-decoding the rest, a text or an
error; on the empty string the slice `data[:len(data)-1]` is out of range: no
error value is returned, and `FetchCmd` does not report "Unexpected content of
SOA record" for an SOA whose `Ns` is empty. -/
theorem decodeCmd_total_on_nonempty (body : List Nat) (last : Nat) (hdr : RR_Header)
    (mbox : List Nat) (serial refresh retry expire minttl : Nat) :
    DecodeCmd (body ++ [last]) = .ok (hexDecodeString body) ∧
      (∃ text, DecodeCmd [] = .error (.panic text)) ∧
      (∃ text, FetchCmd (.ok [.SOA hdr [] mbox serial refresh retry expire minttl])
        = .error (.panic text)) ∧
      FetchCmd (.ok [.SOA hdr [] mbox serial refresh retry expire minttl])
        ≠ .error (.error "Unexpected content of SOA record") := by
  refine ⟨?_, ⟨_, rfl⟩, ⟨_, rfl⟩, ?_⟩
  · unfold DecodeCmd
    rw [if_neg (by simp), List.length_append, List.length_singleton, Nat.add_sub_cancel,
      List.take_left]
  · simp [FetchCmd, DecodeCmd]

/-! ## Lemmas: how `Decode` fails on a closed buffer -/

theorem ecs_decode_short (z : Zlib) (data : List IP) (hs : data.length < 3) :
    NewEcsCodec.Decode z data = .error (.error "Message too short") := by
  unfold EcsCodec.Decode EcsCodec.decodeMsg
  rw [if_pos hs]

theorem ecs_decode_bad_prologue (z : Zlib) (data : List IP) (hs : ¬ data.length < 3)
    (h : IP.Equal (data.getD 0 []) NewEcsCodec.GetPrologue = false) :
    NewEcsCodec.Decode z data = .error (.error "Unexpected prologue: %v") := by
  unfold EcsCodec.Decode EcsCodec.decodeMsg
  simp only [EcsCodec.GetPrologue] at h
  rw [if_neg hs, h]; rfl

theorem qtype_decode_short (z : Zlib) (data : List Nat) (hs : data.length < 3) :
    NewQtypeCodec.Decode z data = .error (.error "Message too short") := by
  unfold QtypeCodec.Decode QtypeCodec.decodeMsg
  rw [if_pos hs]

theorem qtype_decode_bad_prologue (z : Zlib) (data : List Nat) (hs : ¬ data.length < 3)
    (h : data.getD 0 0 ≠ NewQtypeCodec.GetPrologue) :
    NewQtypeCodec.Decode z data = .error (.error "Unexpected prologue: %v") := by
  unfold QtypeCodec.Decode QtypeCodec.decodeMsg
  simp only [QtypeCodec.GetPrologue] at h
  rw [if_neg hs, beq_eq_false_iff_ne.mpr h]; rfl

theorem cookie_decode_short (z : Zlib) (data : List (List Nat)) (hs : data.length < 3) :
    NewCookieCodec.Decode z data = .error (.error "Message too short") := by
  unfold CookieCodec.Decode CookieCodec.decodeMsg
  rw [if_pos hs]

theorem cookie_decode_bad_prologue (z : Zlib) (data : List (List Nat)) (hs : ¬ data.length < 3)
    (h : data.getD 0 [] ≠ NewCookieCodec.GetPrologue) :
    NewCookieCodec.Decode z data = .error (.error "Unexpected prologue: %v") := by
  unfold CookieCodec.Decode CookieCodec.decodeMsg
  simp only [CookieCodec.GetPrologue] at h
  rw [if_neg hs, beq_eq_false_iff_ne.mpr h]; rfl

theorem dau_decode_short (z : Zlib) (data : List (List Nat)) (hs : data.length < 3) :
    NewDauCodec.Decode z data = .error (.error "Message too short") := by
  unfold DauCodec.Decode DauCodec.decodeMsg
  rw [if_pos hs]

theorem dau_decode_bad_prologue (z : Zlib) (data : List (List Nat)) (hs : ¬ data.length < 3)
    (h : data.getD 0 [] ≠ NewDauCodec.GetPrologue) :
    NewDauCodec.Decode z data = .error (.error "Unexpected prologue: %v") := by
  unfold DauCodec.Decode DauCodec.decodeMsg
  simp only [DauCodec.GetPrologue] at h
  rw [if_neg hs, beq_eq_false_iff_ne.mpr h]; rfl

/-! ## Reachability of the panicking branch of `Decode` -/

theorem qtype_handler_total (z : Zlib) (proto : QtypeProtoServer) (r : Query) :
    ∃ out, proto.serverHandler z r = .ok out := by
  unfold QtypeProtoServer.serverHandler
  by_cases h6 : r.Qtype = TypeSOA
  · simp only [h6, if_true]
    exact ⟨_, rfl⟩
  · simp only [h6, if_false]
    by_cases he : r.Qtype = NewQtypeCodec.GetEpilogue
    · rw [if_pos he, he]
      rcases decodedOrNil_ok _ (qtype_decode_closed z
        (if NewQtypeCodec.GetEpilogue = NewQtypeCodec.GetPrologue then [] else proto.buf)) with
        ⟨d, hd⟩
      rw [hd]
      exact ⟨_, rfl⟩
    · rw [if_neg he]
      exact ⟨_, rfl⟩

theorem qtype_deliver_total (z : Zlib) (name : List Nat) :
    ∀ (atoms : List Nat) (proto : QtypeProtoServer),
      ∃ out, QtypeProtoServer.deliver z name proto atoms = .ok out := by
  intro atoms
  induction atoms with
  | nil => intro proto; exact ⟨_, rfl⟩
  | cons x rest ih =>
    intro proto
    rcases qtype_handler_total z proto { Name := name, Qtype := x, Edns := none } with
      ⟨⟨p1, a1⟩, h1⟩
    rcases ih p1 with ⟨⟨p2, a2⟩, h2⟩
    refine ⟨(p2, a1 :: a2), ?_⟩
    unfold QtypeProtoServer.deliver
    rw [h1]
    simp only [h2]

/-- C27: every call of `codec.Decode` made by the reassemblers passes a non-empty
buffer whose last atom equals the epilogue: in `FetchData` of the ECS, COOKIE
and DAU servers the closed buffer, in `QtypeProtoServer.serverHandler` the
buffer just extended with the epilogue. For every atom stream the
epilogue-mismatch branch of `Decode`, which indexes `data[len(data)]`, is
therefore not reached, no call panics, and reassembly fails only with
"Message too short", "Unexpected prologue" or an error of the inner decoding. -/
theorem reassembly_never_panics (z : Zlib) :
    (∀ (proto : EcsProtoServer) (buf rest : List IP),
        fetchLoop (fun part => IP.Equal part NewEcsCodec.GetPrologue) (fun part => IP.Equal part NewEcsCodec.GetEpilogue) proto.c [] = some (buf, rest) →
        buf ≠ [] ∧ IP.Equal (buf.getD (buf.length - 1) []) NewEcsCodec.GetEpilogue = true ∧
        (∀ t, NewEcsCodec.Decode z buf ≠ .error (.panic t)) ∧
        (∀ err, NewEcsCodec.Decode z buf = .error err →
          err = .error "Message too short" ∨ err = .error "Unexpected prologue: %v" ∨
          (3 ≤ buf.length ∧ IP.Equal (buf.getD 0 []) NewEcsCodec.GetPrologue = true ∧ ∃ text, err = .error text))) ∧
      (∀ (proto : EcsProtoServer) (err : Fault), proto.FetchData z ≠ some (.error err)) ∧
      (∀ (proto : CookieProtoServer) (buf rest : List (List Nat)),
        fetchLoop (fun part => part == NewCookieCodec.GetPrologue) (fun part => part == NewCookieCodec.GetEpilogue) proto.c [] = some (buf, rest) →
        buf ≠ [] ∧ buf.getD (buf.length - 1) [] = NewCookieCodec.GetEpilogue ∧
        (∀ t, NewCookieCodec.Decode z buf ≠ .error (.panic t)) ∧
        (∀ err, NewCookieCodec.Decode z buf = .error err →
          err = .error "Message too short" ∨ err = .error "Unexpected prologue: %v" ∨
          (3 ≤ buf.length ∧ buf.getD 0 [] = NewCookieCodec.GetPrologue ∧ ∃ text, err = .error text))) ∧
      (∀ (proto : CookieProtoServer) (err : Fault), proto.FetchData z ≠ some (.error err)) ∧
      (∀ (proto : DauProtoServer) (buf rest : List (List Nat)),
        fetchLoop (fun part => part == NewDauCodec.GetPrologue) (fun part => part == NewDauCodec.GetEpilogue) proto.c [] = some (buf, rest) →
        buf ≠ [] ∧ buf.getD (buf.length - 1) [] = NewDauCodec.GetEpilogue ∧
        (∀ t, NewDauCodec.Decode z buf ≠ .error (.panic t)) ∧
        (∀ err, NewDauCodec.Decode z buf = .error err →
          err = .error "Message too short" ∨ err = .error "Unexpected prologue: %v" ∨
          (3 ≤ buf.length ∧ buf.getD 0 [] = NewDauCodec.GetPrologue ∧ ∃ text, err = .error text))) ∧
      (∀ (proto : DauProtoServer) (err : Fault), proto.FetchData z ≠ some (.error err)) ∧
      (∀ (b : List Nat),
        b ++ [NewQtypeCodec.GetEpilogue] ≠ [] ∧
        (∀ t, NewQtypeCodec.Decode z (b ++ [NewQtypeCodec.GetEpilogue]) ≠ .error (.panic t)) ∧
        (∀ err, NewQtypeCodec.Decode z (b ++ [NewQtypeCodec.GetEpilogue]) = .error err →
          err = .error "Message too short" ∨ err = .error "Unexpected prologue: %v" ∨
          (3 ≤ (b ++ [NewQtypeCodec.GetEpilogue]).length ∧
            (b ++ [NewQtypeCodec.GetEpilogue]).getD 0 0 = NewQtypeCodec.GetPrologue ∧
            ∃ text, err = .error text))) ∧
      (∀ (proto : QtypeProtoServer) (r : Query), ∃ out, proto.serverHandler z r = .ok out) ∧
      (∀ (name atoms : List Nat) (proto : QtypeProtoServer),
        ∃ out, QtypeProtoServer.deliver z name proto atoms = .ok out) := by
  refine ⟨?_, ?_, ?_, ?_, ?_, ?_, ?_, qtype_handler_total z,
    fun name atoms proto => qtype_deliver_total z name atoms proto⟩
  · intro proto buf rest hloop
    rcases fetchLoop_closed _ _ _ _ _ _ hloop with ⟨b0, e, hb, he⟩
    subst hb
    have hnp : ∀ t, NewEcsCodec.Decode z (b0 ++ [e]) ≠ .error (.panic t) :=
      ecs_decode_closed z b0 e he
    refine ⟨by simp, by rw [getD_last_concat]; exact he, hnp, ?_⟩
    intro err herr
    by_cases hs : (b0 ++ [e]).length < 3
    · rw [ecs_decode_short z _ hs] at herr
      cases herr
      exact Or.inl rfl
    · by_cases hf : IP.Equal ((b0 ++ [e]).getD 0 []) NewEcsCodec.GetPrologue = true
      · right; right
        refine ⟨by omega, hf, ?_⟩
        cases err with
        | error text => exact ⟨text, rfl⟩
        | panic t => exact absurd herr (hnp t)
      · rw [ecs_decode_bad_prologue z _ hs (by simpa using hf)] at herr
        cases herr
        exact Or.inr (Or.inl rfl)
  · intro proto err hfd
    cases hloop : fetchLoop _ _ proto.c [] with
    | none =>
      unfold EcsProtoServer.FetchData at hfd
      rw [hloop] at hfd
      cases hfd
    | some br =>
      obtain ⟨b, rest⟩ := br
      rcases ecs_fetchData_eq z proto b rest hloop with ⟨d, _, hf⟩
      rw [hf] at hfd
      cases hfd
  · intro proto buf rest hloop
    rcases fetchLoop_closed _ _ _ _ _ _ hloop with ⟨b0, e, hb, he⟩
    subst hb
    have he2 : e = NewCookieCodec.GetEpilogue := beq_iff_eq.mp he
    subst he2
    have hnp : ∀ t, NewCookieCodec.Decode z (b0 ++ [NewCookieCodec.GetEpilogue]) ≠ .error (.panic t) :=
      cookie_decode_closed z b0
    refine ⟨by simp, getD_last_concat _ _ _, hnp, ?_⟩
    intro err herr
    by_cases hs : (b0 ++ [NewCookieCodec.GetEpilogue]).length < 3
    · rw [cookie_decode_short z _ hs] at herr
      cases herr
      exact Or.inl rfl
    · by_cases hf : (b0 ++ [NewCookieCodec.GetEpilogue]).getD 0 [] = NewCookieCodec.GetPrologue
      · right; right
        refine ⟨by omega, hf, ?_⟩
        cases err with
        | error text => exact ⟨text, rfl⟩
        | panic t => exact absurd herr (hnp t)
      · rw [cookie_decode_bad_prologue z _ hs hf] at herr
        cases herr
        exact Or.inr (Or.inl rfl)
  · intro proto err hfd
    cases hloop : fetchLoop _ _ proto.c [] with
    | none =>
      unfold CookieProtoServer.FetchData at hfd
      rw [hloop] at hfd
      cases hfd
    | some br =>
      obtain ⟨b, rest⟩ := br
      rcases cookie_fetchData_eq z proto b rest hloop with ⟨d, _, hf⟩
      rw [hf] at hfd
      cases hfd
  · intro proto buf rest hloop
    rcases fetchLoop_closed _ _ _ _ _ _ hloop with ⟨b0, e, hb, he⟩
    subst hb
    have he2 : e = NewDauCodec.GetEpilogue := beq_iff_eq.mp he
    subst he2
    have hnp : ∀ t, NewDauCodec.Decode z (b0 ++ [NewDauCodec.GetEpilogue]) ≠ .error (.panic t) :=
      dau_decode_closed z b0
    refine ⟨by simp, getD_last_concat _ _ _, hnp, ?_⟩
    intro err herr
    by_cases hs : (b0 ++ [NewDauCodec.GetEpilogue]).length < 3
    · rw [dau_decode_short z _ hs] at herr
      cases herr
      exact Or.inl rfl
    · by_cases hf : (b0 ++ [NewDauCodec.GetEpilogue]).getD 0 [] = NewDauCodec.GetPrologue
      · right; right
        refine ⟨by omega, hf, ?_⟩
        cases err with
        | error text => exact ⟨text, rfl⟩
        | panic t => exact absurd herr (hnp t)
      · rw [dau_decode_bad_prologue z _ hs hf] at herr
        cases herr
        exact Or.inr (Or.inl rfl)
  · intro proto err hfd
    cases hloop : fetchLoop _ _ proto.c [] with
    | none =>
      unfold DauProtoServer.FetchData at hfd
      rw [hloop] at hfd
      cases hfd
    | some br =>
      obtain ⟨b, rest⟩ := br
      rcases dau_fetchData_eq z proto b rest hloop with ⟨d, _, hf⟩
      rw [hf] at hfd
      cases hfd
  · intro b
    have hnp := qtype_decode_closed z b
    refine ⟨by simp, hnp, ?_⟩
    intro err herr
    by_cases hs : (b ++ [NewQtypeCodec.GetEpilogue]).length < 3
    · rw [qtype_decode_short z _ hs] at herr
      cases herr
      exact Or.inl rfl
    · by_cases hf : (b ++ [NewQtypeCodec.GetEpilogue]).getD 0 0 = NewQtypeCodec.GetPrologue
      · right; right
        refine ⟨by omega, hf, ?_⟩
        cases err with
        | error text => exact ⟨text, rfl⟩
        | panic t => exact absurd herr (hnp t)
      · rw [qtype_decode_bad_prologue z _ hs hf] at herr
        cases herr
        exact Or.inr (Or.inl rfl)

/-- A COOKIE queue with one chunk and the epilogue: the closed buffer ends with
the epilogue and `Decode` fails with "Unexpected prologue", not with a panic. -/
theorem reassembly_never_panics_witness :
    fetchLoop (fun part => part == NewCookieCodec.GetPrologue)
        (fun part => part == NewCookieCodec.GetEpilogue)
        [bytesOf "789c", NewCookieCodec.GetEpilogue] []
      = some ([bytesOf "789c", NewCookieCodec.GetEpilogue], []) ∧
    [bytesOf "789c", NewCookieCodec.GetEpilogue] ≠ [] ∧
    ∀ t, NewCookieCodec.Decode rawZlib [bytesOf "789c", NewCookieCodec.GetEpilogue]
      ≠ .error (.panic t) :=
  ⟨by decide,
    ((reassembly_never_panics rawZlib).2.2.1
      ⟨[], true, [bytesOf "789c", NewCookieCodec.GetEpilogue]⟩
      [bytesOf "789c", NewCookieCodec.GetEpilogue] [] (by decide)).1,
    ((reassembly_never_panics rawZlib).2.2.1
      ⟨[], true, [bytesOf "789c", NewCookieCodec.GetEpilogue]⟩
      [bytesOf "789c", NewCookieCodec.GetEpilogue] [] (by decide)).2.2.1⟩

/-! ## Sentinels inside an ECS or DAU frame -/

theorem ecsReference_shape (codec : EcsCodec) (msg : List Nat) :
    ∀ atom ∈ ecsReference codec msg,
      ∃ a b c d, atom = IPv4 a b c d ∧ (a = 1 ∨ a ∈ msg) ∧
        ∀ x ∈ [b, c, d], x = 0 ∨ x ∈ msg := by
  induction msg using triple_induction with
  | h0 => intro atom h; simp [ecsReference] at h
  | h1 x =>
    intro atom h
    simp only [ecsReference, List.mem_singleton] at h
    exact ⟨1, x, 0, 0, h, Or.inl rfl, by simp⟩
  | h2 x y =>
    intro atom h
    simp only [ecsReference, List.mem_cons, List.mem_singleton, List.not_mem_nil, or_false] at h
    rcases h with h | h
    · exact ⟨1, x, 0, 0, h, Or.inl rfl, by simp⟩
    · exact ⟨1, y, 0, 0, h, Or.inl rfl, by simp⟩
  | h3 a b c rest ih =>
    intro atom h
    simp only [ecsReference, List.mem_append] at h
    rcases h with h | h
    · unfold ecsTriple at h
      split at h
      · simp only [List.mem_cons, List.mem_singleton, List.not_mem_nil, or_false] at h
        rcases h with h | h
        · exact ⟨1, a, b, 0, h, Or.inl rfl, by simp⟩
        · exact ⟨1, c, 0, 0, h, Or.inl rfl, by simp⟩
      · simp only [List.mem_singleton] at h
        exact ⟨a, b, c, 0, h, Or.inr (by simp), by simp⟩
    · rcases ih atom h with ⟨a1, b1, c1, d1, he, hm, hrest⟩
      refine ⟨a1, b1, c1, d1, he, ?_, ?_⟩
      · rcases hm with hm | hm
        · exact Or.inl hm
        · exact Or.inr (by simp [hm])
      · intro x hx
        rcases hrest x hx with h0 | h0
        · exact Or.inl h0
        · exact Or.inr (by simp [h0])

/-- C23: for every byte string `c` taken as the compressor output, every byte of
an inner atom of `EcsCodec.Encode` is a base64 byte (between 43 and 122), 0,
or the escape prefix 1, and every byte of an inner atom of `DauCodec.Encode`
is a base64 byte; so no inner ECS atom equals `13.3.7.0` or `7.3.13.0`, no
inner DAU atom equals `[1,3,3,7,1,3,3,7]` or `[7,3,3,1,7,3,3,1]`, and the
sentinel tests of the two reassemblers are false on every inner atom. -/
theorem ecs_dau_no_sentinel_inside (c : List Nat) (hc : IsBytes c) :
    (∀ x ∈ b64Encode c, 43 ≤ x ∧ x ≤ 122) ∧
      (∀ atom ∈ innerAtoms (NewEcsCodec.expand (b64Encode c) ++ [NewEcsCodec.EPILOGUE]),
        (∃ a b c1 d, atom = IPv4 a b c1 d ∧
          ∀ x ∈ [a, b, c1, d], x = 0 ∨ x = 1 ∨ x ∈ b64Encode c) ∧
        atom ≠ IPv4 13 3 7 0 ∧ atom ≠ IPv4 7 3 13 0 ∧
        IP.Equal atom NewEcsCodec.GetPrologue = false ∧
        IP.Equal atom NewEcsCodec.GetEpilogue = false) ∧
      (∀ chunk ∈ DauCodec.chunkify (b64Encode c) 64,
        (∀ x ∈ chunk, x ∈ b64Encode c) ∧
        chunk ≠ [1, 3, 3, 7, 1, 3, 3, 7] ∧ chunk ≠ [7, 3, 3, 1, 7, 3, 3, 1] ∧
        (chunk == NewDauCodec.GetPrologue) = false ∧
        (chunk == NewDauCodec.GetEpilogue) = false) := by
  have ht := b64Encode_text c hc
  refine ⟨ht, ?_, ?_⟩
  · intro atom ha
    rw [expand_eq, List.cons_append, innerAtoms_frame] at ha
    rcases ecsReference_shape _ _ atom ha with ⟨a, b, c1, d, he, hm, hrest⟩
    subst he
    have h13 : a ≠ 13 ∧ a ≠ 7 := by
      rcases hm with hm | hm
      · omega
      · have := ht a hm
        omega
    refine ⟨⟨a, b, c1, d, rfl, ?_⟩, ?_, ?_, ipEqual_IPv4 _ _ _ _ _ _ _ _ h13.1,
      ipEqual_IPv4 _ _ _ _ _ _ _ _ h13.2⟩
    · intro x hx
      simp only [List.mem_cons, List.mem_singleton, List.not_mem_nil, or_false] at hx
      rcases hx with hx | hx
      · subst hx
        rcases hm with hm | hm
        · exact Or.inr (Or.inl hm)
        · exact Or.inr (Or.inr hm)
      · rcases hrest x (by simpa using hx) with h0 | h0
        · exact Or.inl h0
        · exact Or.inr (Or.inr h0)
    · intro h
      simp only [IPv4, List.append_cancel_left_eq, List.cons.injEq] at h
      exact h13.1 h.1
    · intro h
      simp only [IPv4, List.append_cancel_left_eq, List.cons.injEq] at h
      exact h13.2 h.1
  · intro chunk hch
    unfold DauCodec.chunkify at hch
    rw [if_neg (by decide)] at hch
    rcases chunkLoop_mem _ _ _ _ _ _ hch with h1 | ⟨h1, _⟩
    · simp at h1
    · have hp : chunk ≠ [1, 3, 3, 7, 1, 3, 3, 7] := by
        intro he
        have := ht 1 (h1 1 (by rw [he]; decide))
        omega
      have hq : chunk ≠ [7, 3, 3, 1, 7, 3, 3, 1] := by
        intro he
        have := ht 1 (h1 1 (by rw [he]; decide))
        omega
      exact ⟨h1, hp, hq, beq_eq_false_iff_ne.mpr hp, beq_eq_false_iff_ne.mpr hq⟩

/-- The stream `78 9c 1d 04 00 00`: its base64 text has a reserved triple, so
the ECS frame holds escape atoms, and none of its atoms is a sentinel. -/
theorem ecs_dau_no_sentinel_inside_witness :
    IsBytes [120, 156, 29, 4, 0, 0] ∧
      innerAtoms (NewEcsCodec.expand (b64Encode [120, 156, 29, 4, 0, 0]) ++
          [NewEcsCodec.EPILOGUE])
        = [IPv4 101 74 119 0, IPv4 1 100 66 0, IPv4 1 65 0 0, IPv4 1 65 0 0, IPv4 1 65 0 0] ∧
      IP.Equal (IPv4 1 100 66 0) NewEcsCodec.GetPrologue = false :=
  ⟨by decide, by decide,
    ((ecs_dau_no_sentinel_inside [120, 156, 29, 4, 0, 0] (by decide)).2.1 (IPv4 1 100 66 0)
      (by decide)).2.2.2.1⟩

/-! ## Acknowledgement of a delivered atom -/

theorem stringsContains_prefix (sub t : List Nat) : stringsContains (sub ++ t) sub = true := by
  have hp : sub.isPrefixOf (sub ++ t) = true :=
    List.isPrefixOf_iff_prefix.mpr (List.prefix_append sub t)
  cases h : sub ++ t with
  | nil =>
    rw [h] at hp
    simpa [stringsContains] using hp
  | cons ch rest =>
    rw [h] at hp
    simp [stringsContains, hp]

theorem stringsContains_self (sub : List Nat) : stringsContains sub sub = true := by
  have := stringsContains_prefix sub []
  rwa [List.append_nil] at this

theorem chunkLoop_mem_ne_nil (s : List Nat) (n : Nat) (hn : 0 < n) :
    ∀ (fuel i : Nat) (acc : List (List Nat)) (ch : List Nat), ch ∈ chunkLoop s n fuel i acc →
      ch ∈ acc ∨ ch ≠ [] := by
  intro fuel
  induction fuel with
  | zero => intro i acc ch h; left; simpa [chunkLoop] using h
  | succ f ih =>
    intro i acc ch h
    unfold chunkLoop at h
    by_cases hi : i < s.length
    · simp only [hi, if_true] at h
      rcases ih _ _ _ h with h1 | h1
      · rcases List.mem_append.mp h1 with h2 | h2
        · left; exact h2
        · right
          rw [List.mem_singleton] at h2
          intro hnil
          have hl : ch.length = 0 := by rw [hnil]; rfl
          rw [h2, List.length_drop, List.length_take] at hl
          split at hl <;> omega
      · right; exact h1
    · simp only [hi, if_false] at h
      left; exact h

theorem ecs_handler_answer (str : IP → List Nat) (proto : EcsProtoServer) (domain : List Nat)
    (a : IP) (ha : a ≠ []) :
    (proto.serverHandler str (EcsProtoClient.query domain TypeSVCB a)).2
      = [RR.SVCB { Name := domain, Rrtype := TypeSVCB, Class := ClassINET, Ttl := 0 }
          (str a ++ bytesOf ".")] := by
  unfold EcsProtoServer.serverHandler EcsProtoClient.query
  have h : ¬ TypeSVCB = TypeSOA := by decide
  simp only [h, ha, ne_eq, not_false_eq_true, if_true, if_false, firstSubnet]

theorem cookie_handler_answer (proto : CookieProtoServer) (domain : List Nat)
    (a : List Nat) (ha : a ≠ []) :
    (proto.serverHandler (CookieProtoClient.query domain TypeKX a)).2
      = [RR.KX { Name := domain, Rrtype := TypeKX, Class := ClassINET, Ttl := 0 }
          (a ++ bytesOf ".")] := by
  unfold CookieProtoServer.serverHandler CookieProtoClient.query
  have h : ¬ TypeKX = TypeSOA := by decide
  simp only [h, ha, ne_eq, not_false_eq_true, if_true, if_false, List.foldl_cons,
    List.foldl_nil, CookieProtoServer.optionStep, List.nil_append]

theorem dau_handler_answer (proto : DauProtoServer) (domain : List Nat)
    (a : List Nat) (ha : a ≠ []) :
    (proto.serverHandler (DauProtoClient.query domain TypeNAPTR a)).2
      = [RR.NAPTR { Name := domain, Rrtype := TypeNAPTR, Class := ClassINET, Ttl := 0 }
          (EncodeCmd a)] := by
  unfold DauProtoServer.serverHandler DauProtoClient.query
  have h : ¬ TypeNAPTR = TypeSOA := by decide
  simp only [h, ha, ne_eq, not_false_eq_true, if_true, if_false, List.foldl_cons,
    List.foldl_nil, DauProtoServer.optionStep, List.nil_append]

/-- C22: for the ECS, COOKIE and DAU channels and every atom `a` of an encoded
frame, sentinels included, `a` is non-empty, so the client attaches the
carrier option; the handler answers the client's query with one record, of
the channel's ack type, built from `a` (SVCB `Target = String(a) + "."`, KX
`Exchanger = a + "."`, NAPTR `Regexp = EncodeCmd(a)`), and that answer passes
the client's containment check for `a`. -/
theorem delivered_atom_acknowledged (z : Zlib) (P domain : List Nat) (str : IP → List Nat) :
    (∀ a ∈ NewEcsCodec.Encode z P, ∀ proto : EcsProtoServer,
        a ≠ [] ∧
        (EcsProtoClient.query domain TypeSVCB a).Edns = some [.SUBNET a] ∧
        (proto.serverHandler str (EcsProtoClient.query domain TypeSVCB a)).2
          = [RR.SVCB { Name := domain, Rrtype := TypeSVCB, Class := ClassINET, Ttl := 0 }
              (str a ++ bytesOf ".")] ∧
        EcsProtoClient.ackOk str
          (proto.serverHandler str (EcsProtoClient.query domain TypeSVCB a)).2 a = true) ∧
      (∀ a ∈ NewCookieCodec.Encode z P, ∀ proto : CookieProtoServer,
        a ≠ [] ∧
        (CookieProtoClient.query domain TypeKX a).Edns = some [.COOKIE 10 a] ∧
        (proto.serverHandler (CookieProtoClient.query domain TypeKX a)).2
          = [RR.KX { Name := domain, Rrtype := TypeKX, Class := ClassINET, Ttl := 0 }
              (a ++ bytesOf ".")] ∧
        CookieProtoClient.ackOk
          (proto.serverHandler (CookieProtoClient.query domain TypeKX a)).2 a = true) ∧
      (∀ a ∈ NewDauCodec.Encode z P, ∀ proto : DauProtoServer,
        a ≠ [] ∧
        (DauProtoClient.query domain TypeNAPTR a).Edns = some [.DAU a] ∧
        (proto.serverHandler (DauProtoClient.query domain TypeNAPTR a)).2
          = [RR.NAPTR { Name := domain, Rrtype := TypeNAPTR, Class := ClassINET, Ttl := 0 }
              (EncodeCmd a)] ∧
        DauProtoClient.ackOk
          (proto.serverHandler (DauProtoClient.query domain TypeNAPTR a)).2 a = true) := by
  refine ⟨?_, ?_, ?_⟩
  · intro a hmem proto
    have hne : a ≠ [] := by
      rw [ecsEncode_eq] at hmem
      simp only [List.mem_cons, List.mem_append, List.mem_singleton, List.not_mem_nil,
        or_false] at hmem
      rcases hmem with h | h | h
      · subst h; decide
      · rcases ecsReference_first_byte _ _ a h with ⟨a1, b1, c1, d1, he, _⟩
        subst he
        simp [IPv4, v4InV6Prefix]
      · subst h; decide
    refine ⟨hne, by simp [EcsProtoClient.query, hne], ecs_handler_answer str proto domain a hne, ?_⟩
    rw [ecs_handler_answer str proto domain a hne]
    exact stringsContains_prefix _ _
  · intro a hmem proto
    have hne : a ≠ [] := by
      rw [cookieEncode_eq] at hmem
      simp only [List.mem_cons, List.mem_append, List.mem_singleton, List.not_mem_nil,
        or_false] at hmem
      rcases hmem with h | h | h
      · subst h; decide
      · rcases chunkLoop_mem_ne_nil _ 32 (by decide) _ _ _ _ h with h1 | h1
        · simp at h1
        · exact h1
      · subst h; decide
    refine ⟨hne, by simp [CookieProtoClient.query, hne],
      cookie_handler_answer proto domain a hne, ?_⟩
    rw [cookie_handler_answer proto domain a hne]
    exact stringsContains_prefix _ _
  · intro a hmem proto
    have hne : a ≠ [] := by
      rw [dauEncode_eq] at hmem
      simp only [List.mem_cons, List.mem_append, List.mem_singleton, List.not_mem_nil,
        or_false] at hmem
      rcases hmem with h | h | h
      · subst h; decide
      · unfold DauCodec.chunkify at h
        rw [if_neg (by decide)] at h
        rcases chunkLoop_mem_ne_nil _ 64 (by decide) _ _ _ _ h with h1 | h1
        · simp at h1
        · exact h1
      · subst h; decide
    refine ⟨hne, by simp [DauProtoClient.query, hne], dau_handler_answer proto domain a hne, ?_⟩
    rw [dau_handler_answer proto domain a hne]
    exact stringsContains_self _

/-! ## A repeated delivery on the QTYPE channel -/

theorem qtypeAcks_getD (name : List Nat) :
    ∀ (l : List Nat) (s k : Nat), k < l.length →
      (qtypeAcks name s l).getD k []
        = [RR.Header { Name := name, Rrtype := l.getD k 0, Class := ClassINET,
                       Ttl := s + k + 1 }] := by
  intro l
  induction l with
  | nil => intro s k h; simp at h
  | cons a rest ih =>
    intro s k h
    cases k with
    | zero => simp [qtypeAcks]
    | succ k =>
      have hk : k < rest.length := by simpa using h
      simp only [qtypeAcks, List.getD_cons_succ]
      rw [ih (s + 1) k hk]
      have e : s + 1 + k + 1 = s + (k + 1) + 1 := by omega
      rw [e]

theorem ackOk_ttl_mismatch (name : List Nat) (x ttl i : Nat) (h : ttl ≠ i + 1) :
    QtypeProtoClient.ackOk
      [RR.Header { Name := name, Rrtype := x, Class := ClassINET, Ttl := ttl }] x i = false := by
  simp [QtypeProtoClient.ackOk, RR.Hdr, h]

/-- C24 (amended): in `QtypeProtoServer.serverHandler` a repeated delivery of an
atom that is neither the prologue value nor 6 is appended again: in a frame
whose atoms after the prologue are neither 12345 nor 6, after the server has
processed the atoms at positions `0..i` (`i >= 1`) and receives the atom at
position `i` a second time, the answer has `Ttl = i+2`, and the answer to
every later atom of the frame has `Ttl` equal to its 1-based position plus
one, so the client's check `Ttl == i+1` fails for the retry and for every
following atom. -/
theorem qtype_retry_shifts_ttl (z : Zlib) (name : List Nat) (proto : QtypeProtoServer)
    (mid post : List Nat) (x : Nat)
    (hmid : ∀ y ∈ mid, y ≠ TypeSOA ∧ y ≠ NewQtypeCodec.GetPrologue)
    (hx : x ≠ TypeSOA ∧ x ≠ NewQtypeCodec.GetPrologue)
    (hpost : ∀ y ∈ post, y ≠ TypeSOA ∧ y ≠ NewQtypeCodec.GetPrologue) :
    ∃ proto1 answers,
      QtypeProtoServer.deliver z name proto
          ((NewQtypeCodec.GetPrologue :: (mid ++ [x])) ++ x :: post) = .ok (proto1, answers) ∧
      proto1.buf = (NewQtypeCodec.GetPrologue :: (mid ++ [x])) ++ x :: post ∧
      answers.getD (mid.length + 2) []
        = [RR.Header { Name := name, Rrtype := x, Class := ClassINET,
                       Ttl := (mid.length + 1) + 2 }] ∧
      QtypeProtoClient.ackOk (answers.getD (mid.length + 2) []) x (mid.length + 1) = false ∧
      ∀ k, k < post.length →
        answers.getD (mid.length + 3 + k) []
          = [RR.Header { Name := name, Rrtype := post.getD k 0, Class := ClassINET,
                         Ttl := (mid.length + 2 + k) + 2 }] ∧
        QtypeProtoClient.ackOk (answers.getD (mid.length + 3 + k) []) (post.getD k 0)
          (mid.length + 2 + k) = false := by
  have h0 : proto.serverHandler z
      { Name := name, Qtype := NewQtypeCodec.GetPrologue, Edns := none }
      = .ok ({ proto with buf := [NewQtypeCodec.GetPrologue] },
          [RR.Header { Name := name, Rrtype := NewQtypeCodec.GetPrologue, Class := ClassINET,
                       Ttl := 1 }]) := by
    unfold QtypeProtoServer.serverHandler
    have e1 : ¬ NewQtypeCodec.GetPrologue = TypeSOA := by decide
    have e3 : ¬ NewQtypeCodec.GetPrologue = NewQtypeCodec.GetEpilogue := by decide
    simp only [e1, e3, if_true, if_false, List.nil_append, List.length_singleton]
  have htail : ∀ y ∈ (mid ++ [x]) ++ x :: post,
      y ≠ TypeSOA ∧ y ≠ NewQtypeCodec.GetPrologue := by
    intro y hy
    simp only [List.mem_append, List.mem_cons, List.mem_singleton, List.not_mem_nil,
      or_false] at hy
    rcases hy with (hy | hy) | hy | hy
    · exact hmid y hy
    · subst hy; exact hx
    · subst hy; exact hx
    · exact hpost y hy
  rcases qtype_deliver_content z name _ { proto with buf := [NewQtypeCodec.GetPrologue] }
    htail with ⟨p2, h2, hb2⟩
  have hlen : (NewQtypeCodec.GetPrologue :: (mid ++ [x])).length = mid.length + 2 := by simp
  have hall : QtypeProtoServer.deliver z name proto
      ((NewQtypeCodec.GetPrologue :: (mid ++ [x])) ++ x :: post)
      = .ok (p2, qtypeAcks name 0 ((NewQtypeCodec.GetPrologue :: (mid ++ [x])) ++ x :: post)) := by
    rw [List.cons_append, QtypeProtoServer.deliver, h0]
    simp only [h2, qtypeAcks, List.length_singleton, Nat.zero_add]
  have htot : ((NewQtypeCodec.GetPrologue :: (mid ++ [x])) ++ x :: post).length
      = mid.length + 3 + post.length := by
    simp only [List.length_append, List.length_cons, List.length_nil]
    omega
  have hretry : ((NewQtypeCodec.GetPrologue :: (mid ++ [x])) ++ x :: post).getD
      (mid.length + 2) 0 = x := by
    rw [List.getD_append_right _ _ _ _ (by rw [hlen]), hlen, Nat.sub_self]
    rfl
  have hlater : ∀ k, ((NewQtypeCodec.GetPrologue :: (mid ++ [x])) ++ x :: post).getD
      (mid.length + 3 + k) 0 = post.getD k 0 := by
    intro k
    rw [List.getD_append_right _ _ _ _ (by rw [hlen]; omega), hlen]
    have e : mid.length + 3 + k - (mid.length + 2) = k + 1 := by omega
    rw [e, List.getD_cons_succ]
  have hr := qtypeAcks_getD name _ 0 (mid.length + 2) (by rw [htot]; omega)
  rw [hretry] at hr
  have e1 : 0 + (mid.length + 2) + 1 = mid.length + 1 + 2 := by omega
  rw [e1] at hr
  refine ⟨p2, _, hall, ?_, hr, ?_, ?_⟩
  · rw [hb2]; rfl
  · rw [hr]
    exact ackOk_ttl_mismatch name x _ _ (by omega)
  · intro k hk
    have hq := qtypeAcks_getD name _ 0 (mid.length + 3 + k) (by rw [htot]; omega)
    rw [hlater k] at hq
    have e2 : 0 + (mid.length + 3 + k) + 1 = mid.length + 2 + k + 2 := by omega
    rw [e2] at hq
    refine ⟨hq, ?_⟩
    rw [hq]
    exact ackOk_ttl_mismatch name _ _ _ (by omega)

/-- The frame `[12345, 600, 700, 56789]` with the atom 700 at position 2
delivered twice: the retry is answered with `Ttl` 4 and the epilogue with 5. -/
theorem qtype_retry_shifts_ttl_witness :
    (∀ y ∈ [600], y ≠ TypeSOA ∧ y ≠ NewQtypeCodec.GetPrologue) ∧
      (700 ≠ TypeSOA ∧ 700 ≠ NewQtypeCodec.GetPrologue) ∧
      (∀ y ∈ [56789], y ≠ TypeSOA ∧ y ≠ NewQtypeCodec.GetPrologue) ∧
      ∃ proto1 answers,
        QtypeProtoServer.deliver rawZlib [] ⟨[], false, [], []⟩
            ((NewQtypeCodec.GetPrologue :: ([600] ++ [700])) ++ 700 :: [56789])
          = .ok (proto1, answers) ∧
        proto1.buf = (NewQtypeCodec.GetPrologue :: ([600] ++ [700])) ++ 700 :: [56789] ∧
        answers.getD ([600].length + 2) []
          = [RR.Header { Name := [], Rrtype := 700, Class := ClassINET,
                         Ttl := ([600].length + 1) + 2 }] ∧
        QtypeProtoClient.ackOk (answers.getD ([600].length + 2) []) 700 ([600].length + 1)
          = false ∧
        ∀ k, k < [56789].length →
          answers.getD ([600].length + 3 + k) []
            = [RR.Header { Name := [], Rrtype := [56789].getD k 0, Class := ClassINET,
                           Ttl := ([600].length + 2 + k) + 2 }] ∧
          QtypeProtoClient.ackOk (answers.getD ([600].length + 3 + k) []) ([56789].getD k 0)
            ([600].length + 2 + k) = false :=
  ⟨by decide, by decide, by decide,
    qtype_retry_shifts_ttl rawZlib [] ⟨[], false, [], []⟩ [600] [56789] 700 (by decide)
      (by decide) (by decide)⟩

/-- C24 fails as stated: in the frame `[12345, 40568, 6, 512, 56789]` the atom at
position 2 is 6, not the prologue; delivered a second time it is again
answered by the SOA branch with `Ttl` 0, not 4, and it is never appended. -/
theorem qtype_retry_of_soa_atom :
    QtypeProtoServer.deliver rawZlib [] ⟨[], false, [], []⟩ [12345, 40568, 6, 6]
      = .ok (⟨[], false, [12345, 40568], []⟩,
          [[RR.Header ⟨[], 12345, 1, 1⟩], [RR.Header ⟨[], 40568, 1, 2⟩], [soaAnswer [] []],
           [soaAnswer [] []]]) ∧
      (soaAnswer [] []).Hdr.Ttl = 0 := by
  decide

/-! ## The echo test of the clients -/

theorem stringsContains_iff_infix (s sub : List Nat) :
    stringsContains s sub = true ↔ sub <:+: s := by
  induction s with
  | nil =>
    simp only [stringsContains, List.isPrefixOf_iff_prefix, List.prefix_nil, List.infix_nil]
  | cons ch rest ih =>
    simp only [stringsContains, Bool.or_eq_true, List.isPrefixOf_iff_prefix, ih,
      List.infix_cons_iff]

theorem infix_dot_eq (a b : List Nat) (h : a <:+: b ++ [46]) (hl : a.length = b.length)
    (hdot : 46 ∉ a) : a = b := by
  rcases h with ⟨u, v, huv⟩
  have hlen : u.length + a.length + v.length = b.length + 1 := by
    have := congrArg List.length huv
    simp only [List.length_append, List.length_singleton] at this
    omega
  cases u with
  | nil =>
    rw [List.nil_append] at huv
    exact (List.append_inj huv hl).1
  | cons c u1 =>
    have hv : v = [] := List.length_eq_zero.mp (by simp only [List.length_cons] at hlen; omega)
    have hu : u1 = [] := List.length_eq_zero.mp (by simp only [List.length_cons] at hlen; omega)
    subst hv hu
    rw [List.append_nil] at huv
    cases b with
    | nil => exact List.length_eq_zero.mp (by simpa using hl)
    | cons b0 b1 =>
      exfalso
      have hlast : ([c] ++ a).getLast? = some 46 := by
        rw [huv]
        exact List.getLast?_concat (b0 :: b1)
      cases a with
      | nil => simp at hl
      | cons a0 a1 =>
        rw [List.singleton_append, List.getLast?_cons_cons] at hlast
        exact hdot (List.mem_of_getLast?_eq_some hlast)

theorem qtype_handler_rrtype (z : Zlib) (proto : QtypeProtoServer) (r : Query)
    (out : QtypeProtoServer × List RR) (h : proto.serverHandler z r = .ok out) :
    ∃ rr, out.2 = [rr] ∧ rr.Hdr.Rrtype = r.Qtype := by
  unfold QtypeProtoServer.serverHandler at h
  by_cases h6 : r.Qtype = TypeSOA
  · simp only [h6, if_true] at h
    cases h
    exact ⟨_, rfl, h6.symm⟩
  · simp only [h6, if_false] at h
    by_cases he : r.Qtype = NewQtypeCodec.GetEpilogue
    · rw [if_pos he] at h
      split at h
      · cases h
        exact ⟨_, rfl, rfl⟩
      · cases h
    · rw [if_neg he] at h
      cases h
      exact ⟨_, rfl, rfl⟩

/-- C21 (amended): on the QTYPE channel the answer the server builds for an atom
`b` is rejected by the client's check while it waits on any other atom `a`. On
the ECS, COOKIE and DAU channels the check is a substring test: the answer
built for `b` is accepted while the client waits on `a` exactly when the text
of `a` (`String(a)`, `a`, `EncodeCmd(a)`) occurs in the echo field built from
`b` (`String(b) + "."`, `b + "."`, `EncodeCmd(b)`); two distinct COOKIE chunks
of equal length and two distinct DAU atoms of equal length are rejected. -/
theorem ack_echo_check (z : Zlib) (str : IP → List Nat) (domain : List Nat) :
    (∀ (proto : QtypeProtoServer) (a b i : Nat) (out : QtypeProtoServer × List RR), a ≠ b →
        proto.serverHandler z { Name := domain, Qtype := b, Edns := none } = .ok out →
        QtypeProtoClient.ackOk out.2 a i = false) ∧
      (∀ (proto : EcsProtoServer) (a b : IP), b ≠ [] →
        (EcsProtoClient.ackOk str
            (proto.serverHandler str (EcsProtoClient.query domain TypeSVCB b)).2 a = true ↔
          str a <:+: str b ++ bytesOf ".")) ∧
      (∀ (proto : CookieProtoServer) (a b : List Nat), b ≠ [] →
        (CookieProtoClient.ackOk
            (proto.serverHandler (CookieProtoClient.query domain TypeKX b)).2 a = true ↔
          a <:+: b ++ bytesOf ".") ∧
        (a ≠ b → a.length = b.length → 46 ∉ a →
          CookieProtoClient.ackOk
            (proto.serverHandler (CookieProtoClient.query domain TypeKX b)).2 a = false)) ∧
      (∀ (proto : DauProtoServer) (a b : List Nat), b ≠ [] →
        (DauProtoClient.ackOk
            (proto.serverHandler (DauProtoClient.query domain TypeNAPTR b)).2 a = true ↔
          EncodeCmd a <:+: EncodeCmd b) ∧
        (a ≠ b → a.length = b.length → IsBytes a → IsBytes b →
          DauProtoClient.ackOk
            (proto.serverHandler (DauProtoClient.query domain TypeNAPTR b)).2 a = false)) := by
  refine ⟨?_, ?_, ?_, ?_⟩
  · intro proto a b i out hab h
    rcases qtype_handler_rrtype z proto _ out h with ⟨rr, ho, hr⟩
    rw [ho]
    simp only [QtypeProtoClient.ackOk, hr, Bool.and_eq_false_imp, beq_iff_eq]
    intro hba
    exact absurd hba.symm hab
  · intro proto a b hb
    rw [ecs_handler_answer str proto domain b hb]
    exact stringsContains_iff_infix _ _
  · intro proto a b hb
    rw [cookie_handler_answer proto domain b hb]
    have hiff : CookieProtoClient.ackOk
        [RR.KX { Name := domain, Rrtype := TypeKX, Class := ClassINET, Ttl := 0 }
          (b ++ bytesOf ".")] a = true ↔ a <:+: b ++ bytesOf "." :=
      stringsContains_iff_infix _ _
    refine ⟨hiff, ?_⟩
    intro hab hl hdot
    cases hq : CookieProtoClient.ackOk
        [RR.KX { Name := domain, Rrtype := TypeKX, Class := ClassINET, Ttl := 0 }
          (b ++ bytesOf ".")] a with
    | false => rfl
    | true => exact absurd (infix_dot_eq a b (hiff.mp hq) hl hdot) hab
  · intro proto a b hb
    rw [dau_handler_answer proto domain b hb]
    have hiff : DauProtoClient.ackOk
        [RR.NAPTR { Name := domain, Rrtype := TypeNAPTR, Class := ClassINET, Ttl := 0 }
          (EncodeCmd b)] a = true ↔ EncodeCmd a <:+: EncodeCmd b :=
      stringsContains_iff_infix _ _
    refine ⟨hiff, ?_⟩
    intro hab hl ha hbb
    cases hq : DauProtoClient.ackOk
        [RR.NAPTR { Name := domain, Rrtype := TypeNAPTR, Class := ClassINET, Ttl := 0 }
          (EncodeCmd b)] a with
    | false => rfl
    | true =>
      have hinf := hiff.mp hq
      have hlen : (EncodeCmd a).length = (EncodeCmd b).length := by
        simp only [EncodeCmd, List.length_append, hexEncode_length, hl]
      have heq := hinf.eq_of_length hlen
      unfold EncodeCmd at heq
      have hhex := List.append_cancel_right heq
      exact absurd (hexEncode_injective a b ha hbb hhex) hab

/-- Two full COOKIE chunks that differ in their last character: the answer built
for one is rejected while the client waits on the other. -/
theorem ack_echo_check_witness :
    bytesOf "789c4b4c4a06000248012700000000ff" ≠ bytesOf "789c4b4c4a06000248012700000000fe" ∧
      CookieProtoClient.ackOk
        (CookieProtoServer.serverHandler ⟨[], true, []⟩
          (CookieProtoClient.query [] TypeKX (bytesOf "789c4b4c4a06000248012700000000fe"))).2
        (bytesOf "789c4b4c4a06000248012700000000ff") = false :=
  ⟨by decide,
    ((ack_echo_check rawZlib ipv4String []).2.2.1 ⟨[], true, []⟩
      (bytesOf "789c4b4c4a06000248012700000000ff") (bytesOf "789c4b4c4a06000248012700000000fe")
      (by decide)).2 (by decide) (by decide) (by decide)⟩

/-- C21 fails as stated on the three option channels. ECS: the base64 text
`3dBdBA` gives the atoms `51.100.66.0` and `1.100.66.0`, and the answer built
for the first, `51.100.66.0.`, contains the text of the second. COOKIE: a
17-byte stream gives the chunks `789c…` and `9c`, and the answer built for
the first contains the second. DAU: a 51-byte stream gives a 64-byte chunk
and the chunk `AAAA`, whose hex text ends the hex text of the first. -/
theorem ack_for_other_atom_accepted :
    (IPv4 51 100 66 0 ∈ ecsReference NewEcsCodec [51, 100, 66, 100, 66, 65] ∧
      IPv4 1 100 66 0 ∈ ecsReference NewEcsCodec [51, 100, 66, 100, 66, 65] ∧
      IP.Equal (IPv4 1 100 66 0) (IPv4 51 100 66 0) = false ∧
      EcsProtoClient.ackOk ipv4String
        (EcsProtoServer.serverHandler ipv4String ⟨[], true, []⟩
          (EcsProtoClient.query [] TypeSVCB (IPv4 51 100 66 0))).2 (IPv4 1 100 66 0) = true) ∧
    (CookieCodec.chunkify
        (hexEncodeToString ([120, 156] ++ List.replicate 14 0 ++ [156])) 32
        = [bytesOf "789c0000000000000000000000000000", bytesOf "9c"] ∧
      CookieProtoClient.ackOk
        (CookieProtoServer.serverHandler ⟨[], true, []⟩
          (CookieProtoClient.query [] TypeKX (bytesOf "789c0000000000000000000000000000"))).2
        (bytesOf "9c") = true) ∧
    (DauCodec.chunkify (b64Encode ([120, 156] ++ List.replicate 49 0)) 64
        = [bytesOf "eJwAAAAAAAAAAAAAAAAAAAAAAAAAAAAAAAAAAAAAAAAAAAAAAAAAAAAAAAAAAAAA",
           bytesOf "AAAA"] ∧
      DauProtoClient.ackOk
        (DauProtoServer.serverHandler ⟨[], true, []⟩
          (DauProtoClient.query [] TypeNAPTR
            (bytesOf "eJwAAAAAAAAAAAAAAAAAAAAAAAAAAAAAAAAAAAAAAAAAAAAAAAAAAAAAAAAAAAAA"))).2
        (bytesOf "AAAA") = true) := by
  refine ⟨⟨by decide, by decide, by decide, by decide⟩, ⟨by decide, by decide⟩,
    ⟨by decide, by decide⟩⟩

end Siphon
